import Mathlib

/-!
# Voxel sandbox: chunk meshing, chunk store queries and collision resolution

A shallow embedding of `ChunkMeshBuilder.h`, `ChunkManager.h` and the
`UpdatePositionSystem` of `main.cpp`.

Conventions of the embedding:
* In the chunk store and the collision resolver a C++ `float` is a rational that is
  a binary32 value; every float operation rounds its exact result with `f32` (round
  to nearest, ties to even, subnormal numbers included). Infinities, NaN and the
  sign of zero are not represented. A C++ `int` is an `Int` in the 32-bit range:
  `castInt` is the conversion from a float, `wrapInt` the reduction of an `int`
  result. The definitions take the arithmetic as a parameter `A : Arith`;
  `machine` is the arithmetic of the program, `exact` the arithmetic without
  rounding and overflow.
* In the mesh builder all float values are integers of magnitude at most 18 or
  table constants, on which float arithmetic is exact; they are rationals, and the
  cast `(int)` of a float is truncation toward zero (`toInt`).
* `floor`/`ceil` are `Int.floor`/`Int.ceil`.
* `unsigned short` / `unsigned char` stores are modelled by `Nat` with an explicit
  reduction modulo `2^16` / `2^8` at the place of the conversion.
* `std::vector` is a `List`, `push_back` appends at the end.
* A C array that is only read is a function of its indices.
-/

namespace Voxel

/-- The constant `CHUNK_SIZE` of `ChunkMeshBuilder.h`. -/
def CHUNK_SIZE : Int := 16

/-- The raylib type `Vector3` (three floats). -/
structure Vector3 where
  x : ℚ
  y : ℚ
  z : ℚ
deriving DecidableEq

/-- The raylib type `Vector2` (two floats). -/
structure Vector2 where
  x : ℚ
  y : ℚ
deriving DecidableEq

/-- The C++ conversion `(int)q` of a float: truncation toward zero. -/
def toInt (q : ℚ) : Int := if 0 ≤ q then Int.floor q else Int.ceil q

namespace VoxelData

/-- The table `CubeVertices[8]`. -/
def CubeVertices : List Vector3 :=
  [⟨0, 0, 0⟩, ⟨1, 0, 0⟩, ⟨1, 1, 0⟩, ⟨0, 1, 0⟩, ⟨0, 0, 1⟩, ⟨1, 0, 1⟩, ⟨1, 1, 1⟩, ⟨0, 1, 1⟩]

/-- The table `FaceVertexIndices[6][4]`. -/
def FaceVertexIndices : List (List Nat) :=
  [[3, 7, 2, 6], [1, 5, 0, 4], [1, 2, 5, 6], [4, 7, 0, 3], [5, 6, 4, 7], [0, 3, 1, 2]]

/-- The table `FaceUVs[4]`. -/
def FaceUVs : List Vector2 := [⟨0, 0⟩, ⟨0, 1⟩, ⟨1, 0⟩, ⟨1, 1⟩]

/-- The table `FaceChecks[6]`. -/
def FaceChecks : List Vector3 :=
  [⟨0, 1, 0⟩, ⟨0, -1, 0⟩, ⟨1, 0, 0⟩, ⟨-1, 0, 0⟩, ⟨0, 0, 1⟩, ⟨0, 0, -1⟩]

/-- The table `FaceNormals[6]`. -/
def FaceNormals : List Vector3 :=
  [⟨0, 1, 0⟩, ⟨0, -1, 0⟩, ⟨1, 0, 0⟩, ⟨-1, 0, 0⟩, ⟨0, 0, 1⟩, ⟨0, 0, -1⟩]

/-- Read `CubeVertices[FaceVertexIndices[f][v]]`. -/
def faceVertex (f v : Nat) : Vector3 :=
  CubeVertices.getD ((FaceVertexIndices.getD f []).getD v 0) ⟨0, 0, 0⟩

/-- Read `FaceChecks[f]`. -/
def faceCheck (f : Nat) : Vector3 := FaceChecks.getD f ⟨0, 0, 0⟩

/-- Read `FaceNormals[f]`. -/
def faceNormal (f : Nat) : Vector3 := FaceNormals.getD f ⟨0, 0, 0⟩

/-- Read `FaceUVs[v]`. -/
def faceUV (v : Nat) : Vector2 := FaceUVs.getD v ⟨0, 0⟩

/-- The body of the double loop of `PrecomputeAO` for one `(f, v)`: the three
entries `CachedAOOffsets[f][v][0..2]` (side 1, side 2, corner). -/
def PrecomputeAO (f v : Nat) : Vector3 × Vector3 × Vector3 :=
  let vPosLocal := faceVertex f v
  let vDir : Vector3 :=
    ⟨(vPosLocal.x - 1 / 2) * 2, (vPosLocal.y - 1 / 2) * 2, (vPosLocal.z - 1 / 2) * 2⟩
  let s1s2 : Vector3 × Vector3 :=
    if (faceCheck f).x ≠ 0 then
      (⟨0, vDir.y, 0⟩, ⟨0, 0, vDir.z⟩)
    else if (faceCheck f).y ≠ 0 then
      (⟨vDir.x, 0, 0⟩, ⟨0, 0, vDir.z⟩)
    else
      (⟨vDir.x, 0, 0⟩, ⟨0, vDir.y, 0⟩)
  let s1 := s1s2.1
  let s2 := s1s2.2
  (s1, s2, ⟨s1.x + s2.x, s1.y + s2.y, s1.z + s2.z⟩)

/-- The table `CachedAOOffsets[f][v][k]` once `PrecomputeAO` has run. -/
def CachedAOOffsets (f v k : Nat) : Vector3 :=
  match k with
  | 0 => (PrecomputeAO f v).1
  | 1 => (PrecomputeAO f v).2.1
  | _ => (PrecomputeAO f v).2.2

end VoxelData

open VoxelData

/-- The argument of `GenerateMesh`: `unsigned char voxels[N+2][N+2][N+2]`, read at
indices `0..N+1` only. -/
abbrev PaddedBuffer := Int → Int → Int → Nat

/-- The lambda `getV` of `GenerateMesh`. -/
def getV (voxels : PaddedBuffer) (x y z : Int) : Bool :=
  if x < 0 ∨ x ≥ CHUNK_SIZE + 2 ∨ y < 0 ∨ y ≥ CHUNK_SIZE + 2 ∨ z < 0 ∨ z ≥ CHUNK_SIZE + 2 then
    false
  else
    voxels x y z != 0

/-- The five output vectors and the vertex counter of `GenerateMesh`. -/
structure MeshBuffers where
  vertices : List ℚ
  texcoords : List ℚ
  normals : List ℚ
  indices : List Nat
  colors : List Nat
  vertexCount : Int

/-- The state of `GenerateMesh` before its loops. -/
def MeshBuffers.empty : MeshBuffers := ⟨[], [], [], [], [], 0⟩

/-- The value `vertexAO[v]` computed for corner `v` of face `f`, the adjacent cell
being `(nx, ny, nz)`. -/
def vertexAO (voxels : PaddedBuffer) (f : Nat) (nx ny nz : Int) (v : Nat) : Int :=
  let s1 := VoxelData.CachedAOOffsets f v 0
  let s2 := VoxelData.CachedAOOffsets f v 1
  let c := VoxelData.CachedAOOffsets f v 2
  let side1 := getV voxels (nx + toInt s1.x) (ny + toInt s1.y) (nz + toInt s1.z)
  let side2 := getV voxels (nx + toInt s2.x) (ny + toInt s2.y) (nz + toInt s2.z)
  let corner := getV voxels (nx + toInt c.x) (ny + toInt c.y) (nz + toInt c.z)
  if side1 && side2 then 3 else ((side1.toNat + side2.toNat + corner.toNat : Nat) : Int)

/-- The conversion of an `int` to `unsigned char`. -/
def toUChar (i : Int) : Nat := (i % 256).toNat

/-- The conversion of an `int` to `unsigned short`. -/
def toUShort (i : Int) : Nat := (i % 65536).toNat

/-- The body of the loop over the corners `v` of one emitted face. -/
def pushVertex (voxels : PaddedBuffer) (x y z : Int) (f : Nat) (nx ny nz : Int)
    (b : MeshBuffers) (v : Nat) : MeshBuffers :=
  let vPos := VoxelData.faceVertex f v
  let brightness := toUChar (255 - vertexAO voxels f nx ny nz v * 50)
  { b with
    vertices := b.vertices ++ [vPos.x + x - 1, vPos.y + y - 1, vPos.z + z - 1]
    texcoords := b.texcoords ++ [(VoxelData.faceUV v).x, (VoxelData.faceUV v).y]
    normals := b.normals ++
      [(VoxelData.faceNormal f).x, (VoxelData.faceNormal f).y, (VoxelData.faceNormal f).z]
    colors := b.colors ++ [brightness, brightness, brightness, 255] }

/-- The six index pushes of one emitted face and the increment of `vertexCount`. -/
def pushIndices (voxels : PaddedBuffer) (f : Nat) (nx ny nz : Int) (b : MeshBuffers) :
    MeshBuffers :=
  let ao := vertexAO voxels f nx ny nz
  let n := b.vertexCount
  let tri : List Nat :=
    if ao 0 + ao 3 > ao 1 + ao 2 then
      [toUShort (n + 0), toUShort (n + 1), toUShort (n + 2),
       toUShort (n + 2), toUShort (n + 1), toUShort (n + 3)]
    else
      [toUShort (n + 0), toUShort (n + 1), toUShort (n + 3),
       toUShort (n + 0), toUShort (n + 3), toUShort (n + 2)]
  { b with indices := b.indices ++ tri, vertexCount := n + 4 }

/-- The body of the loop over the faces `f` of the cell `(x, y, z)`. -/
def faceStep (voxels : PaddedBuffer) (x y z : Int) (b : MeshBuffers) (f : Nat) : MeshBuffers :=
  let nx := x + toInt (VoxelData.faceCheck f).x
  let ny := y + toInt (VoxelData.faceCheck f).y
  let nz := z + toInt (VoxelData.faceCheck f).z
  if getV voxels nx ny nz then b
  else pushIndices voxels f nx ny nz ((List.range 4).foldl (pushVertex voxels x y z f nx ny nz) b)

/-- The body of the innermost cell loop (over `z`) of `GenerateMesh`. -/
def cellStep (voxels : PaddedBuffer) (x y : Int) (b : MeshBuffers) (z : Int) : MeshBuffers :=
  if voxels x y z = 0 then b
  else (List.range 6).foldl (faceStep voxels x y z) b

/-- The values taken by a loop `for (int i = lo; i < hi; i++)`, in order. -/
def intRange (lo hi : Int) : List Int :=
  (List.range (hi - lo).toNat).map (fun (i : Nat) => lo + (i : Int))

/-- The values taken by a loop `for (int i = 1; i <= CHUNK_SIZE; i++)`. -/
def interiorRange : List Int := intRange 1 (CHUNK_SIZE + 1)

/-- The three nested cell loops of `GenerateMesh`. -/
def meshLoops (voxels : PaddedBuffer) : MeshBuffers :=
  interiorRange.foldl (fun b x =>
    interiorRange.foldl (fun b y =>
      interiorRange.foldl (cellStep voxels x y) b) b) MeshBuffers.empty

/-- The raylib type `Mesh`, restricted to the fields `GenerateMesh` sets; a null
pointer is the empty list. -/
structure Mesh where
  vertexCount : Int
  triangleCount : Int
  vertices : List ℚ
  texcoords : List ℚ
  normals : List ℚ
  indices : List Nat
  colors : List Nat

/-- The function `ChunkMeshBuilder::GenerateMesh`. -/
def GenerateMesh (voxels : PaddedBuffer) : Mesh :=
  let b := meshLoops voxels
  if b.vertexCount > 0 then
    { vertexCount := b.vertexCount
      triangleCount := (b.indices.length : Int) / 3
      vertices := b.vertices
      texcoords := b.texcoords
      normals := b.normals
      indices := b.indices
      colors := b.colors }
  else ⟨0, 0, [], [], [], [], []⟩

/-- A face of a cell of the padded buffer: the cell `(x, y, z)` and the face number. -/
abbrev Face := Int × Int × Int × Nat

/-- The twelve position floats pushed for one emitted face (lines 89-92). -/
def quadVertices (p : Face) : List ℚ :=
  (List.range 4).flatMap fun v =>
    [(faceVertex p.2.2.2 v).x + p.1 - 1, (faceVertex p.2.2.2 v).y + p.2.1 - 1,
     (faceVertex p.2.2.2 v).z + p.2.2.1 - 1]

/-- The twelve normal floats pushed for one emitted face (lines 95-97). -/
def quadNormals (p : Face) : List ℚ :=
  (List.range 4).flatMap fun _ =>
    [(faceNormal p.2.2.2).x, (faceNormal p.2.2.2).y, (faceNormal p.2.2.2).z]

/-- The faces of the cell `(x, y, z)` that pass both `continue` tests of
`GenerateMesh`, in loop order. -/
def cellFaces (voxels : PaddedBuffer) (x y z : Int) : List Face :=
  if voxels x y z = 0 then []
  else (List.range 6).flatMap fun f =>
    if getV voxels (x + toInt (faceCheck f).x) (y + toInt (faceCheck f).y)
        (z + toInt (faceCheck f).z) then []
    else [(x, y, z, f)]

/-- All faces that pass both `continue` tests of `GenerateMesh`, in loop order. -/
def visibleFaces (voxels : PaddedBuffer) : List Face :=
  interiorRange.flatMap fun x =>
    interiorRange.flatMap fun y =>
      interiorRange.flatMap fun z => cellFaces voxels x y z

/-- The buffers `b` hold exactly the quads of the faces `fs`, in order. -/
def Emitted (fs : List Face) (b : MeshBuffers) : Prop :=
  b.vertices = fs.flatMap quadVertices ∧ b.normals = fs.flatMap quadNormals ∧
  b.vertexCount = 4 * (fs.length : Int) ∧ b.indices.length = 6 * fs.length ∧
  b.texcoords.length = 8 * fs.length ∧ b.colors.length = 16 * fs.length

/-- The integer direction `((int)FaceChecks[f].x, (int)FaceChecks[f].y, (int)FaceChecks[f].z)`
added to a cell to reach the adjacent cell across face `f`. -/
def faceDir (f : Nat) : Int × Int × Int :=
  (toInt (faceCheck f).x, toInt (faceCheck f).y, toInt (faceCheck f).z)

/-- The set of (interior cell, face) pairs whose cell is solid and whose adjacent
cell across the face is empty. -/
def exposedFaces (voxels : PaddedBuffer) : Finset Face :=
  (Finset.Icc (1 : Int) 16 ×ˢ Finset.Icc (1 : Int) 16 ×ˢ Finset.Icc (1 : Int) 16 ×ˢ
    Finset.range 6).filter fun p =>
      voxels p.1 p.2.1 p.2.2.1 ≠ 0 ∧
      voxels (p.1 + (faceDir p.2.2.2).1) (p.2.1 + (faceDir p.2.2.2).2.1)
        (p.2.2.1 + (faceDir p.2.2.2).2.2) = 0

/-- The faces of the cell `(a, b, c)` whose adjacent cell is empty. -/
def openFaces (voxels : PaddedBuffer) (a b c : Int) : Finset Nat :=
  (Finset.range 6).filter fun f =>
    voxels (a + (faceDir f).1) (b + (faceDir f).2.1) (c + (faceDir f).2.2) = 0

/-- The exposed faces of one solid interior cell. -/
def cellExposed (voxels : PaddedBuffer) (a b c : Int) : Finset Face :=
  (openFaces voxels a b c).image fun f => (a, b, c, f)

/-- The face opposite to face `g` (the one with the negated direction). -/
def oppositeFace (g : Nat) : Nat := [1, 0, 3, 2, 5, 4].getD g 0

/-- A padded buffer whose only solid cell is the interior cell `(1, 1, 1)`. -/
def singleVoxelBuffer : PaddedBuffer :=
  fun i j k => if i = 1 ∧ j = 1 ∧ k = 1 then 1 else 0

/-- A padded buffer whose only solid cells are the interior cells `(1, 1, 1)` and
`(1, 2, 1)`, which share a face. -/
def pairVoxelBuffer : PaddedBuffer :=
  fun i j k => if (i = 1 ∧ j = 1 ∧ k = 1) ∨ (i = 1 ∧ j = 2 ∧ k = 1) then 1 else 0

/-- The struct `ChunkPos` of `ChunkManager.h`. -/
structure ChunkPos where
  x : Int
  y : Int
  z : Int
deriving DecidableEq

/-- The comparison `ChunkPos::operator<`. -/
def ChunkPos.lt (a other : ChunkPos) : Bool :=
  if a.x ≠ other.x then decide (a.x < other.x)
  else if a.y ≠ other.y then decide (a.y < other.y)
  else decide (a.z < other.z)

/-- The struct `Chunk`, restricted to its array `voxels[N][N][N]` (read at indices
`0..N-1` only); the rendering fields `model`, `position`, `isModified` are not used
by the queries. -/
structure Chunk where
  voxels : Int → Int → Int → Nat

/-- The member `std::map<ChunkPos, Chunk*> chunks`: the entries of the map. -/
abbrev ChunkStore := List (ChunkPos × Chunk)

/-- The lookup `chunks.find(k)`: the entry whose key is equivalent to `k` under
`operator<` (neither is less than the other), `none` for `chunks.end()`. -/
def ChunkStore.find (chunks : ChunkStore) (k : ChunkPos) : Option Chunk :=
  (List.find? (fun e => !(e.1.lt k) && !(k.lt e.1)) chunks).map Prod.snd
/-- The power of two `2^e` as a rational. -/
def pow2 (e : Int) : ℚ :=
  if 0 ≤ e then ((2 ^ e.toNat : Nat) : ℚ) else 1 / ((2 ^ (-e).toNat : Nat) : ℚ)

/-- Rounding of a rational to the nearest integer, a tie going to the even one. -/
def roundEven (x : ℚ) : Int :=
  if x - (Int.floor x : ℚ) < 1 / 2 then Int.floor x
  else if 1 / 2 < x - (Int.floor x : ℚ) then Int.floor x + 1
  else if Int.floor x % 2 = 0 then Int.floor x
  else Int.floor x + 1

/-- Search of the exponent of the unit in the last place of `n / d`, counted from
`-149`: the least `j ≥ j₀` with `n / d < 2^(j - 125)`, looking at most `fuel`
exponents further (one of the two powers of two in the test is `1`). -/
def ulpSearch (n d : Nat) : Nat → Nat → Nat
  | 0, j => j
  | fuel + 1, j =>
    if n * 2 ^ (125 - j) < d * 2 ^ (j - 125) then j else ulpSearch n d fuel (j + 1)

/-- A bisection that brings the search close to its result: with `k` bits to go, the
exponent `j` is advanced by `2^(k-1)` when `n / d < 2^(j + 2^(k-1) - 1 - 125)` does
not hold. It never passes the least `j` with `n / d < 2^(j - 125)`. -/
def ulpBisect (n d : Nat) : Nat → Nat → Nat
  | 0, j => j
  | k + 1, j =>
    if n * 2 ^ (125 - (j + 2 ^ k - 1)) < d * 2 ^ (j + 2 ^ k - 1 - 125) then ulpBisect n d k j
    else ulpBisect n d k (j + 2 ^ k)

/-- The exponent of the unit in the last place of binary32 at `q`: `-149` for the
subnormal numbers and the first binade, and `k` with `2^(k+23) ≤ |q| < 2^(k+24)`
above (the search always has enough fuel). -/
def ulpExp (q : ℚ) : Int :=
  (ulpSearch q.num.natAbs q.den (150 + q.num.natAbs) (ulpBisect q.num.natAbs q.den 9 0) : Int)
    - 149

/-- The value that a `float` (IEEE 754 binary32) operation stores when its exact
result is `q`: `q` rounded to the nearest multiple of the unit in the last place, a
tie going to the even multiple (24 significant bits, subnormal numbers included).
The exponent is not bounded above, so that an overflow to infinity is not
represented; there is no NaN and no negative zero. -/
def f32 (q : ℚ) : ℚ := (roundEven (q / pow2 (ulpExp q)) : ℚ) * pow2 (ulpExp q)

/-- The conversion `(int)` of a float whose value is the integer `n`: `n` itself in
the range of a 32-bit `int`; outside of it the conversion is undefined in C++, and
the value taken here is `INT_MIN`, the result of the x86-64 conversion. -/
def castInt (n : Int) : Int :=
  if -2147483648 ≤ n ∧ n ≤ 2147483647 then n else -2147483648

/-- The exact result `n` of an `int` operation as a 32-bit two's complement `int`
(a signed overflow, undefined in C++, wraps around). -/
def wrapInt (n : Int) : Int := (n + 2147483648) % 4294967296 - 2147483648

/-- An arithmetic for the floats and ints of the chunk store and of the collision
resolver: `rnd` gives the float stored for the exact result of a float operation (or
of a conversion to float), `toI` the `int` obtained from a float with an integral
value, `wrap` the `int` stored for the exact result of an `int` operation. -/
structure Arith where
  rnd : ℚ → ℚ
  toI : Int → Int
  wrap : Int → Int

/-- The arithmetic of the compiled program: binary32 floats and 32-bit ints. -/
def machine : Arith := ⟨f32, castInt, wrapInt⟩

/-- Arithmetic taken exactly: no rounding and unbounded integers. -/
def exact : Arith := ⟨fun q => q, fun n => n, fun n => n⟩

/-- The rational `q` is a float of the arithmetic `A`: rounding leaves it as it is. -/
def Arith.IsFloat (A : Arith) (q : ℚ) : Prop := A.rnd q = q

instance (A : Arith) (q : ℚ) : Decidable (A.IsFloat q) := by
  unfold Arith.IsFloat
  infer_instance

/-- Rounding keeps the sign: the rounded value of a non-negative (non-positive)
number is non-negative (non-positive). -/
def Arith.KeepsSign (A : Arith) : Prop :=
  (∀ q : ℚ, 0 ≤ q → 0 ≤ A.rnd q) ∧ (∀ q : ℚ, q ≤ 0 → A.rnd q ≤ 0)

/-- The world coordinate `w` is a float within the range of `int` and is not a
negative number of magnitude at most `2^-146` (the quotient `w / 16` of such a number
rounds to zero). -/
def InQueryRange (w : ℚ) : Prop :=
  f32 w = w ∧ -2147483648 ≤ w ∧ w < 2147483648 ∧ ¬ (-(pow2 (-146)) ≤ w ∧ w < 0)

instance (w : ℚ) : Decidable (InQueryRange w) := by
  unfold InQueryRange
  infer_instance

/-- The chunk coordinate `(int)floor(w / CHUNK_SIZE)` of a world coordinate. -/
def chunkCoord (A : Arith) (w : ℚ) : Int := A.toI (Int.floor (A.rnd (w / (CHUNK_SIZE : ℚ))))

/-- The local index `(int)floor(w) - (c * CHUNK_SIZE)` of a world coordinate in the
chunk with coordinate `c`. -/
def localIndex (A : Arith) (w : ℚ) (c : Int) : Int :=
  A.wrap (A.toI (Int.floor w) - A.wrap (c * CHUNK_SIZE))

/-- The range test and the array read of `IsBlockAt` (lines 133-139) for a chunk
that was found: `voxels[lx][ly][lz] != 0` inside the chunk, `false` outside. -/
def Chunk.solidAt (chunk : Chunk) (lx ly lz : Int) : Bool :=
  if (0 ≤ lx ∧ lx < CHUNK_SIZE) ∧ (0 ≤ ly ∧ ly < CHUNK_SIZE) ∧ (0 ≤ lz ∧ lz < CHUNK_SIZE) then
    chunk.voxels lx ly lz != 0
  else false

/-- The function `ChunkManager::IsBlockAt`. -/
def IsBlockAt (A : Arith) (chunks : ChunkStore) (wx wy wz : ℚ) : Bool :=
  let cx := chunkCoord A wx
  let cy := chunkCoord A wy
  let cz := chunkCoord A wz
  match chunks.find ⟨cx, cy, cz⟩ with
  | some chunk =>
    let lx := localIndex A wx cx
    let ly := localIndex A wy cy
    let lz := localIndex A wz cz
    chunk.solidAt lx ly lz
  | none => false

/-- The world cell `(x, y, z)` is solid in the store: the chunk `(x div 16, y div 16,
z div 16)` is present and its voxel `(x mod 16, y mod 16, z mod 16)` is not zero. -/
def cellSolid (chunks : ChunkStore) (x y z : Int) : Bool :=
  match chunks.find ⟨x / 16, y / 16, z / 16⟩ with
  | some chunk => chunk.voxels (x % 16) (y % 16) (z % 16) != 0
  | none => false

/-- The struct `AABB` of `main.cpp`. -/
structure AABB where
  min : Vector3
  max : Vector3
deriving DecidableEq

/-- The struct `KinematicState` of `main.cpp`. -/
structure KinematicState where
  position : Vector3
  velocity : Vector3
  grounded : Bool
deriving DecidableEq

/-- The raymath function `Vector3Add`. -/
def Vector3Add (A : Arith) (v1 v2 : Vector3) : Vector3 :=
  ⟨A.rnd (v1.x + v2.x), A.rnd (v1.y + v2.y), A.rnd (v1.z + v2.z)⟩

/-- The raymath function `Vector3Scale`. -/
def Vector3Scale (A : Arith) (v : Vector3) (scalar : ℚ) : Vector3 :=
  ⟨A.rnd (v.x * scalar), A.rnd (v.y * scalar), A.rnd (v.z * scalar)⟩

/-- The raymath function `Vector3Min` (componentwise `fminf`). -/
def Vector3Min (v1 v2 : Vector3) : Vector3 := ⟨min v1.x v2.x, min v1.y v2.y, min v1.z v2.z⟩

/-- The raymath function `Vector3Max` (componentwise `fmaxf`). -/
def Vector3Max (v1 v2 : Vector3) : Vector3 := ⟨max v1.x v2.x, max v1.y v2.y, max v1.z v2.z⟩

/-- Component `i` of a vector read through the alias `(float*)&v`: `0` is `x`, `1`
is `y`, `2` is `z`. -/
def Vector3.get (v : Vector3) (i : Nat) : ℚ :=
  match i with
  | 0 => v.x
  | 1 => v.y
  | _ => v.z

/-- Component `i` of a vector written through the alias `(float*)&v`. -/
def Vector3.set (v : Vector3) (i : Nat) (q : ℚ) : Vector3 :=
  match i with
  | 0 => { v with x := q }
  | 1 => { v with y := q }
  | _ => { v with z := q }

/-- The function `GetAbsoluteBoundingBox`. -/
def GetAbsoluteBoundingBox (A : Arith) (pos : Vector3) (aabb : AABB) : AABB :=
  ⟨Vector3Add A pos aabb.min, Vector3Add A pos aabb.max⟩

/-- The float `(float)x + 0.5f` at which the loops over integer cells query
`IsBlockAt` for the cell coordinate `x` (lines 100-102 of `main.cpp`, lines 65-68 of
`ChunkManager.h`). -/
def cellCentre (A : Arith) (x : Int) : ℚ := A.rnd (A.rnd (x : ℚ) + 1 / 2)

/-- The box `blockAABB` built for the cell `(x, y, z)` (lines 105-107): the corners
`(float)x` and `(float)x + 1.0f`. -/
def blockAABB (A : Arith) (x y z : Int) : AABB :=
  ⟨⟨A.rnd (x : ℚ), A.rnd (y : ℚ), A.rnd (z : ℚ)⟩,
   ⟨A.rnd (A.rnd (x : ℚ) + 1), A.rnd (A.rnd (y : ℚ) + 1), A.rnd (A.rnd (z : ℚ) + 1)⟩⟩

/-- The vector `worldAABBs` after the three enumeration loops of
`UpdatePositionSystem` (lines 86-112): the boxes of the solid cells of the integer
range around `area`, in loop order. -/
def collectBlocks (A : Arith) (chunks : ChunkStore) (area : AABB) : List AABB :=
  let eps : ℚ := A.rnd (1 / 100)
  let minX := A.toI (Int.floor (A.rnd (area.min.x - eps)))
  let minY := A.toI (Int.floor (A.rnd (area.min.y - eps)))
  let minZ := A.toI (Int.floor (A.rnd (area.min.z - eps)))
  let maxX := A.toI (Int.ceil (A.rnd (area.max.x + eps)))
  let maxY := A.toI (Int.ceil (A.rnd (area.max.y + eps)))
  let maxZ := A.toI (Int.ceil (A.rnd (area.max.z + eps)))
  (intRange minX maxX).flatMap fun x =>
    (intRange minY maxY).flatMap fun y =>
      (intRange minZ maxZ).flatMap fun z =>
        if IsBlockAt A chunks (cellCentre A x) (cellCentre A y) (cellCentre A z) then
          [blockAABB A x y z]
        else []

/-- The body of the loop over `worldAABBs` for one `axis` (lines 122-139): the
movement vector after testing the candidate `col` against the current box. -/
def clampStep (A : Arith) (currentWorldAABB : AABB) (axis : Nat) (movement : Vector3)
    (col : AABB) : Vector3 :=
  let a1 := (axis + 1) % 3
  let a2 := (axis + 2) % 3
  let entMin := currentWorldAABB.min
  let entMax := currentWorldAABB.max
  let othMin := col.min
  let othMax := col.max
  if entMin.get a1 < othMax.get a1 ∧ entMax.get a1 > othMin.get a1 ∧
      entMin.get a2 < othMax.get a2 ∧ entMax.get a2 > othMin.get a2 then
    if movement.get axis > 0 ∧ othMin.get axis ≥ entMax.get axis then
      let diff := A.rnd (othMin.get axis - entMax.get axis)
      if diff < movement.get axis then movement.set axis diff else movement
    else if movement.get axis < 0 ∧ othMax.get axis ≤ entMin.get axis then
      let diff := A.rnd (othMax.get axis - entMin.get axis)
      if diff > movement.get axis then movement.set axis diff else movement
    else movement
  else movement

/-- The loop `for (const auto& col : worldAABBs)` for one `axis`. -/
def resolveAxis (A : Arith) (currentWorldAABB : AABB) (worldAABBs : List AABB)
    (movement : Vector3) (axis : Nat) : Vector3 :=
  worldAABBs.foldl (clampStep A currentWorldAABB axis) movement

/-- The loop `for (int axis : axes)` with `axes = {1, 0, 2}` (lines 113-141). -/
def resolveMovement (A : Arith) (currentWorldAABB : AABB) (worldAABBs : List AABB)
    (movement : Vector3) : Vector3 :=
  [1, 0, 2].foldl (resolveAxis A currentWorldAABB worldAABBs) movement

/-- The vector `worldAABBs` of one tick of `UpdatePositionSystem` (lines 82-112). -/
def candidateBlocks (A : Arith) (chunks : ChunkStore) (dt : ℚ) (state : KinematicState)
    (localAABB : AABB) : List AABB :=
  let movement := Vector3Scale A state.velocity dt
  let currentWorldAABB := GetAbsoluteBoundingBox A state.position localAABB
  let nextWorldAABB := GetAbsoluteBoundingBox A (Vector3Add A state.position movement) localAABB
  let area : AABB := ⟨Vector3Min currentWorldAABB.min nextWorldAABB.min,
    Vector3Max currentWorldAABB.max nextWorldAABB.max⟩
  collectBlocks A chunks area

/-- The vector `movement` of one tick of `UpdatePositionSystem` after the axis loops
(line 141). -/
def resolvedMovement (A : Arith) (chunks : ChunkStore) (dt : ℚ) (state : KinematicState)
    (localAABB : AABB) : Vector3 :=
  resolveMovement A (GetAbsoluteBoundingBox A state.position localAABB)
    (candidateBlocks A chunks dt state localAABB) (Vector3Scale A state.velocity dt)

/-- The body of `UpdatePositionSystem` for one entity: the new `KinematicState`. -/
def UpdatePositionSystem (A : Arith) (chunks : ChunkStore) (dt : ℚ) (state : KinematicState)
    (localAABB : AABB) : KinematicState :=
  let originalDelta := Vector3Scale A state.velocity dt
  let movement := resolvedMovement A chunks dt state localAABB
  { position := Vector3Add A state.position movement
    grounded := decide (originalDelta.y < 0 ∧ movement.y > originalDelta.y)
    velocity :=
      ⟨if movement.x ≠ originalDelta.x then 0 else state.velocity.x,
       if movement.y ≠ originalDelta.y then 0 else state.velocity.y,
       if movement.z ≠ originalDelta.z then 0 else state.velocity.z⟩ }

/-- The value of `dArray[axis]` after the body of the loop over `worldAABBs` has
tested the candidate `col`, as a function of its value `d` before (lines 126-139
read on the single component they touch). -/
def clampScalar (A : Arith) (currentWorldAABB : AABB) (axis : Nat) (d : ℚ) (col : AABB) : ℚ :=
  (clampStep A currentWorldAABB axis ((⟨0, 0, 0⟩ : Vector3).set axis d) col).get axis

/-- The box `col` overlaps the box `cur` (with positive extent) on the two axes other
than `axis`: the test of line 126-127. -/
def overlapsOtherAxes (cur col : AABB) (axis : Nat) : Prop :=
  cur.min.get ((axis + 1) % 3) < col.max.get ((axis + 1) % 3) ∧
  cur.max.get ((axis + 1) % 3) > col.min.get ((axis + 1) % 3) ∧
  cur.min.get ((axis + 2) % 3) < col.max.get ((axis + 2) % 3) ∧
  cur.max.get ((axis + 2) % 3) > col.min.get ((axis + 2) % 3)

instance (cur col : AABB) (axis : Nat) : Decidable (overlapsOtherAxes cur col axis) := by
  unfold overlapsOtherAxes
  infer_instance

/-- The gaps `cell.min - body.max` on `axis`, as the float subtraction of line 131
gives them, of the candidates that overlap the body on the other two axes and have
`cell.min ≥ body.max` on `axis`. -/
def aheadGaps (A : Arith) (cur : AABB) (axis : Nat) (cands : List AABB) : List ℚ :=
  (cands.filter fun col =>
    decide (overlapsOtherAxes cur col axis ∧ col.min.get axis ≥ cur.max.get axis)).map
    fun col => A.rnd (col.min.get axis - cur.max.get axis)

/-- The gaps `cell.max - body.min` on `axis`, as the float subtraction of line 136
gives them, of the candidates that overlap the body on the other two axes and have
`cell.max ≤ body.min` on `axis`. -/
def behindGaps (A : Arith) (cur : AABB) (axis : Nat) (cands : List AABB) : List ℚ :=
  (cands.filter fun col =>
    decide (overlapsOtherAxes cur col axis ∧ col.max.get axis ≤ cur.min.get axis)).map
    fun col => A.rnd (col.max.get axis - cur.min.get axis)

/-- A store with a single chunk, at the chunk coordinate `k`, whose only solid voxel
is the local cell `(a, b, c)`. -/
def singleCellStore (k : ChunkPos) (a b c : Int) : ChunkStore :=
  [(k, ⟨fun lx ly lz => if lx = a ∧ ly = b ∧ lz = c then 1 else 0⟩)]

/-- A store with the single chunk `(0, -1, 0)` whose only solid voxel is the local
cell `(0, 15, 0)`, i.e. the world cell `(0, -1, 0)` occupying `y ∈ [-1, 0]`. -/
def floorStore : ChunkStore := singleCellStore ⟨0, -1, 0⟩ 0 15 0

/-- The local box of the player entity created in `main` (line 171): the corners
`(0, 0, 0)` and `(0.6f, 1.8f, 0.6f)`. -/
def playerAABB : AABB := ⟨⟨0, 0, 0⟩, ⟨f32 (3 / 5), f32 (9 / 5), f32 (3 / 5)⟩⟩

/-- A body at height `1 / 2` above the floor cell of `floorStore`, falling with
velocity `-10`. -/
def fallingState : KinematicState := ⟨⟨1 / 4, 1 / 2, 1 / 4⟩, ⟨0, -10, 0⟩, false⟩

/-- A body above the floor cell of `floorStore` that falls and moves along `x`. -/
def slidingState : KinematicState := ⟨⟨1 / 4, 1 / 2, 1 / 4⟩, ⟨1, -10, 0⟩, false⟩

/-- A store with the single chunk `(0, 0, 0)` whose only solid voxel is the cell
`(1, 1, 0)`. -/
def cornerStore : ChunkStore := singleCellStore ⟨0, 0, 0⟩ 1 1 0

/-- A cubic local box of edge `0.9f`. -/
def cornerAABB : AABB := ⟨⟨0, 0, 0⟩, ⟨f32 (9 / 10), f32 (9 / 10), f32 (9 / 10)⟩⟩

/-- A body at the origin moving diagonally in the `x`-`y` plane. -/
def cornerState : KinematicState := ⟨⟨0, 0, 0⟩, ⟨1 / 2, 1 / 2, 0⟩, false⟩

/-- A store with the single chunk `(1, 0, 0)` whose only solid voxel is the world cell
`(17, 0, 0)`. -/
def edgeStore : ChunkStore := singleCellStore ⟨1, 0, 0⟩ 1 0 0

/-- A body at `x = 15.7f` that moves along `x` only, toward the cell of `edgeStore`. -/
def edgeState : KinematicState := ⟨⟨f32 (157 / 10), 0, 0⟩, ⟨5, 0, 0⟩, false⟩

/-- A store with the single chunk `(1048576, -1, 0)` whose only solid voxel is the
world cell `(2^24 + 1, -1, 0)`, a floor cell occupying `y ∈ [-1, 0]`. -/
def farFloorStore : ChunkStore := singleCellStore ⟨1048576, -1, 0⟩ 1 15 0

/-- A local box with its bottom at local `y = 0`, two units wide in `x`. -/
def wideAABB : AABB := ⟨⟨0, 0, 0⟩, ⟨2, 1, 1 / 2⟩⟩

/-- A body at `x = 2^24`, `y = 1/2`, falling with velocity `-10`. -/
def farFallingState : KinematicState := ⟨⟨16777216, 1 / 2, 1 / 4⟩, ⟨0, -10, 0⟩, false⟩

/-- A store with the single chunk `(524288, 0, 0)` whose only solid voxel is its local
cell `(1, 0, 0)`, the world cell `(2^23 + 1, 0, 0)`. -/
def farChunkStore : ChunkStore := singleCellStore ⟨524288, 0, 0⟩ 1 0 0

/-- A store with the single chunk `(0, 0, 0)` whose only solid voxel is the world cell
`(0, 0, 0)`. -/
def originStore : ChunkStore := singleCellStore ⟨0, 0, 0⟩ 0 0 0

/-- A local box whose corners are exchanged on `y`: `min.y = 5 > max.y = 0`. -/
def invertedAABB : AABB := ⟨⟨0, 5, 0⟩, ⟨1 / 2, 0, 1 / 2⟩⟩

/-- A body at `(1/4, 0, 1/4)` moving up with velocity `1`. -/
def risingState : KinematicState := ⟨⟨1 / 4, 0, 1 / 4⟩, ⟨0, 1, 0⟩, false⟩

/-- Two boxes overlap with positive extent on all three axes. -/
def strictlyOverlaps (a b : AABB) : Prop :=
  (a.min.x < b.max.x ∧ b.min.x < a.max.x) ∧ (a.min.y < b.max.y ∧ b.min.y < a.max.y) ∧
  (a.min.z < b.max.z ∧ b.min.z < a.max.z)

instance (a b : AABB) : Decidable (strictlyOverlaps a b) := by
  unfold strictlyOverlaps
  infer_instance

/-- The values taken by a loop `for (int x = -1; x <= CHUNK_SIZE; x++)`. -/
def paddedRange : List Int := intRange (-1) (CHUNK_SIZE + 1)

/-- The float `(float)(c * CHUNK_SIZE + x) + 0.5f` at which `BuildChunkMesh` queries
`IsBlockAt` for the loop value `x` of the chunk coordinate `c` (lines 65-68). -/
def sampleCoord (A : Arith) (c x : Int) : ℚ := cellCentre A (A.wrap (A.wrap (c * CHUNK_SIZE) + x))

/-- The body of the innermost loop of `BuildChunkMesh` (lines 65-71): the array
`neighborData` after the cell `(x, y, z)` has been sampled through `IsBlockAt`. -/
def neighborStep (A : Arith) (chunks : ChunkStore) (cx cy cz : Int) (x y : Int)
    (neighborData : PaddedBuffer) (z : Int) : PaddedBuffer :=
  if IsBlockAt A chunks (sampleCoord A cx x) (sampleCoord A cy y) (sampleCoord A cz z) then
    fun i j k => if i = x + 1 ∧ j = y + 1 ∧ k = z + 1 then 1 else neighborData i j k
  else neighborData

/-- The array `neighborData` of `BuildChunkMesh` after its three loops (lines 58-74),
starting from the zero-initialised array. -/
def neighborData (A : Arith) (chunks : ChunkStore) (cx cy cz : Int) : PaddedBuffer :=
  paddedRange.foldl (fun buf x =>
    paddedRange.foldl (fun buf y =>
      paddedRange.foldl (neighborStep A chunks cx cy cz x y) buf) buf) (fun _ _ _ => 0)

/-- The function `ChunkManager::BuildChunkMesh`: the mesh handed to
`LoadModelFromMesh`, or `none` when the chunk is absent and the call returns at once. -/
def BuildChunkMesh (A : Arith) (chunks : ChunkStore) (cx cy cz : Int) : Option Mesh :=
  match chunks.find ⟨cx, cy, cz⟩ with
  | none => none
  | some _ => some (GenerateMesh (neighborData A chunks cx cy cz))

/-- The sample of `BuildChunkMesh` for the loop cell `t = (x, y, z)`: the value of
`IsBlockAt` at the float computed for the centre of the world cell
`(cx*N + x, cy*N + y, cz*N + z)`. -/
def neighborSample (A : Arith) (chunks : ChunkStore) (cx cy cz : Int) (t : Int × Int × Int) :
    Bool :=
  IsBlockAt A chunks (sampleCoord A cx t.1) (sampleCoord A cy t.2.1) (sampleCoord A cz t.2.2)

/-- The array `buf` holds `1` exactly at the cells written for the sampled loop cells
`L`, and `0` elsewhere. -/
def Filled (A : Arith) (chunks : ChunkStore) (cx cy cz : Int) (L : List (Int × Int × Int))
    (buf : PaddedBuffer) : Prop :=
  ∀ i j k : Int,
    ((∃ t ∈ L, neighborSample A chunks cx cy cz t = true ∧
        i = t.1 + 1 ∧ j = t.2.1 + 1 ∧ k = t.2.2 + 1) → buf i j k = 1) ∧
    ((¬ ∃ t ∈ L, neighborSample A chunks cx cy cz t = true ∧
        i = t.1 + 1 ∧ j = t.2.1 + 1 ∧ k = t.2.2 + 1) → buf i j k = 0)

/-- The axis loop of `UpdatePositionSystem` (lines 116-141) run over the axes in the
order given by `axes` instead of the order `{1, 0, 2}` of the code. -/
def resolveMovementIn (A : Arith) (axes : List Nat) (currentWorldAABB : AABB)
    (worldAABBs : List AABB) (movement : Vector3) : Vector3 :=
  axes.foldl (resolveAxis A currentWorldAABB worldAABBs) movement

/-- The body of `UpdatePositionSystem` with the axis loop run in the order `axes`. -/
def UpdatePositionSystemIn (A : Arith) (axes : List Nat) (chunks : ChunkStore) (dt : ℚ)
    (state : KinematicState) (localAABB : AABB) : KinematicState :=
  let originalDelta := Vector3Scale A state.velocity dt
  let movement := resolveMovementIn A axes (GetAbsoluteBoundingBox A state.position localAABB)
    (candidateBlocks A chunks dt state localAABB) (Vector3Scale A state.velocity dt)
  { position := Vector3Add A state.position movement
    grounded := decide (originalDelta.y < 0 ∧ movement.y > originalDelta.y)
    velocity :=
      ⟨if movement.x ≠ originalDelta.x then 0 else state.velocity.x,
       if movement.y ≠ originalDelta.y then 0 else state.velocity.y,
       if movement.z ≠ originalDelta.z then 0 else state.velocity.z⟩ }

/-- The values taken by a local voxel index, `0..CHUNK_SIZE-1`. -/
def localRange : List Int := intRange 0 CHUNK_SIZE

/-- The unit boxes of the solid world cells that lie in the chunk with coordinate
`k`, solid meaning that `IsBlockAt` answers true at the centre of the cell. -/
def chunkSolidBlocks (A : Arith) (chunks : ChunkStore) (k : ChunkPos) : List AABB :=
  localRange.flatMap fun lx =>
    localRange.flatMap fun ly =>
      localRange.flatMap fun lz =>
        if IsBlockAt A chunks (cellCentre A (k.x * CHUNK_SIZE + lx))
            (cellCentre A (k.y * CHUNK_SIZE + ly)) (cellCentre A (k.z * CHUNK_SIZE + lz)) then
          [blockAABB A (k.x * CHUNK_SIZE + lx) (k.y * CHUNK_SIZE + ly) (k.z * CHUNK_SIZE + lz)]
        else []

/-- The unit boxes of all solid cells of the store. -/
def allSolidBlocks (A : Arith) (chunks : ChunkStore) : List AABB :=
  chunks.flatMap fun e => chunkSolidBlocks A chunks e.1

/-- The value `side1` sampled for corner `v` of face `f` (line 101), the adjacent
cell being `(nx, ny, nz)`. -/
def aoSide1 (voxels : PaddedBuffer) (f : Nat) (nx ny nz : Int) (v : Nat) : Bool :=
  getV voxels (nx + toInt (CachedAOOffsets f v 0).x) (ny + toInt (CachedAOOffsets f v 0).y)
    (nz + toInt (CachedAOOffsets f v 0).z)

/-- The value `side2` sampled for corner `v` of face `f` (line 102). -/
def aoSide2 (voxels : PaddedBuffer) (f : Nat) (nx ny nz : Int) (v : Nat) : Bool :=
  getV voxels (nx + toInt (CachedAOOffsets f v 1).x) (ny + toInt (CachedAOOffsets f v 1).y)
    (nz + toInt (CachedAOOffsets f v 1).z)

/-- The value `corner` sampled for corner `v` of face `f` (line 103). -/
def aoCorner (voxels : PaddedBuffer) (f : Nat) (nx ny nz : Int) (v : Nat) : Bool :=
  getV voxels (nx + toInt (CachedAOOffsets f v 2).x) (ny + toInt (CachedAOOffsets f v 2).y)
    (nz + toInt (CachedAOOffsets f v 2).z)

/-- The expression `(side1 && side2) ? 3 : (int)(side1 + side2 + corner)` of line 104
as a function of the three sampled values. -/
def occlusionLevel (side1 side2 corner : Bool) : Int :=
  if side1 && side2 then 3 else ((side1.toNat + side2.toNat + corner.toNat : Nat) : Int)

/-- The value `brightness` of line 105 for an occlusion level: the `unsigned char`
holding `255 - ao * 50`. -/
def brightnessOf (ao : Int) : Nat := toUChar (255 - ao * 50)

/-- A padded buffer with the solid cell `(1, 1, 1)` and the solid cell `(1, 2, 2)`
next to the top face of the first one. -/
def shadedVoxelBuffer : PaddedBuffer :=
  fun i j k => if (i = 1 ∧ j = 1 ∧ k = 1) ∨ (i = 1 ∧ j = 2 ∧ k = 2) then 1 else 0

/-- The corner numbers `k` of the six pushes `indices.push_back(vertexCount + k)` of
one emitted face `p` (lines 111-128). -/
def quadTriangles (voxels : PaddedBuffer) (p : Face) : List Nat :=
  let ao := vertexAO voxels p.2.2.2 (p.1 + (faceDir p.2.2.2).1) (p.2.1 + (faceDir p.2.2.2).2.1)
    (p.2.2.1 + (faceDir p.2.2.2).2.2)
  if ao 0 + ao 3 > ao 1 + ao 2 then [0, 1, 2, 2, 1, 3] else [0, 1, 3, 0, 3, 2]

/-- The six values stored in `indices` for one emitted face when `vertexCount` is
`base`. -/
def quadIndices (voxels : PaddedBuffer) (base : Int) (p : Face) : List Nat :=
  (quadTriangles voxels p).map fun (k : Nat) => toUShort (base + (k : Int))

/-- The values stored in `indices` for a run of emitted faces, `vertexCount` being
`base` before the first of them and growing by 4 per face. -/
def indexRun (voxels : PaddedBuffer) : Int → List Face → List Nat
  | _, [] => []
  | base, p :: ps => quadIndices voxels base p ++ indexRun voxels (base + 4) ps

/-- The sixteen colour bytes pushed for one emitted face (lines 105-109). -/
def quadColors (voxels : PaddedBuffer) (p : Face) : List Nat :=
  (List.range 4).flatMap fun v =>
    [brightnessOf (vertexAO voxels p.2.2.2 (p.1 + (faceDir p.2.2.2).1)
        (p.2.1 + (faceDir p.2.2.2).2.1) (p.2.2.1 + (faceDir p.2.2.2).2.2) v),
     brightnessOf (vertexAO voxels p.2.2.2 (p.1 + (faceDir p.2.2.2).1)
        (p.2.1 + (faceDir p.2.2.2).2.1) (p.2.2.1 + (faceDir p.2.2.2).2.2) v),
     brightnessOf (vertexAO voxels p.2.2.2 (p.1 + (faceDir p.2.2.2).1)
        (p.2.1 + (faceDir p.2.2.2).2.1) (p.2.2.1 + (faceDir p.2.2.2).2.2) v),
     255]

/-- The eight texture-coordinate floats pushed for one emitted face (lines 93-94). -/
def quadTexcoords : List ℚ :=
  (List.range 4).flatMap fun v => [(faceUV v).x, (faceUV v).y]

/-- The buffers `b` hold exactly the indices, colours and texture coordinates of the
faces `fs`, in order. -/
def EmittedAttr (voxels : PaddedBuffer) (fs : List Face) (b : MeshBuffers) : Prop :=
  b.indices = indexRun voxels 0 fs ∧ b.colors = fs.flatMap (quadColors voxels) ∧
  b.texcoords = fs.flatMap (fun _ => quadTexcoords) ∧
  b.vertexCount = 4 * (fs.length : Int)

/-- The slot between two neighbouring cells that a face lies in: the axis of the
face and the cell on the lower side of the slot. -/
def faceSlot (p : Face) : Nat × Int × Int × Int :=
  (p.2.2.2 / 2,
   if p.2.2.2 % 2 = 1 then
     (p.1 + (faceDir p.2.2.2).1, p.2.1 + (faceDir p.2.2.2).2.1, p.2.2.1 + (faceDir p.2.2.2).2.2)
   else (p.1, p.2.1, p.2.2.1))

/-- The index values of a list of emitted faces when no conversion wraps: the `j`-th
face (from 0) contributes `4j + k` for the six corner numbers `k` of its pattern. -/
def exactIndices (voxels : PaddedBuffer) (fs : List Face) : List Nat :=
  fs.enum.flatMap fun jp => (quadTriangles voxels jp.2).map fun (k : Nat) => 4 * jp.1 + k

/-- The number of coordinates in which two points differ. -/
def differingAxes (a b : Vector3) : Nat :=
  (if a.x = b.x then 0 else 1) + (if a.y = b.y then 0 else 1) + (if a.z = b.z then 0 else 1)


/-- The integer offset `((int)o.x, (int)o.y, (int)o.z)` that `GenerateMesh` adds to the
adjacent cell for the entry `o = CachedAOOffsets[f][v][k]` (lines 101-103). -/
def aoOffset (f v k : Nat) : Int × Int × Int :=
  (toInt (CachedAOOffsets f v k).x, toInt (CachedAOOffsets f v k).y,
   toInt (CachedAOOffsets f v k).z)

/-- The point `p` is one of the eight corners of the unit cell at the integer offset
`o`, which occupies `[o, o + 1]` on every axis. -/
def cellHasCorner (o : Int × Int × Int) (p : Vector3) : Prop :=
  (p.x = (o.1 : ℚ) ∨ p.x = (o.1 : ℚ) + 1) ∧ (p.y = (o.2.1 : ℚ) ∨ p.y = (o.2.1 : ℚ) + 1) ∧
  (p.z = (o.2.2 : ℚ) ∨ p.z = (o.2.2 : ℚ) + 1)

instance (o : Int × Int × Int) (p : Vector3) : Decidable (cellHasCorner o p) := by
  unfold cellHasCorner
  infer_instance

/-- For the corner `v` of the face `f` of the cell at offset `(0, 0, 0)`: the cell at
offset `o` is one of the three sampled cells (adjacent cell plus side 1, side 2 or
corner offset) exactly when it has the quad vertex as a corner, lies in the layer of
the adjacent cell (its offset from the adjacent cell is orthogonal to the face
direction) and is not the adjacent cell. -/
def aoCellsAgree (f v : Nat) (o : Int × Int × Int) : Prop :=
  (cellHasCorner o (faceVertex f v) ∧
      (faceDir f).1 * (o.1 - (faceDir f).1) + (faceDir f).2.1 * (o.2.1 - (faceDir f).2.1) +
        (faceDir f).2.2 * (o.2.2 - (faceDir f).2.2) = 0 ∧ o ≠ faceDir f) ↔
    (o = faceDir f + aoOffset f v 0 ∨ o = faceDir f + aoOffset f v 1 ∨
      o = faceDir f + aoOffset f v 2)

instance (f v : Nat) (o : Int × Int × Int) : Decidable (aoCellsAgree f v o) := by
  unfold aoCellsAgree
  infer_instance

/-- The properties of the entries `CachedAOOffsets[f][v][0..2]` for one face `f` and
corner `v`: see `PrecomputeAO_table`. -/
def aoTableOK (f v : Nat) : Prop :=
  faceCheck f = faceNormal f ∧
  CachedAOOffsets f v 2 =
    ⟨(CachedAOOffsets f v 0).x + (CachedAOOffsets f v 1).x,
     (CachedAOOffsets f v 0).y + (CachedAOOffsets f v 1).y,
     (CachedAOOffsets f v 0).z + (CachedAOOffsets f v 1).z⟩ ∧
  (differingAxes (CachedAOOffsets f v 0) ⟨0, 0, 0⟩ = 1 ∧
    differingAxes (CachedAOOffsets f v 1) ⟨0, 0, 0⟩ = 1 ∧
    differingAxes (CachedAOOffsets f v 0) (CachedAOOffsets f v 1) = 2) ∧
  ((faceNormal f).x * (CachedAOOffsets f v 0).x + (faceNormal f).y * (CachedAOOffsets f v 0).y +
      (faceNormal f).z * (CachedAOOffsets f v 0).z = 0 ∧
    (faceNormal f).x * (CachedAOOffsets f v 1).x + (faceNormal f).y * (CachedAOOffsets f v 1).y +
      (faceNormal f).z * (CachedAOOffsets f v 1).z = 0) ∧
  (∀ a, a < 3 →
    (2 * ((faceVertex f v).get a - 1 / 2) = 1 ∨ 2 * ((faceVertex f v).get a - 1 / 2) = -1) ∧
    ((CachedAOOffsets f v 0).get a = 0 ∨
      (CachedAOOffsets f v 0).get a = 2 * ((faceVertex f v).get a - 1 / 2)) ∧
    ((CachedAOOffsets f v 1).get a = 0 ∨
      (CachedAOOffsets f v 1).get a = 2 * ((faceVertex f v).get a - 1 / 2))) ∧
  (∀ k, k < 3 →
    (((aoOffset f v k).1 : Int) : ℚ) = (CachedAOOffsets f v k).x ∧
    (((aoOffset f v k).2.1 : Int) : ℚ) = (CachedAOOffsets f v k).y ∧
    (((aoOffset f v k).2.2 : Int) : ℚ) = (CachedAOOffsets f v k).z)

instance (f v : Nat) : Decidable (aoTableOK f v) := by
  unfold aoTableOK
  infer_instance

/-- The raymath function `Vector3Subtract`. -/
def Vector3Subtract (v1 v2 : Vector3) : Vector3 := ⟨v1.x - v2.x, v1.y - v2.y, v1.z - v2.z⟩

/-- The raymath function `Vector3CrossProduct`. -/
def Vector3CrossProduct (v1 v2 : Vector3) : Vector3 :=
  ⟨v1.y * v2.z - v1.z * v2.y, v1.z * v2.x - v1.x * v2.z, v1.x * v2.y - v1.y * v2.x⟩

/-- The raymath function `Vector3DotProduct`. -/
def Vector3DotProduct (v1 v2 : Vector3) : ℚ := v1.x * v2.x + v1.y * v2.y + v1.z * v2.z

/-- The triangles, as triples of corner numbers, of a list of indices read three at a
time (the way the mesh is drawn). -/
def trianglesOf : List Nat → List (Nat × Nat × Nat)
  | a :: b :: c :: rest => (a, b, c) :: trianglesOf rest
  | _ => []

/-- The position pushed for corner `k` of an emitted face `p` (lines 89-92). -/
def quadCorner (p : Face) (k : Nat) : Vector3 :=
  ⟨(faceVertex p.2.2.2 k).x + p.1 - 1, (faceVertex p.2.2.2 k).y + p.2.1 - 1,
   (faceVertex p.2.2.2 k).z + p.2.2.1 - 1⟩

/-- The cross product `(p_b - p_a) × (p_c - p_a)` of the triangle `(a, b, c)` of the
points `pos 0 .. pos 3`. -/
def triangleCross (pos : Nat → Vector3) (t : Nat × Nat × Nat) : Vector3 :=
  Vector3CrossProduct (Vector3Subtract (pos t.2.1) (pos t.1))
    (Vector3Subtract (pos t.2.2) (pos t.1))

/-- The point `q` lies on the side of the unit cube `[0, 1]^3` that faces the
direction `n` (one of the six axis directions): it is in the cube and its offset from
the cube centre has the component `1 / 2` along `n`. -/
def onCubeSide (n q : Vector3) : Prop :=
  (0 ≤ q.x ∧ q.x ≤ 1) ∧ (0 ≤ q.y ∧ q.y ≤ 1) ∧ (0 ≤ q.z ∧ q.z ≤ 1) ∧
  Vector3DotProduct n ⟨q.x - 1 / 2, q.y - 1 / 2, q.z - 1 / 2⟩ = 1 / 2

instance (n q : Vector3) : Decidable (onCubeSide n q) := by
  unfold onCubeSide
  infer_instance

/-- The point `q` lies in the closed triangle with the corners `a`, `b`, `c`: it is a
convex combination of them. -/
def inTriangle (a b c q : Vector3) : Prop :=
  ∃ u v w : ℚ, 0 ≤ u ∧ 0 ≤ v ∧ 0 ≤ w ∧ u + v + w = 1 ∧
    q.x = u * a.x + v * b.x + w * c.x ∧ q.y = u * a.y + v * b.y + w * c.y ∧
    q.z = u * a.z + v * b.z + w * c.z

/-- The facts about the corner table of one face that are checked by evaluation: the
check direction is the normal, the four corners lie on the side facing it, every
triangle of both triangulations has the normal as its cross product, and the corners
form a parallelogram. -/
def faceTableOK (f : Nat) : Prop :=
  faceCheck f = faceNormal f ∧ faceNormal f ≠ ⟨0, 0, 0⟩ ∧
  (∀ v, v < 4 → onCubeSide (faceCheck f) (faceVertex f v)) ∧
  (∀ t ∈ [(0, 1, 2), (2, 1, 3), (0, 1, 3), (0, 3, 2)],
    triangleCross (faceVertex f) t = faceNormal f) ∧
  ((faceVertex f 3).x = (faceVertex f 1).x + (faceVertex f 2).x - (faceVertex f 0).x ∧
    (faceVertex f 3).y = (faceVertex f 1).y + (faceVertex f 2).y - (faceVertex f 0).y ∧
    (faceVertex f 3).z = (faceVertex f 1).z + (faceVertex f 2).z - (faceVertex f 0).z)

instance (f : Nat) : Decidable (faceTableOK f) := by
  unfold faceTableOK
  infer_instance

/-! ## Theorems -/

theorem range_four : List.range 4 = [0, 1, 2, 3] := by decide

theorem range_six : List.range 6 = [0, 1, 2, 3, 4, 5] := by decide

theorem emitted_empty : Emitted [] MeshBuffers.empty := by
  simp [Emitted, MeshBuffers.empty]

theorem faceStep_emitted (voxels : PaddedBuffer) (x y z : Int) (f : Nat) (fs : List Face)
    (b : MeshBuffers) (h : Emitted fs b) :
    Emitted (fs ++ (if getV voxels (x + toInt (faceCheck f).x) (y + toInt (faceCheck f).y)
        (z + toInt (faceCheck f).z) then [] else [(x, y, z, f)])) (faceStep voxels x y z b f) := by
  obtain ⟨h1, h2, h3, h4, h5, h6⟩ := h
  unfold faceStep
  by_cases hg : getV voxels (x + toInt (faceCheck f).x) (y + toInt (faceCheck f).y)
      (z + toInt (faceCheck f).z) = true
  · simp [hg, Emitted, h1, h2, h3, h4, h5, h6]
  · simp only [hg, if_false, Bool.false_eq_true]
    refine ⟨?_, ?_, ?_, ?_, ?_, ?_⟩
    · simp [pushIndices, pushVertex, range_four, h1, quadVertices]
    · simp [pushIndices, pushVertex, range_four, h2, quadNormals]
    · simp [pushIndices, pushVertex, range_four, h3]; ring
    · simp only [pushIndices]
      split <;> simp [pushVertex, range_four, h4] <;> ring
    · simp [pushIndices, pushVertex, range_four, h5]; ring
    · simp [pushIndices, pushVertex, range_four, h6]; ring

/-- A loop whose body appends the faces `g a` appends `l.flatMap g` in total. -/
theorem foldl_emitted {α : Type} (step : MeshBuffers → α → MeshBuffers) (g : α → List Face)
    (hstep : ∀ fs b a, Emitted fs b → Emitted (fs ++ g a) (step b a)) (l : List α) :
    ∀ fs b, Emitted fs b → Emitted (fs ++ l.flatMap g) (l.foldl step b) := by
  induction l with
  | nil => intro fs b h; simpa using h
  | cons a l ih =>
    intro fs b h
    have := ih (fs ++ g a) (step b a) (hstep fs b a h)
    simpa [List.flatMap_cons, List.append_assoc] using this

theorem cellStep_emitted (voxels : PaddedBuffer) (x y z : Int) (fs : List Face)
    (b : MeshBuffers) (h : Emitted fs b) :
    Emitted (fs ++ cellFaces voxels x y z) (cellStep voxels x y b z) := by
  unfold cellStep cellFaces
  by_cases hv : voxels x y z = 0
  · simpa [hv] using h
  · simp only [hv, if_false]
    exact foldl_emitted (faceStep voxels x y z) _
      (fun fs b f hb => faceStep_emitted voxels x y z f fs b hb) _ fs b h

theorem meshLoops_emitted (voxels : PaddedBuffer) :
    Emitted (visibleFaces voxels) (meshLoops voxels) := by
  have h := foldl_emitted
    (fun b x => interiorRange.foldl (fun b y =>
      interiorRange.foldl (cellStep voxels x y) b) b)
    (fun x => interiorRange.flatMap fun y =>
      interiorRange.flatMap fun z => cellFaces voxels x y z)
    (fun fs b x hb => foldl_emitted
      (fun b y => interiorRange.foldl (cellStep voxels x y) b)
      (fun y => interiorRange.flatMap fun z => cellFaces voxels x y z)
      (fun fs b y hb => foldl_emitted (cellStep voxels x y) (fun z => cellFaces voxels x y z)
        (fun fs b z hb => cellStep_emitted voxels x y z fs b hb) interiorRange fs b hb)
      interiorRange fs b hb)
    interiorRange [] MeshBuffers.empty emitted_empty
  rw [List.nil_append] at h
  exact h

theorem faceDir_table : ∀ f, f < 6 →
    faceDir f = [((0 : Int), (1 : Int), (0 : Int)), (0, -1, 0), (1, 0, 0), (-1, 0, 0),
      (0, 0, 1), (0, 0, -1)].getD f (0, 0, 0) := by
  decide

theorem faceDir_bounds (f : Nat) (hf : f < 6) :
    (-1 ≤ (faceDir f).1 ∧ (faceDir f).1 ≤ 1) ∧ (-1 ≤ (faceDir f).2.1 ∧ (faceDir f).2.1 ≤ 1) ∧
    (-1 ≤ (faceDir f).2.2 ∧ (faceDir f).2.2 ≤ 1) := by
  rw [faceDir_table f hf]
  interval_cases f <;> simp

theorem mem_intRange (lo hi a : Int) : a ∈ intRange lo hi ↔ lo ≤ a ∧ a < hi := by
  simp only [intRange, List.mem_map, List.mem_range]
  constructor
  · rintro ⟨i, hi, rfl⟩
    omega
  · intro h
    exact ⟨(a - lo).toNat, by omega, by omega⟩

theorem intRange_nodup (lo hi : Int) : (intRange lo hi).Nodup := by
  unfold intRange
  refine List.Nodup.map ?_ (List.nodup_range _)
  intro i j h
  simpa using h

theorem mem_interiorRange (a : Int) : a ∈ interiorRange ↔ 1 ≤ a ∧ a ≤ 16 := by
  rw [interiorRange, mem_intRange, CHUNK_SIZE]
  omega

theorem interiorRange_nodup : interiorRange.Nodup := intRange_nodup _ _

/-- Inside the padded buffer `getV` is the test `voxels[x][y][z] != 0`. -/
theorem getV_inside (voxels : PaddedBuffer) (x y z : Int) (hx : 0 ≤ x ∧ x ≤ 17)
    (hy : 0 ≤ y ∧ y ≤ 17) (hz : 0 ≤ z ∧ z ≤ 17) :
    getV voxels x y z = (voxels x y z != 0) := by
  unfold getV CHUNK_SIZE
  rw [if_neg]
  omega

theorem mem_cellFaces (voxels : PaddedBuffer) (x y z : Int) (p : Face) :
    p ∈ cellFaces voxels x y z ↔
      ∃ f, f < 6 ∧ p = (x, y, z, f) ∧ voxels x y z ≠ 0 ∧
        getV voxels (x + (faceDir f).1) (y + (faceDir f).2.1) (z + (faceDir f).2.2) = false := by
  unfold cellFaces faceDir
  by_cases hv : voxels x y z = 0
  · simp [hv]
  · simp only [hv, if_false, List.mem_flatMap, List.mem_range]
    constructor
    · rintro ⟨f, hf, hp⟩
      refine ⟨f, hf, ?_⟩
      split at hp
      · simp at hp
      · rename_i hg
        simp only [List.mem_singleton] at hp
        exact ⟨hp, by simpa using hv, by simpa using hg⟩
    · rintro ⟨f, hf, rfl, -, hg⟩
      exact ⟨f, hf, by simp [hg]⟩

theorem cellFaces_nodup (voxels : PaddedBuffer) (x y z : Int) :
    (cellFaces voxels x y z).Nodup := by
  unfold cellFaces
  split
  · exact List.nodup_nil
  · rw [range_six]
    simp only [List.flatMap_cons, List.flatMap_nil]
    repeat' split
    all_goals simp

/-- A loop over distinct keys whose body contributes duplicate-free lists tagged by
the key contributes a duplicate-free list in total. -/
theorem flatMap_nodup_of_key {α β : Type} (key : β → α) (g : α → List β) (l : List α)
    (hl : l.Nodup) (hg : ∀ a, (g a).Nodup) (hk : ∀ a, ∀ p ∈ g a, key p = a) :
    (l.flatMap g).Nodup := by
  induction l with
  | nil => simp
  | cons a l ih =>
    rw [List.flatMap_cons, List.nodup_append]
    rw [List.nodup_cons] at hl
    refine ⟨hg a, ih hl.2, ?_⟩
    intro p hp hq
    rw [List.mem_flatMap] at hq
    obtain ⟨c, hc, hpc⟩ := hq
    have h1 := hk a p hp
    have h2 := hk c p hpc
    exact hl.1 (by rw [← h1, h2]; exact hc)

theorem mem_visibleFaces (voxels : PaddedBuffer) (x y z : Int) (f : Nat) :
    (x, y, z, f) ∈ visibleFaces voxels ↔
      ((1 ≤ x ∧ x ≤ 16) ∧ (1 ≤ y ∧ y ≤ 16) ∧ (1 ≤ z ∧ z ≤ 16) ∧ f < 6) ∧
      voxels x y z ≠ 0 ∧
      voxels (x + (faceDir f).1) (y + (faceDir f).2.1) (z + (faceDir f).2.2) = 0 := by
  simp only [visibleFaces, List.mem_flatMap, mem_interiorRange, mem_cellFaces]
  constructor
  · rintro ⟨a, ha, b, hb, c, hc, g, hg, heq, hv, hn⟩
    simp only [Prod.mk.injEq] at heq
    obtain ⟨rfl, rfl, rfl, rfl⟩ := heq
    have hd := faceDir_bounds f hg
    rw [getV_inside voxels _ _ _ (by omega) (by omega) (by omega)] at hn
    exact ⟨⟨ha, hb, hc, hg⟩, hv, by simpa using hn⟩
  · rintro ⟨⟨hx, hy, hz, hf⟩, hv, hn⟩
    have hd := faceDir_bounds f hf
    refine ⟨x, hx, y, hy, z, hz, f, hf, rfl, hv, ?_⟩
    rw [getV_inside voxels _ _ _ (by omega) (by omega) (by omega)]
    simpa using hn

theorem visibleFaces_nodup (voxels : PaddedBuffer) : (visibleFaces voxels).Nodup := by
  unfold visibleFaces
  refine flatMap_nodup_of_key (fun p : Face => p.1) _ _ interiorRange_nodup (fun x => ?_) ?_
  · refine flatMap_nodup_of_key (fun p : Face => p.2.1) _ _ interiorRange_nodup (fun y => ?_) ?_
    · exact flatMap_nodup_of_key (fun p : Face => p.2.2.1) _ _ interiorRange_nodup
        (fun z => cellFaces_nodup voxels x y z)
        (fun z p hp => by
          rw [mem_cellFaces] at hp
          obtain ⟨f, -, rfl, -⟩ := hp
          rfl)
    · intro y p hp
      simp only [List.mem_flatMap, mem_cellFaces] at hp
      obtain ⟨z, -, f, -, rfl, -⟩ := hp
      rfl
  · intro x p hp
    simp only [List.mem_flatMap, mem_cellFaces] at hp
    obtain ⟨y, -, z, -, f, -, rfl, -⟩ := hp
    rfl

theorem visibleFaces_toFinset (voxels : PaddedBuffer) :
    (visibleFaces voxels).toFinset = exposedFaces voxels := by
  ext ⟨x, y, z, f⟩
  simp only [List.mem_toFinset, mem_visibleFaces, exposedFaces, Finset.mem_filter,
    Finset.mem_product, Finset.mem_Icc, Finset.mem_range]

theorem visibleFaces_length (voxels : PaddedBuffer) :
    (visibleFaces voxels).length = (exposedFaces voxels).card := by
  rw [← visibleFaces_toFinset, List.toFinset_card_of_nodup (visibleFaces_nodup voxels)]

/-- The mesh returned by `GenerateMesh` in terms of the emitted faces. -/
theorem GenerateMesh_of_visibleFaces (voxels : PaddedBuffer) :
    (GenerateMesh voxels).vertices = (visibleFaces voxels).flatMap quadVertices ∧
    (GenerateMesh voxels).normals = (visibleFaces voxels).flatMap quadNormals ∧
    (GenerateMesh voxels).vertexCount = 4 * ((visibleFaces voxels).length : Int) ∧
    (GenerateMesh voxels).triangleCount = 2 * ((visibleFaces voxels).length : Int) := by
  obtain ⟨h1, h2, h3, h4, -, -⟩ := meshLoops_emitted voxels
  unfold GenerateMesh
  by_cases hc : (meshLoops voxels).vertexCount > 0
  · simp only [hc, if_true]
    refine ⟨h1, h2, h3, ?_⟩
    rw [h4]
    push_cast
    omega
  · simp only [hc, if_false]
    have hl : (visibleFaces voxels).length = 0 := by omega
    have hnil : visibleFaces voxels = [] := List.length_eq_zero.mp hl
    simp [hnil]

/-- The position and normal floats of a quad determine its cell and face. -/
theorem quad_geometry_injective (p q : Face) (hp : p.2.2.2 < 6) (hq : q.2.2.2 < 6)
    (hv : quadVertices p = quadVertices q) (hn : quadNormals p = quadNormals q) : p = q := by
  obtain ⟨px, py, pz, pf⟩ := p
  obtain ⟨qx, qy, qz, qf⟩ := q
  simp only at hp hq
  have hf : pf = qf := by
    simp only [quadNormals, range_four, List.flatMap_cons, List.flatMap_nil] at hn
    interval_cases pf <;> interval_cases qf <;>
      first
        | rfl
        | (exfalso; revert hn; simp [faceNormal, FaceNormals]; try norm_num)
  subst hf
  simp only [quadVertices, range_four, List.flatMap_cons, List.flatMap_nil, List.cons_append,
    List.nil_append, List.cons.injEq] at hv
  obtain ⟨h1, h2, h3, -⟩ := hv
  have e1 : px = qx := by
    have : (px : ℚ) = qx := by linarith
    exact_mod_cast this
  have e2 : py = qy := by
    have : (py : ℚ) = qy := by linarith
    exact_mod_cast this
  have e3 : pz = qz := by
    have : (pz : ℚ) = qz := by linarith
    exact_mod_cast this
  rw [e1, e2, e3]

/-- C1: for every padded buffer, the quads of the mesh returned by `GenerateMesh` are
exactly the quads of a duplicate-free list `faces` of (cell, face) pairs, and a pair
is in that list if and only if the cell is interior (indices 1..16), the face is one
of the six of `FaceChecks`, the cell is solid and the adjacent cell across the face is
empty; the number of quads (a quarter of `vertexCount`, half of `triangleCount`) is
the number of such pairs, so no quad is emitted between two solid cells and none for
an empty cell. -/
theorem GenerateMesh_face_culling (voxels : PaddedBuffer) :
    ∃ faces : List Face,
      (GenerateMesh voxels).vertices = faces.flatMap quadVertices ∧
      (GenerateMesh voxels).normals = faces.flatMap quadNormals ∧
      (GenerateMesh voxels).vertexCount = 4 * (faces.length : Int) ∧
      (GenerateMesh voxels).triangleCount = 2 * (faces.length : Int) ∧
      faces.Nodup ∧
      (∀ x y z f, (x, y, z, f) ∈ faces ↔
        ((1 ≤ x ∧ x ≤ 16) ∧ (1 ≤ y ∧ y ≤ 16) ∧ (1 ≤ z ∧ z ≤ 16) ∧ f < 6) ∧
        voxels x y z ≠ 0 ∧
        voxels (x + (faceDir f).1) (y + (faceDir f).2.1) (z + (faceDir f).2.2) = 0) ∧
      faces.length = (exposedFaces voxels).card ∧
      (∀ p ∈ faces, ∀ q ∈ faces, quadVertices p = quadVertices q →
        quadNormals p = quadNormals q → p = q) := by
  obtain ⟨h1, h2, h3, h4⟩ := GenerateMesh_of_visibleFaces voxels
  refine ⟨visibleFaces voxels, h1, h2, h3, h4, visibleFaces_nodup voxels,
    mem_visibleFaces voxels, visibleFaces_length voxels, ?_⟩
  rintro ⟨px, py, pz, pf⟩ hp ⟨qx, qy, qz, qf⟩ hq hv hn
  rw [mem_visibleFaces] at hp hq
  exact quad_geometry_injective _ _ hp.1.2.2.2 hq.1.2.2.2 hv hn

theorem mem_exposedFaces (voxels : PaddedBuffer) (x y z : Int) (f : Nat) :
    (x, y, z, f) ∈ exposedFaces voxels ↔
      ((1 ≤ x ∧ x ≤ 16) ∧ (1 ≤ y ∧ y ≤ 16) ∧ (1 ≤ z ∧ z ≤ 16) ∧ f < 6) ∧
      voxels x y z ≠ 0 ∧
      voxels (x + (faceDir f).1) (y + (faceDir f).2.1) (z + (faceDir f).2.2) = 0 := by
  rw [← visibleFaces_toFinset, List.mem_toFinset, mem_visibleFaces]

theorem cellExposed_card (voxels : PaddedBuffer) (a b c : Int) :
    (cellExposed voxels a b c).card = (openFaces voxels a b c).card := by
  unfold cellExposed
  apply Finset.card_image_of_injective
  intro f g h
  simpa using h

theorem mem_cellExposed (voxels : PaddedBuffer) (a b c x y z : Int) (f : Nat) :
    (x, y, z, f) ∈ cellExposed voxels a b c ↔
      (x = a ∧ y = b ∧ z = c) ∧ f < 6 ∧
      voxels (a + (faceDir f).1) (b + (faceDir f).2.1) (c + (faceDir f).2.2) = 0 := by
  simp only [cellExposed, openFaces, Finset.mem_image, Finset.mem_filter, Finset.mem_range,
    Prod.mk.injEq]
  constructor
  · rintro ⟨g, ⟨hg, hz⟩, rfl, rfl, rfl, rfl⟩
    exact ⟨⟨rfl, rfl, rfl⟩, hg, hz⟩
  · rintro ⟨⟨rfl, rfl, rfl⟩, hf, hz⟩
    exact ⟨f, ⟨hf, hz⟩, rfl, rfl, rfl, rfl⟩

/-- The counts and buffer lengths of the returned mesh when `n` faces are exposed. -/
theorem GenerateMesh_counts (voxels : PaddedBuffer) (n : Nat)
    (hn : (exposedFaces voxels).card = n) :
    (GenerateMesh voxels).vertexCount = 4 * (n : Int) ∧
    (GenerateMesh voxels).triangleCount = 2 * (n : Int) := by
  obtain ⟨-, -, h3, h4⟩ := GenerateMesh_of_visibleFaces voxels
  rw [visibleFaces_length, hn] at h3 h4
  exact ⟨h3, h4⟩

theorem exposedFaces_single (voxels : PaddedBuffer) (a b c : Int)
    (hi : (1 ≤ a ∧ a ≤ 16) ∧ (1 ≤ b ∧ b ≤ 16) ∧ (1 ≤ c ∧ c ≤ 16))
    (h : ∀ i j k : Int, (0 ≤ i ∧ i ≤ 17) → (0 ≤ j ∧ j ≤ 17) → (0 ≤ k ∧ k ≤ 17) →
      (voxels i j k ≠ 0 ↔ (i = a ∧ j = b ∧ k = c))) :
    (exposedFaces voxels).card = 6 := by
  have hset : exposedFaces voxels = (Finset.range 6).image fun f => (a, b, c, f) := by
    ext ⟨x, y, z, f⟩
    rw [mem_exposedFaces]
    simp only [Finset.mem_image, Finset.mem_range, Prod.mk.injEq]
    constructor
    · rintro ⟨⟨hx, hy, hz, hf⟩, hv, -⟩
      obtain ⟨rfl, rfl, rfl⟩ := (h x y z (by omega) (by omega) (by omega)).1 hv
      exact ⟨f, hf, rfl, rfl, rfl, rfl⟩
    · rintro ⟨g, hg, rfl, rfl, rfl, rfl⟩
      have hd := faceDir_bounds g hg
      refine ⟨⟨hi.1, hi.2.1, hi.2.2, hg⟩, (h _ _ _ (by omega) (by omega) (by omega)).2
        ⟨rfl, rfl, rfl⟩, ?_⟩
      by_contra hne
      have := (h _ _ _ (by omega) (by omega) (by omega)).1 hne
      have ht := faceDir_table g hg
      interval_cases g <;> simp [ht] at this
  rw [hset, Finset.card_image_of_injective _ (fun f g h => by simpa using h), Finset.card_range]

theorem openFaces_card_five (voxels : PaddedBuffer) (a b c : Int) (g : Nat) (hg : g < 6)
    (h : ∀ f, f < 6 →
      (voxels (a + (faceDir f).1) (b + (faceDir f).2.1) (c + (faceDir f).2.2) = 0 ↔ f ≠ g)) :
    (openFaces voxels a b c).card = 5 := by
  have hset : openFaces voxels a b c = (Finset.range 6).erase g := by
    ext f
    simp only [openFaces, Finset.mem_filter, Finset.mem_range, Finset.mem_erase]
    constructor
    · rintro ⟨hf, hz⟩
      exact ⟨(h f hf).1 hz, hf⟩
    · rintro ⟨hne, hf⟩
      exact ⟨hf, (h f hf).2 hne⟩
  rw [hset, Finset.card_erase_of_mem (Finset.mem_range.mpr hg), Finset.card_range]

theorem exposedFaces_pair (voxels : PaddedBuffer) (a b c : Int) (g : Nat) (hg : g < 6)
    (hi : (1 ≤ a ∧ a ≤ 16) ∧ (1 ≤ b ∧ b ≤ 16) ∧ (1 ≤ c ∧ c ≤ 16))
    (hi2 : (1 ≤ a + (faceDir g).1 ∧ a + (faceDir g).1 ≤ 16) ∧
      (1 ≤ b + (faceDir g).2.1 ∧ b + (faceDir g).2.1 ≤ 16) ∧
      (1 ≤ c + (faceDir g).2.2 ∧ c + (faceDir g).2.2 ≤ 16))
    (h : ∀ i j k : Int, (0 ≤ i ∧ i ≤ 17) → (0 ≤ j ∧ j ≤ 17) → (0 ≤ k ∧ k ≤ 17) →
      (voxels i j k ≠ 0 ↔ ((i = a ∧ j = b ∧ k = c) ∨
        (i = a + (faceDir g).1 ∧ j = b + (faceDir g).2.1 ∧ k = c + (faceDir g).2.2)))) :
    (exposedFaces voxels).card = 10 := by
  have hgb := faceDir_bounds g hg
  have htg := faceDir_table g hg
  have hset : exposedFaces voxels = cellExposed voxels a b c ∪
      cellExposed voxels (a + (faceDir g).1) (b + (faceDir g).2.1) (c + (faceDir g).2.2) := by
    ext ⟨x, y, z, f⟩
    rw [mem_exposedFaces, Finset.mem_union, mem_cellExposed, mem_cellExposed]
    constructor
    · rintro ⟨⟨hx, hy, hz, hf⟩, hv, hn⟩
      rcases (h x y z (by omega) (by omega) (by omega)).1 hv with ⟨rfl, rfl, rfl⟩ | ⟨rfl, rfl, rfl⟩
      · exact Or.inl ⟨⟨rfl, rfl, rfl⟩, hf, hn⟩
      · exact Or.inr ⟨⟨rfl, rfl, rfl⟩, hf, hn⟩
    · rintro (⟨⟨rfl, rfl, rfl⟩, hf, hn⟩ | ⟨⟨rfl, rfl, rfl⟩, hf, hn⟩)
      · exact ⟨⟨hi.1, hi.2.1, hi.2.2, hf⟩,
          (h _ _ _ (by omega) (by omega) (by omega)).2 (Or.inl ⟨rfl, rfl, rfl⟩), hn⟩
      · exact ⟨⟨hi2.1, hi2.2.1, hi2.2.2, hf⟩,
          (h _ _ _ (by omega) (by omega) (by omega)).2 (Or.inr ⟨rfl, rfl, rfl⟩), hn⟩
  have hdisj : Disjoint (cellExposed voxels a b c)
      (cellExposed voxels (a + (faceDir g).1) (b + (faceDir g).2.1) (c + (faceDir g).2.2)) := by
    rw [Finset.disjoint_left]
    rintro ⟨x, y, z, f⟩ h1 h2
    rw [mem_cellExposed] at h1 h2
    obtain ⟨⟨rfl, rfl, rfl⟩, -⟩ := h1
    obtain ⟨⟨e1, e2, e3⟩, -⟩ := h2
    interval_cases g <;> simp [htg] at e1 e2 e3
  have h0 : (openFaces voxels a b c).card = 5 := by
    apply openFaces_card_five voxels a b c g hg
    intro f hf
    have hfb := faceDir_bounds f hf
    have htf := faceDir_table f hf
    have key := h (a + (faceDir f).1) (b + (faceDir f).2.1) (c + (faceDir f).2.2)
      (by omega) (by omega) (by omega)
    constructor
    · rintro hz rfl
      exact key.2 (Or.inr ⟨rfl, rfl, rfl⟩) hz
    · intro hne
      by_contra hv
      rcases key.1 hv with h1 | h1
      · interval_cases f <;> simp [htf] at h1
      · interval_cases f <;> interval_cases g <;> simp [htf, htg] at h1 hne
  have h1 : (openFaces voxels (a + (faceDir g).1) (b + (faceDir g).2.1)
      (c + (faceDir g).2.2)).card = 5 := by
    apply openFaces_card_five voxels _ _ _ (oppositeFace g) (by
      unfold oppositeFace; interval_cases g <;> simp)
    intro f hf
    have hfb := faceDir_bounds f hf
    have htf := faceDir_table f hf
    have key := h (a + (faceDir g).1 + (faceDir f).1) (b + (faceDir g).2.1 + (faceDir f).2.1)
      (c + (faceDir g).2.2 + (faceDir f).2.2) (by omega) (by omega) (by omega)
    constructor
    · intro hz hfg
      refine key.2 (Or.inl ?_) hz
      subst hfg
      unfold oppositeFace
      interval_cases g <;> simp [faceDir_table]
    · intro hne
      by_contra hv
      rcases key.1 hv with h1 | h1
      · unfold oppositeFace at hne
        interval_cases f <;> interval_cases g <;> simp [htf, htg] at h1 hne <;> omega
      · interval_cases f <;> simp [htf] at h1
  rw [hset, Finset.card_union_of_disjoint hdisj, cellExposed_card, cellExposed_card, h0, h1]

/-- C2: when the padded buffer has exactly one solid cell, at an interior position
`(a, b, c)`, `GenerateMesh` emits exactly 6 quads (vertexCount 24, triangleCount 12);
when it has exactly two solid cells, both interior and sharing a face (the second is
the neighbour of the first across a face `g`), it emits exactly 10 quads
(vertexCount 40, triangleCount 20). -/
theorem GenerateMesh_single_and_adjacent_pair (voxels : PaddedBuffer) (a b c : Int)
    (hi : (1 ≤ a ∧ a ≤ 16) ∧ (1 ≤ b ∧ b ≤ 16) ∧ (1 ≤ c ∧ c ≤ 16)) :
    ((∀ i j k : Int, (0 ≤ i ∧ i ≤ 17) → (0 ≤ j ∧ j ≤ 17) → (0 ≤ k ∧ k ≤ 17) →
        (voxels i j k ≠ 0 ↔ (i = a ∧ j = b ∧ k = c))) →
      (∃ faces : List Face, faces.length = 6 ∧
        (GenerateMesh voxels).vertices = faces.flatMap quadVertices) ∧
      (GenerateMesh voxels).vertexCount = 24 ∧ (GenerateMesh voxels).triangleCount = 12) ∧
    (∀ g, g < 6 →
      ((1 ≤ a + (faceDir g).1 ∧ a + (faceDir g).1 ≤ 16) ∧
        (1 ≤ b + (faceDir g).2.1 ∧ b + (faceDir g).2.1 ≤ 16) ∧
        (1 ≤ c + (faceDir g).2.2 ∧ c + (faceDir g).2.2 ≤ 16)) →
      (∀ i j k : Int, (0 ≤ i ∧ i ≤ 17) → (0 ≤ j ∧ j ≤ 17) → (0 ≤ k ∧ k ≤ 17) →
        (voxels i j k ≠ 0 ↔ ((i = a ∧ j = b ∧ k = c) ∨
          (i = a + (faceDir g).1 ∧ j = b + (faceDir g).2.1 ∧ k = c + (faceDir g).2.2)))) →
      (∃ faces : List Face, faces.length = 10 ∧
        (GenerateMesh voxels).vertices = faces.flatMap quadVertices) ∧
      (GenerateMesh voxels).vertexCount = 40 ∧ (GenerateMesh voxels).triangleCount = 20) := by
  constructor
  · intro h
    have hc := exposedFaces_single voxels a b c hi h
    obtain ⟨h3, h4⟩ := GenerateMesh_counts voxels 6 hc
    refine ⟨⟨visibleFaces voxels, ?_, (GenerateMesh_of_visibleFaces voxels).1⟩, ?_, ?_⟩
    · rw [visibleFaces_length, hc]
    · rw [h3]; norm_num
    · rw [h4]; norm_num
  · intro g hg hi2 h
    have hc := exposedFaces_pair voxels a b c g hg hi hi2 h
    obtain ⟨h3, h4⟩ := GenerateMesh_counts voxels 10 hc
    refine ⟨⟨visibleFaces voxels, ?_, (GenerateMesh_of_visibleFaces voxels).1⟩, ?_, ?_⟩
    · rw [visibleFaces_length, hc]
    · rw [h3]; norm_num
    · rw [h4]; norm_num

theorem faceDir_zero : faceDir 0 = (0, 1, 0) := by decide

/-- Witness for C2: the buffer with the single solid cell `(1, 1, 1)` yields 24
vertices and 12 triangles, the buffer with the solid cells `(1, 1, 1)` and `(1, 2, 1)`
yields 40 vertices and 20 triangles. -/
theorem GenerateMesh_single_and_adjacent_pair_witness :
    ((GenerateMesh singleVoxelBuffer).vertexCount = 24 ∧
      (GenerateMesh singleVoxelBuffer).triangleCount = 12) ∧
    ((GenerateMesh pairVoxelBuffer).vertexCount = 40 ∧
      (GenerateMesh pairVoxelBuffer).triangleCount = 20) :=
  ⟨((GenerateMesh_single_and_adjacent_pair singleVoxelBuffer 1 1 1 (by decide)).1
      (fun i j k _ _ _ => by simp [singleVoxelBuffer])).2,
   ((GenerateMesh_single_and_adjacent_pair pairVoxelBuffer 1 1 1 (by decide)).2 0 (by decide)
      (by rw [faceDir_zero]; decide)
      (fun i j k _ _ _ => by
        rw [faceDir_zero]
        simp only [pairVoxelBuffer]
        constructor
        · intro h
          by_contra hn
          exact h (if_neg (by
            rintro (⟨h1, h2, h3⟩ | ⟨h1, h2, h3⟩)
            · exact hn (Or.inl ⟨h1, h2, h3⟩)
            · exact hn (Or.inr ⟨by omega, by omega, by omega⟩)))
        · rintro (⟨h1, h2, h3⟩ | ⟨h1, h2, h3⟩)
          · simp [h1, h2, h3]
          · have h2b : j = 2 := by omega
            have h3b : k = 1 := by omega
            have h1b : i = 1 := by omega
            simp [h1b, h2b, h3b])).2⟩

/-- Two keys are equivalent under `operator<` exactly when they are equal. -/
theorem ChunkPos.equiv_iff_eq (a b : ChunkPos) :
    ((!(a.lt b) && !(b.lt a)) = true) ↔ a = b := by
  obtain ⟨ax, ay, az⟩ := a
  obtain ⟨bx, by', bz⟩ := b
  simp only [ChunkPos.lt, ChunkPos.mk.injEq, Bool.and_eq_true, Bool.not_eq_true']
  constructor
  · rintro ⟨h1, h2⟩
    by_cases hx : ax = bx
    · by_cases hy : ay = by'
      · subst hx hy
        simp at h1 h2
        exact ⟨rfl, rfl, by omega⟩
      · subst hx
        simp [hy, Ne.symm hy] at h1 h2
        omega
    · simp [hx, Ne.symm hx] at h1 h2
      omega
  · rintro ⟨rfl, rfl, rfl⟩
    simp

/-- A successful lookup returns an entry of the store stored under exactly that key. -/
theorem ChunkStore.find_some_mem (chunks : ChunkStore) (k : ChunkPos) (chunk : Chunk)
    (h : chunks.find k = some chunk) : (k, chunk) ∈ chunks := by
  unfold ChunkStore.find at h
  rw [Option.map_eq_some'] at h
  obtain ⟨⟨k2, c2⟩, hf, rfl⟩ := h
  have hm := List.mem_of_find?_eq_some hf
  have hp := List.find?_some hf
  have := (ChunkPos.equiv_iff_eq k2 k).1 hp
  subst this
  exact hm

/-- A lookup fails exactly when no entry of the store has that key. -/
theorem ChunkStore.find_none_iff (chunks : ChunkStore) (k : ChunkPos) :
    chunks.find k = none ↔ ∀ chunk, (k, chunk) ∉ chunks := by
  unfold ChunkStore.find
  rw [Option.map_eq_none', List.find?_eq_none]
  constructor
  · intro h chunk hm
    exact h (k, chunk) hm ((ChunkPos.equiv_iff_eq k k).2 rfl)
  · rintro h ⟨k2, c2⟩ hm hp
    have := (ChunkPos.equiv_iff_eq k2 k).1 hp
    subst this
    exact h c2 hm

/-! ### Rounding to binary32 -/

theorem pow2_eq (e : Int) : pow2 e = (2 : ℚ) ^ e := by
  unfold pow2
  split_ifs with h
  · obtain ⟨n, rfl⟩ := Int.eq_ofNat_of_zero_le h
    simp [zpow_natCast]
  · have h0 : 0 ≤ -e := by omega
    obtain ⟨n, hn⟩ := Int.eq_ofNat_of_zero_le h0
    have he : e = -(n : Int) := by omega
    subst he
    simp [zpow_neg, zpow_natCast]

theorem two_zpow_pos (e : Int) : (0 : ℚ) < (2 : ℚ) ^ e := zpow_pos (by norm_num) e

theorem two_zpow_le {m n : Int} (h : m ≤ n) : (2 : ℚ) ^ m ≤ (2 : ℚ) ^ n :=
  zpow_le_zpow_right₀ (by norm_num) h

theorem two_zpow_lt {m n : Int} (h : m < n) : (2 : ℚ) ^ m < (2 : ℚ) ^ n :=
  zpow_lt_zpow_right₀ (by norm_num) h

theorem below_iff (n d : Nat) (hd : 0 < d) (j : Nat) :
    n * 2 ^ (125 - j) < d * 2 ^ (j - 125) ↔ (n : ℚ) / (d : ℚ) < (2 : ℚ) ^ ((j : Int) - 125) := by
  have hdq : (0 : ℚ) < (d : ℚ) := by exact_mod_cast hd
  have hcast : n * 2 ^ (125 - j) < d * 2 ^ (j - 125) ↔
      (n : ℚ) * (2 : ℚ) ^ (125 - j) < (d : ℚ) * (2 : ℚ) ^ (j - 125) := by
    constructor
    · intro h
      exact_mod_cast h
    · intro h
      exact_mod_cast h
  rw [hcast, div_lt_iff₀ hdq]
  rcases le_total j 125 with h | h
  · obtain ⟨m, hm⟩ := Nat.exists_eq_add_of_le h
    have e1 : 125 - j = m := by omega
    have e2 : j - 125 = 0 := by omega
    have e3 : ((j : Int) - 125) = -(m : Int) := by omega
    have hp : (0 : ℚ) < (2 : ℚ) ^ m := by positivity
    rw [e1, e2, e3, pow_zero, mul_one, zpow_neg, zpow_natCast, inv_mul_eq_div, lt_div_iff₀ hp]
  · obtain ⟨m, hm⟩ := Nat.exists_eq_add_of_le h
    have e1 : 125 - j = 0 := by omega
    have e2 : j - 125 = m := by omega
    have e3 : ((j : Int) - 125) = (m : Int) := by omega
    rw [e1, e2, e3, pow_zero, mul_one, zpow_natCast, mul_comm]

/-- The search returns the exponent of the unit in the last place when it starts
below it with enough fuel. -/
theorem ulpSearch_spec (n d : Nat) (hd : 0 < d) : ∀ (fuel j : Nat),
    (n : ℚ) / (d : ℚ) < (2 : ℚ) ^ ((j : Int) + fuel - 125) →
    (j = 0 ∨ (2 : ℚ) ^ ((j : Int) - 126) ≤ (n : ℚ) / (d : ℚ)) →
    (n : ℚ) / (d : ℚ) < (2 : ℚ) ^ ((ulpSearch n d fuel j : Int) - 125) ∧
    (ulpSearch n d fuel j = 0 ∨
      (2 : ℚ) ^ ((ulpSearch n d fuel j : Int) - 126) ≤ (n : ℚ) / (d : ℚ)) := by
  intro fuel
  induction fuel with
  | zero =>
    intro j h1 h2
    simp only [ulpSearch]
    refine ⟨?_, h2⟩
    simpa using h1
  | succ fuel ih =>
    intro j h1 h2
    simp only [ulpSearch]
    split_ifs with hlt
    · rw [below_iff n d hd] at hlt
      exact ⟨hlt, h2⟩
    · rw [below_iff n d hd, not_lt] at hlt
      apply ih (j + 1)
      · have : ((j + 1 : Nat) : Int) + (fuel : Int) - 125 =
            (j : Int) + ((fuel + 1 : Nat) : Int) - 125 := by
          push_cast
          ring
        rw [this]
        exact h1
      · right
        have : ((j + 1 : Nat) : Int) - 126 = (j : Int) - 125 := by
          push_cast
          ring
        rw [this]
        exact hlt

theorem abs_eq_natAbs_div (q : ℚ) : |q| = (q.num.natAbs : ℚ) / (q.den : ℚ) := by
  have hd : (0 : ℚ) < (q.den : ℚ) := by exact_mod_cast q.den_pos
  conv_lhs => rw [← Rat.num_div_den q]
  rw [abs_div, abs_of_pos hd, Nat.cast_natAbs, Int.cast_abs]

/-- The bisection stops at the start or just above an exponent that is too small. -/
theorem ulpBisect_spec (n d : Nat) (hd : 0 < d) : ∀ (k j : Nat),
    (j = 0 ∨ (2 : ℚ) ^ ((j : Int) - 126) ≤ (n : ℚ) / (d : ℚ)) →
    (ulpBisect n d k j = 0 ∨
      (2 : ℚ) ^ ((ulpBisect n d k j : Int) - 126) ≤ (n : ℚ) / (d : ℚ)) := by
  intro k
  induction k with
  | zero =>
    intro j h
    exact h
  | succ k ih =>
    intro j h
    simp only [ulpBisect]
    split_ifs with hlt
    · exact ih j h
    · apply ih
      right
      rw [below_iff n d hd, not_lt] at hlt
      have hpos : 1 ≤ 2 ^ k := Nat.one_le_two_pow
      have e : ((j + 2 ^ k : Nat) : Int) - 126 = ((j + 2 ^ k - 1 : Nat) : Int) - 125 := by
        omega
      rw [e]
      exact hlt

/-- The exponent of the unit in the last place: it is at least `-149`, `|q|` is below
`2^(e+24)`, and above the subnormal range `|q|` is at least `2^(e+23)`. -/
theorem ulpExp_spec (q : ℚ) :
    -149 ≤ ulpExp q ∧ |q| < (2 : ℚ) ^ (ulpExp q + 24) ∧
    (ulpExp q = -149 ∨ (2 : ℚ) ^ (ulpExp q + 23) ≤ |q|) := by
  rw [abs_eq_natAbs_div]
  have hs := ulpSearch_spec q.num.natAbs q.den q.den_pos (150 + q.num.natAbs)
    (ulpBisect q.num.natAbs q.den 9 0) (by
    have hd : (1 : ℚ) ≤ (q.den : ℚ) := by exact_mod_cast q.den_pos
    have h1 : (q.num.natAbs : ℚ) / (q.den : ℚ) ≤ (q.num.natAbs : ℚ) :=
      div_le_self (by positivity) hd
    have h2 : ((q.num.natAbs : Nat) : ℚ) < (2 : ℚ) ^ q.num.natAbs := by
      exact_mod_cast Nat.lt_two_pow q.num.natAbs
    have h3 : (2 : ℚ) ^ q.num.natAbs = (2 : ℚ) ^ (q.num.natAbs : Int) := (zpow_natCast 2 _).symm
    have h4 : (2 : ℚ) ^ (q.num.natAbs : Int) ≤
        (2 : ℚ) ^ (((ulpBisect q.num.natAbs q.den 9 0 : Nat) : Int) +
          ((150 + q.num.natAbs : Nat) : Int) - 125) := by
      apply two_zpow_le
      push_cast
      omega
    calc (q.num.natAbs : ℚ) / (q.den : ℚ) ≤ (q.num.natAbs : ℚ) := h1
      _ < (2 : ℚ) ^ q.num.natAbs := h2
      _ = (2 : ℚ) ^ (q.num.natAbs : Int) := h3
      _ ≤ _ := h4) (ulpBisect_spec _ _ q.den_pos 9 0 (Or.inl rfl))
  unfold ulpExp
  generalize ulpSearch q.num.natAbs q.den (150 + q.num.natAbs)
    (ulpBisect q.num.natAbs q.den 9 0) = j at hs
  obtain ⟨h1, h2⟩ := hs
  have e1 : (j : Int) - 149 + 24 = (j : Int) - 125 := by ring
  have e2 : (j : Int) - 149 + 23 = (j : Int) - 126 := by ring
  rw [e1, e2]
  refine ⟨by omega, h1, ?_⟩
  rcases h2 with h2 | h2
  · left
    omega
  · exact Or.inr h2

/-- The three properties of `ulpExp_spec` determine the exponent. -/
theorem ulpExp_unique (q : ℚ) (k : Int) (h1 : -149 ≤ k) (h2 : |q| < (2 : ℚ) ^ (k + 24))
    (h3 : k = -149 ∨ (2 : ℚ) ^ (k + 23) ≤ |q|) : ulpExp q = k := by
  obtain ⟨u1, u2, u3⟩ := ulpExp_spec q
  rcases lt_trichotomy (ulpExp q) k with h | h | h
  · exfalso
    rcases h3 with h3 | h3
    · omega
    · have : (2 : ℚ) ^ (ulpExp q + 24) ≤ (2 : ℚ) ^ (k + 23) := two_zpow_le (by omega)
      linarith
  · exact h
  · exfalso
    rcases u3 with u3 | u3
    · omega
    · have : (2 : ℚ) ^ (k + 24) ≤ (2 : ℚ) ^ (ulpExp q + 23) := two_zpow_le (by omega)
      linarith

theorem ulpExp_neg (q : ℚ) : ulpExp (-q) = ulpExp q := by
  unfold ulpExp
  rw [Rat.neg_num, Rat.neg_den, Int.natAbs_neg]

theorem ulpExp_mono (x y : ℚ) (h : |x| ≤ |y|) : ulpExp x ≤ ulpExp y := by
  obtain ⟨u1, u2, u3⟩ := ulpExp_spec x
  obtain ⟨v1, v2, v3⟩ := ulpExp_spec y
  by_contra hc
  rw [not_le] at hc
  rcases u3 with u3 | u3
  · omega
  · have : (2 : ℚ) ^ (ulpExp y + 24) ≤ (2 : ℚ) ^ (ulpExp x + 23) := two_zpow_le (by omega)
    linarith

theorem roundEven_intCast (n : Int) : roundEven (n : ℚ) = n := by
  unfold roundEven
  rw [Int.floor_intCast]
  simp

theorem roundEven_bounds (x : ℚ) :
    (roundEven x = Int.floor x ∨ roundEven x = Int.floor x + 1) := by
  unfold roundEven
  split_ifs <;> simp

theorem roundEven_mono {x y : ℚ} (h : x ≤ y) : roundEven x ≤ roundEven y := by
  have hf : Int.floor x ≤ Int.floor y := Int.floor_mono h
  rcases lt_or_eq_of_le hf with hlt | heq
  · rcases roundEven_bounds x with hx | hx <;> rcases roundEven_bounds y with hy | hy <;> omega
  · unfold roundEven
    rw [← heq]
    have hxy : x - (Int.floor x : ℚ) ≤ y - (Int.floor x : ℚ) := by linarith
    split_ifs <;> first
      | omega
      | (exfalso; linarith)

theorem roundEven_neg (x : ℚ) : roundEven (-x) = -roundEven x := by
  by_cases hx : (Int.floor x : ℚ) = x
  · rw [← hx, ← Int.cast_neg, roundEven_intCast, roundEven_intCast]
  · have h1 : (Int.floor x : ℚ) < x := lt_of_le_of_ne (Int.floor_le x) hx
    have h2 : x < (Int.floor x : ℚ) + 1 := Int.lt_floor_add_one x
    have hfl : Int.floor (-x) = -Int.floor x - 1 := by
      rw [Int.floor_eq_iff]
      push_cast
      constructor <;> linarith
    unfold roundEven
    rw [hfl]
    push_cast
    split_ifs <;> first
      | omega
      | (exfalso; linarith)

theorem ulpExp_zero : ulpExp 0 = -149 := by decide!

theorem f32_zero : f32 0 = 0 := by decide!

theorem f32_neg (q : ℚ) : f32 (-q) = -f32 q := by
  unfold f32
  rw [ulpExp_neg, neg_div, roundEven_neg]
  push_cast
  ring

/-- The rounded value written with the unit in the last place of its argument. -/
theorem f32_eq (q : ℚ) :
    f32 q = (roundEven (q / (2 : ℚ) ^ (ulpExp q)) : ℚ) * (2 : ℚ) ^ (ulpExp q) := by
  unfold f32
  rw [pow2_eq]

theorem f32_nonneg {q : ℚ} (h : 0 ≤ q) : 0 ≤ f32 q := by
  rw [f32_eq]
  apply mul_nonneg _ (le_of_lt (two_zpow_pos _))
  have h0 : (0 : ℚ) ≤ q / (2 : ℚ) ^ (ulpExp q) := div_nonneg h (le_of_lt (two_zpow_pos _))
  have := roundEven_mono h0
  rw [show ((0 : ℚ)) = ((0 : Int) : ℚ) by norm_num, roundEven_intCast] at this
  exact_mod_cast this

theorem f32_nonpos {q : ℚ} (h : q ≤ 0) : f32 q ≤ 0 := by
  have := f32_nonneg (neg_nonneg.mpr h)
  rw [f32_neg] at this
  linarith

/-- A dyadic number `m * 2^k` with `|m| < 2^24` and `k ≥ -149` is a binary32 value. -/
theorem f32_dyadic (m k : Int) (hm : |m| < 2 ^ 24) (hk : -149 ≤ k) :
    f32 ((m : ℚ) * (2 : ℚ) ^ k) = (m : ℚ) * (2 : ℚ) ^ k := by
  obtain ⟨u1, u2, u3⟩ := ulpExp_spec ((m : ℚ) * (2 : ℚ) ^ k)
  rw [f32_eq]
  generalize ulpExp ((m : ℚ) * (2 : ℚ) ^ k) = U at u1 u2 u3 ⊢
  have habs : |(m : ℚ) * (2 : ℚ) ^ k| = |(m : ℚ)| * (2 : ℚ) ^ k := by
    rw [abs_mul, abs_of_pos (two_zpow_pos k)]
  have hmq : |(m : ℚ)| < (2 : ℚ) ^ (24 : Int) := by
    have : ((|m| : Int) : ℚ) < ((2 ^ 24 : Int) : ℚ) := by exact_mod_cast hm
    rw [Int.cast_abs] at this
    norm_num at this ⊢
    exact this
  have hlt : |(m : ℚ) * (2 : ℚ) ^ k| < (2 : ℚ) ^ (k + 24) := by
    rw [habs, add_comm, zpow_add₀ (by norm_num : (2 : ℚ) ≠ 0)]
    exact mul_lt_mul_of_pos_right hmq (two_zpow_pos k)
  have hle : U ≤ k := by
    by_contra hc
    rw [not_le] at hc
    rcases u3 with u3 | u3
    · omega
    · have : (2 : ℚ) ^ (k + 24) ≤ (2 : ℚ) ^ (U + 23) := two_zpow_le (by omega)
      linarith
  obtain ⟨n, hn⟩ := Int.eq_ofNat_of_zero_le (sub_nonneg.mpr hle)
  have hk2 : (2 : ℚ) ^ k = (2 : ℚ) ^ n * (2 : ℚ) ^ U := by
    rw [← zpow_natCast, ← zpow_add₀ (by norm_num : (2 : ℚ) ≠ 0), ← hn]
    congr 1
    ring
  have hdiv : (m : ℚ) * (2 : ℚ) ^ k / (2 : ℚ) ^ U = ((m * 2 ^ n : Int) : ℚ) := by
    rw [div_eq_iff (ne_of_gt (two_zpow_pos _))]
    push_cast
    rw [hk2]
    ring
  rw [hdiv, roundEven_intCast, ← hdiv]
  exact div_mul_cancel₀ _ (ne_of_gt (two_zpow_pos _))

/-- An integer of magnitude below `2^24` is a binary32 value. -/
theorem f32_intCast (m : Int) (hm : |m| < 2 ^ 24) : f32 (m : ℚ) = m := by
  have := f32_dyadic m 0 hm (by norm_num)
  simpa using this

/-- A half-integer `m / 2` with `|m| < 2^24` is a binary32 value. -/
theorem f32_half (m : Int) (hm : |m| < 2 ^ 24) : f32 ((m : ℚ) / 2) = (m : ℚ) / 2 := by
  have := f32_dyadic m (-1) hm (by norm_num)
  have h2 : (2 : ℚ) ^ (-1 : Int) = 1 / 2 := by norm_num
  rw [h2] at this
  have e : (m : ℚ) / 2 = (m : ℚ) * (1 / 2) := by ring
  rw [e]
  exact this

theorem f32_mono_nonneg {x y : ℚ} (hx : 0 ≤ x) (h : x ≤ y) : f32 x ≤ f32 y := by
  have hy : 0 ≤ y := le_trans hx h
  have habs : |x| ≤ |y| := by
    rw [abs_of_nonneg hx, abs_of_nonneg hy]
    exact h
  have hU := ulpExp_mono x y habs
  obtain ⟨u1, u2, u3⟩ := ulpExp_spec x
  obtain ⟨v1, v2, v3⟩ := ulpExp_spec y
  rw [abs_of_nonneg hx] at u2 u3
  rw [abs_of_nonneg hy] at v2 v3
  rw [f32_eq, f32_eq]
  generalize ulpExp x = a at hU u1 u2 u3 ⊢
  generalize ulpExp y = b at hU v1 v2 v3 ⊢
  have h2ne : (2 : ℚ) ≠ 0 := by norm_num
  rcases lt_or_eq_of_le hU with hlt | heq
  · have hB : (2 : ℚ) ^ (b + 23) ≤ y := by
      rcases v3 with v3 | v3
      · omega
      · exact v3
    have hxB : x < (2 : ℚ) ^ (b + 23) := lt_of_lt_of_le u2 (two_zpow_le (by omega))
    obtain ⟨n, hn⟩ := Int.eq_ofNat_of_zero_le (show 0 ≤ b + 23 - a by omega)
    have hna : ((2 ^ n : Int) : ℚ) * (2 : ℚ) ^ a = (2 : ℚ) ^ (b + 23) := by
      push_cast
      rw [← zpow_natCast, ← zpow_add₀ h2ne, ← hn]
      congr 1
      ring
    have hnb : ((2 ^ 23 : Int) : ℚ) * (2 : ℚ) ^ b = (2 : ℚ) ^ (b + 23) := by
      rw [add_comm, zpow_add₀ h2ne]
      norm_num
    have h1 : x / (2 : ℚ) ^ a ≤ ((2 ^ n : Int) : ℚ) := by
      rw [div_le_iff₀ (two_zpow_pos a), hna]
      exact le_of_lt hxB
    have r1 := roundEven_mono h1
    rw [roundEven_intCast] at r1
    have h2 : ((2 ^ 23 : Int) : ℚ) ≤ y / (2 : ℚ) ^ b := by
      rw [le_div_iff₀ (two_zpow_pos b), hnb]
      exact hB
    have r2 := roundEven_mono h2
    rw [roundEven_intCast] at r2
    calc (roundEven (x / (2 : ℚ) ^ a) : ℚ) * (2 : ℚ) ^ a
        ≤ ((2 ^ n : Int) : ℚ) * (2 : ℚ) ^ a :=
          mul_le_mul_of_nonneg_right (by exact_mod_cast r1) (le_of_lt (two_zpow_pos a))
      _ = ((2 ^ 23 : Int) : ℚ) * (2 : ℚ) ^ b := by rw [hna, hnb]
      _ ≤ (roundEven (y / (2 : ℚ) ^ b) : ℚ) * (2 : ℚ) ^ b :=
          mul_le_mul_of_nonneg_right (by exact_mod_cast r2) (le_of_lt (two_zpow_pos b))
  · subst heq
    apply mul_le_mul_of_nonneg_right _ (le_of_lt (two_zpow_pos a))
    have : x / (2 : ℚ) ^ a ≤ y / (2 : ℚ) ^ a :=
      div_le_div_of_nonneg_right h (le_of_lt (two_zpow_pos a))
    exact_mod_cast roundEven_mono this

/-- Rounding to binary32 is monotone. -/
theorem f32_mono {x y : ℚ} (h : x ≤ y) : f32 x ≤ f32 y := by
  rcases le_or_lt 0 x with hx | hx
  · exact f32_mono_nonneg hx h
  · rcases le_or_lt 0 y with hy | hy
    · exact le_trans (f32_nonpos (le_of_lt hx)) (f32_nonneg hy)
    · have := f32_mono_nonneg (x := -y) (y := -x) (by linarith) (by linarith)
      rw [f32_neg, f32_neg] at this
      linarith

/-- A rounded value is an integer of magnitude at most `2^24` times the unit in the
last place of the argument. -/
theorem f32_repr (q : ℚ) :
    ∃ M : Int, f32 q = (M : ℚ) * (2 : ℚ) ^ (ulpExp q) ∧ |M| ≤ 2 ^ 24 := by
  obtain ⟨u1, u2, u3⟩ := ulpExp_spec q
  refine ⟨roundEven (q / (2 : ℚ) ^ (ulpExp q)), f32_eq q, ?_⟩
  have h2ne : (2 : ℚ) ≠ 0 := by norm_num
  have hs : (2 : ℚ) ^ (ulpExp q + 24) = ((2 ^ 24 : Int) : ℚ) * (2 : ℚ) ^ (ulpExp q) := by
    rw [add_comm, zpow_add₀ h2ne]
    norm_num
  rw [hs, abs_lt] at u2
  have h1 : q / (2 : ℚ) ^ (ulpExp q) ≤ ((2 ^ 24 : Int) : ℚ) := by
    rw [div_le_iff₀ (two_zpow_pos _)]
    exact le_of_lt u2.2
  have h2 : ((-(2 ^ 24) : Int) : ℚ) ≤ q / (2 : ℚ) ^ (ulpExp q) := by
    rw [le_div_iff₀ (two_zpow_pos _)]
    push_cast at u2 ⊢
    linarith [u2.1]
  have r1 := roundEven_mono h1
  have r2 := roundEven_mono h2
  rw [roundEven_intCast] at r1 r2
  rw [abs_le]
  exact ⟨r2, r1⟩

/-- Rounding a rounded value changes nothing. -/
theorem f32_idem (q : ℚ) : f32 (f32 q) = f32 q := by
  obtain ⟨M, hM, hb⟩ := f32_repr q
  obtain ⟨u1, -, -⟩ := ulpExp_spec q
  rw [hM]
  generalize ulpExp q = U at u1 ⊢
  have h2ne : (2 : ℚ) ≠ 0 := by norm_num
  rcases lt_or_eq_of_le hb with hlt | heq
  · exact f32_dyadic M U hlt u1
  · have hs : (2 : ℚ) ^ (U + 24) = ((2 ^ 24 : Int) : ℚ) * (2 : ℚ) ^ U := by
      rw [add_comm, zpow_add₀ h2ne]
      norm_num
    rcases abs_eq (by norm_num : (0 : Int) ≤ 2 ^ 24) |>.1 heq with h | h
    · have e : (M : ℚ) * (2 : ℚ) ^ U = ((1 : Int) : ℚ) * (2 : ℚ) ^ (U + 24) := by
        rw [hs, h]
        push_cast
        ring
      rw [e]
      exact f32_dyadic 1 (U + 24) (by norm_num) (by omega)
    · have e : (M : ℚ) * (2 : ℚ) ^ U = ((-1 : Int) : ℚ) * (2 : ℚ) ^ (U + 24) := by
        rw [hs, h]
        push_cast
        ring
      rw [e]
      exact f32_dyadic (-1) (U + 24) (by norm_num) (by omega)

/-- A binary32 value is an integer of magnitude below `2^24` times its unit in the
last place. -/
theorem float_repr (w : ℚ) (h : f32 w = w) :
    ∃ M : Int, w = (M : ℚ) * (2 : ℚ) ^ (ulpExp w) ∧ |M| < 2 ^ 24 := by
  obtain ⟨u1, u2, u3⟩ := ulpExp_spec w
  have hM : w = (roundEven (w / (2 : ℚ) ^ (ulpExp w)) : ℚ) * (2 : ℚ) ^ (ulpExp w) := by
    conv_lhs => rw [← h, f32_eq]
  refine ⟨roundEven (w / (2 : ℚ) ^ (ulpExp w)), hM, ?_⟩
  generalize roundEven (w / (2 : ℚ) ^ (ulpExp w)) = M at hM ⊢
  have h2ne : (2 : ℚ) ≠ 0 := by norm_num
  have hs : (2 : ℚ) ^ (ulpExp w + 24) = ((2 ^ 24 : Int) : ℚ) * (2 : ℚ) ^ (ulpExp w) := by
    rw [add_comm, zpow_add₀ h2ne]
    norm_num
  rw [hs] at u2
  have habs : |w| = |(M : ℚ)| * (2 : ℚ) ^ (ulpExp w) := by
    conv_lhs => rw [hM]
    rw [abs_mul, abs_of_pos (two_zpow_pos _)]
  rw [habs] at u2
  have := lt_of_mul_lt_mul_right u2 (le_of_lt (two_zpow_pos _))
  rw [← Int.cast_abs] at this
  exact_mod_cast this

/-- Every binary32 value is an integer multiple of `2^-149`. -/
theorem float_grid (w : ℚ) (h : f32 w = w) : ∃ m : Int, w = (m : ℚ) * (2 : ℚ) ^ (-149 : Int) := by
  obtain ⟨M, hM, -⟩ := float_repr w h
  obtain ⟨u1, -, -⟩ := ulpExp_spec w
  obtain ⟨n, hn⟩ := Int.eq_ofNat_of_zero_le (show 0 ≤ ulpExp w + 149 by omega)
  refine ⟨M * 2 ^ n, ?_⟩
  have h2ne : (2 : ℚ) ≠ 0 := by norm_num
  have e : (2 : ℚ) ^ (ulpExp w) = (2 : ℚ) ^ n * (2 : ℚ) ^ (-149 : Int) := by
    rw [← zpow_natCast, ← zpow_add₀ h2ne, ← hn]
    congr 1
    ring
  conv_lhs => rw [hM, e]
  push_cast
  ring

theorem machine_keepsSign : machine.KeepsSign :=
  ⟨fun _ h => f32_nonneg h, fun _ h => f32_nonpos h⟩

theorem exact_keepsSign : exact.KeepsSign := ⟨fun _ h => h, fun _ h => h⟩

theorem machine_rnd (q : ℚ) : machine.rnd q = f32 q := rfl

theorem machine_toI (n : Int) : machine.toI n = castInt n := rfl

theorem machine_wrap (n : Int) : machine.wrap n = wrapInt n := rfl

/-! ### The chunk store query -/

theorem castInt_of_range (n : Int) (h : -2147483648 ≤ n ∧ n ≤ 2147483647) : castInt n = n :=
  if_pos h

theorem wrapInt_of_range (n : Int) (h : -2147483648 ≤ n ∧ n ≤ 2147483647) : wrapInt n = n := by
  unfold wrapInt
  omega

/-- The value of `castInt` is its argument or `INT_MIN`. -/
theorem castInt_cases (n : Int) : castInt n = n ∨ castInt n = -2147483648 := by
  unfold castInt
  split_ifs
  · exact Or.inl rfl
  · exact Or.inr rfl

/-- With exact division, the floor quotient by 16 and the remainder of the floor
recompose to the floor of the world coordinate. -/
theorem floor_div_sixteen (w : ℚ) :
    0 ≤ Int.floor w - Int.floor (w / 16) * 16 ∧ Int.floor w - Int.floor (w / 16) * 16 < 16 := by
  have h1 : ((Int.floor (w / 16) : Int) : ℚ) ≤ w / 16 := Int.floor_le _
  have h2 : w / 16 < (Int.floor (w / 16) : ℚ) + 1 := Int.lt_floor_add_one _
  have h3 : ((Int.floor (w / 16) * 16 : Int) : ℚ) ≤ w := by
    push_cast
    have : (0 : ℚ) < 16 := by norm_num
    rw [le_div_iff₀ this] at h1
    exact h1
  have h4 : w < ((Int.floor (w / 16) * 16 + 16 : Int) : ℚ) := by
    push_cast
    have : (0 : ℚ) < 16 := by norm_num
    rw [div_lt_iff₀ this] at h2
    linarith
  have h5 : Int.floor (w / 16) * 16 ≤ Int.floor w := Int.le_floor.mpr h3
  have h6 : Int.floor w < Int.floor (w / 16) * 16 + 16 := Int.floor_lt.mpr h4
  constructor <;> omega

theorem floor_div_sixteen_eq (w : ℚ) :
    Int.floor (w / 16) = Int.floor w / 16 ∧
    Int.floor w - Int.floor (w / 16) * 16 = Int.floor w % 16 := by
  have := floor_div_sixteen w
  constructor <;> omega

/-- Chunk coordinate and local index in exact arithmetic. -/
theorem exact_chunk_local (w : ℚ) :
    chunkCoord exact w = Int.floor (w / 16) ∧
    localIndex exact w (chunkCoord exact w) = Int.floor w - Int.floor (w / 16) * 16 := by
  have hc : chunkCoord exact w = Int.floor (w / 16) := by
    unfold chunkCoord CHUNK_SIZE exact
    norm_num
  refine ⟨hc, ?_⟩
  rw [hc]
  rfl

/-- The quotient by 16 of a float of magnitude at least 1 is a float. -/
theorem f32_div_sixteen (w : ℚ) (hf : f32 w = w) (h1 : 1 ≤ |w|) : f32 (w / 16) = w / 16 := by
  obtain ⟨M, hM, hb⟩ := float_repr w hf
  obtain ⟨u1, u2, u3⟩ := ulpExp_spec w
  generalize ulpExp w = U at hM u1 u2 u3
  have hU : -24 < U := by
    by_contra hc
    have : (2 : ℚ) ^ (U + 24) ≤ (2 : ℚ) ^ (0 : Int) := two_zpow_le (by omega)
    rw [zpow_zero] at this
    linarith
  have h2ne : (2 : ℚ) ≠ 0 := by norm_num
  have e : w / 16 = (M : ℚ) * (2 : ℚ) ^ (U - 4) := by
    rw [hM, zpow_sub₀ h2ne]
    norm_num
    ring
  rw [e]
  exact f32_dyadic M (U - 4) hb (by omega)

/-- For a float in the query range the rounded quotient by 16 has the floor of the
exact quotient. -/
theorem floor_f32_div (w : ℚ) (h : InQueryRange w) :
    Int.floor (f32 (w / 16)) = Int.floor (w / 16) := by
  obtain ⟨hf, -, -, hneg⟩ := h
  rcases le_or_lt 1 |w| with h1 | h1
  · rw [f32_div_sixteen w hf h1]
  · rw [abs_lt] at h1
    rcases le_or_lt 0 w with h0 | h0
    · have ha : (0 : ℚ) ≤ f32 (w / 16) := f32_nonneg (by linarith)
      have hb : f32 (w / 16) ≤ 1 / 16 := by
        have := f32_mono (show w / 16 ≤ 1 / 16 by linarith)
        have e : f32 (1 / 16) = 1 / 16 := by decide!
        rwa [e] at this
      rw [Int.floor_eq_iff.mpr ⟨by simpa using ha, by norm_num; linarith⟩]
      symm
      rw [Int.floor_eq_iff]
      constructor <;> norm_num <;> linarith
    · obtain ⟨m, hm⟩ := float_grid w hf
      have hp : pow2 (-146) = 8 * (2 : ℚ) ^ (-149 : Int) := by
        rw [pow2_eq]
        norm_num
      have hpos : (0 : ℚ) < (2 : ℚ) ^ (-149 : Int) := two_zpow_pos _
      have hlt : w < -(pow2 (-146)) := by
        by_contra hc
        exact hneg ⟨not_lt.mp hc, h0⟩
      have hm9 : m ≤ -9 := by
        have : (m : ℚ) * (2 : ℚ) ^ (-149 : Int) < (-8) * (2 : ℚ) ^ (-149 : Int) := by
          rw [← hm, neg_mul, ← hp]
          exact hlt
        have := lt_of_mul_lt_mul_right this (le_of_lt hpos)
        have : m < -8 := by exact_mod_cast this
        omega
      have hw : w ≤ (-9) * (2 : ℚ) ^ (-149 : Int) := by
        rw [hm]
        apply mul_le_mul_of_nonneg_right _ (le_of_lt hpos)
        exact_mod_cast hm9
      have ha : f32 (w / 16) ≤ -(pow2 (-149)) := by
        have := f32_mono (show w / 16 ≤ (-9) * pow2 (-149) / 16 by
          rw [pow2_eq]
          exact div_le_div_of_nonneg_right hw (by norm_num))
        have e : f32 ((-9) * pow2 (-149) / 16) = -(pow2 (-149)) := by decide!
        rwa [e] at this
      have hb : -(1 / 16) ≤ f32 (w / 16) := by
        have := f32_mono (show -(1 / 16) ≤ w / 16 by linarith)
        have e : f32 (-(1 / 16)) = -(1 / 16) := by decide!
        rwa [e] at this
      have hp2 : (0 : ℚ) < pow2 (-149) := by
        rw [pow2_eq]
        exact hpos
      have e1 : Int.floor (f32 (w / 16)) = -1 := by
        rw [Int.floor_eq_iff]
        constructor <;> push_cast <;> linarith
      have e2 : Int.floor (w / 16) = -1 := by
        rw [Int.floor_eq_iff]
        constructor <;> push_cast <;> linarith
      rw [e1, e2]

/-- For a float in the query range, the chunk coordinate and the local index computed
by the program are those of exact arithmetic. -/
theorem machine_chunk_local (w : ℚ) (h : InQueryRange w) :
    chunkCoord machine w = Int.floor (w / 16) ∧
    localIndex machine w (chunkCoord machine w) = Int.floor w - Int.floor (w / 16) * 16 := by
  have hfl := floor_f32_div w h
  obtain ⟨-, hlo, hhi, -⟩ := h
  have hr := floor_div_sixteen w
  have hw1 : -2147483648 ≤ Int.floor w := Int.le_floor.mpr (by push_cast; linarith)
  have hw2 : Int.floor w < 2147483648 := Int.floor_lt.mpr (by push_cast; linarith)
  have hc : chunkCoord machine w = Int.floor (w / 16) := by
    unfold chunkCoord CHUNK_SIZE machine
    simp only
    have e : w / ((16 : Int) : ℚ) = w / 16 := by norm_num
    rw [e, hfl]
    exact castInt_of_range _ (by omega)
  refine ⟨hc, ?_⟩
  rw [hc]
  unfold localIndex CHUNK_SIZE machine
  simp only
  rw [castInt_of_range _ (by omega), wrapInt_of_range (Int.floor (w / 16) * 16) (by omega),
    wrapInt_of_range _ (by omega)]

/-- When chunk coordinate and local index are those of exact arithmetic, the query is
the lookup of the world cell that contains the point. -/
theorem IsBlockAt_of_coords (A : Arith) (chunks : ChunkStore) (wx wy wz : ℚ)
    (hx : chunkCoord A wx = Int.floor (wx / 16) ∧
      localIndex A wx (chunkCoord A wx) = Int.floor wx - Int.floor (wx / 16) * 16)
    (hy : chunkCoord A wy = Int.floor (wy / 16) ∧
      localIndex A wy (chunkCoord A wy) = Int.floor wy - Int.floor (wy / 16) * 16)
    (hz : chunkCoord A wz = Int.floor (wz / 16) ∧
      localIndex A wz (chunkCoord A wz) = Int.floor wz - Int.floor (wz / 16) * 16) :
    IsBlockAt A chunks wx wy wz = cellSolid chunks (Int.floor wx) (Int.floor wy) (Int.floor wz) := by
  unfold IsBlockAt cellSolid
  simp only [hx.2, hy.2, hz.2]
  simp only [hx.1, hy.1, hz.1]
  rw [(floor_div_sixteen_eq wx).1, (floor_div_sixteen_eq wy).1, (floor_div_sixteen_eq wz).1]
  cases chunks.find ⟨Int.floor wx / 16, Int.floor wy / 16, Int.floor wz / 16⟩ with
  | none => rfl
  | some chunk =>
    simp only [Chunk.solidAt, CHUNK_SIZE]
    have := floor_div_sixteen wx
    have := floor_div_sixteen wy
    have := floor_div_sixteen wz
    rw [if_pos (by omega)]
    have e : ∀ n : Int, n - n / 16 * 16 = n % 16 := by
      intro n
      omega
    rw [e, e, e]

/-- C3 (amended): for every chunk store and every world point whose coordinates are
floats in the range `[-2^31, 2^31)` of `int`, none of them a negative number of
magnitude at most `2^-146`, `IsBlockAt` returns true if and only if the store holds a
chunk at the chunk coordinate `(floor(x/16), floor(y/16), floor(z/16))` and the voxel
of that chunk at the local index `(floor(x) - cx*16, floor(y) - cy*16,
floor(z) - cz*16)` is non-zero; it returns false when the store has no chunk at that
coordinate; the test applied to a found chunk yields false for every local index
outside `0..15`; and for every input whatever, `IsBlockAt` is the lookup of the
computed chunk coordinate followed by that test at the computed local index, so that
it returns a value for every input. -/
theorem IsBlockAt_iff (chunks : ChunkStore) (wx wy wz : ℚ)
    (hx : InQueryRange wx) (hy : InQueryRange wy) (hz : InQueryRange wz) :
    (IsBlockAt machine chunks wx wy wz = true ↔
      ∃ chunk : Chunk,
        chunks.find ⟨Int.floor (wx / 16), Int.floor (wy / 16), Int.floor (wz / 16)⟩ = some chunk ∧
        ((⟨Int.floor (wx / 16), Int.floor (wy / 16), Int.floor (wz / 16)⟩ : ChunkPos), chunk)
          ∈ chunks ∧
        chunk.voxels (Int.floor wx - Int.floor (wx / 16) * 16)
          (Int.floor wy - Int.floor (wy / 16) * 16)
          (Int.floor wz - Int.floor (wz / 16) * 16) ≠ 0) ∧
    ((∀ chunk : Chunk,
        ((⟨Int.floor (wx / 16), Int.floor (wy / 16), Int.floor (wz / 16)⟩ : ChunkPos), chunk)
          ∉ chunks) →
      IsBlockAt machine chunks wx wy wz = false) ∧
    (IsBlockAt machine chunks wx wy wz =
      match chunks.find ⟨Int.floor (wx / 16), Int.floor (wy / 16), Int.floor (wz / 16)⟩ with
      | some chunk => chunk.solidAt (Int.floor wx - Int.floor (wx / 16) * 16)
          (Int.floor wy - Int.floor (wy / 16) * 16) (Int.floor wz - Int.floor (wz / 16) * 16)
      | none => false) ∧
    (∀ (chunk : Chunk) (lx ly lz : Int),
      ¬ ((0 ≤ lx ∧ lx < 16) ∧ (0 ≤ ly ∧ ly < 16) ∧ (0 ≤ lz ∧ lz < 16)) →
      chunk.solidAt lx ly lz = false) ∧
    (∀ ux uy uz : ℚ, IsBlockAt machine chunks ux uy uz =
      match chunks.find ⟨chunkCoord machine ux, chunkCoord machine uy, chunkCoord machine uz⟩ with
      | some chunk => chunk.solidAt (localIndex machine ux (chunkCoord machine ux))
          (localIndex machine uy (chunkCoord machine uy))
          (localIndex machine uz (chunkCoord machine uz))
      | none => false) := by
  obtain ⟨cx, lx⟩ := machine_chunk_local wx hx
  obtain ⟨cy, ly⟩ := machine_chunk_local wy hy
  obtain ⟨cz, lz⟩ := machine_chunk_local wz hz
  have rx := floor_div_sixteen wx
  have ry := floor_div_sixteen wy
  have rz := floor_div_sixteen wz
  have hmatch : IsBlockAt machine chunks wx wy wz =
      match chunks.find ⟨Int.floor (wx / 16), Int.floor (wy / 16), Int.floor (wz / 16)⟩ with
      | some chunk => chunk.solidAt (Int.floor wx - Int.floor (wx / 16) * 16)
          (Int.floor wy - Int.floor (wy / 16) * 16) (Int.floor wz - Int.floor (wz / 16) * 16)
      | none => false := by
    unfold IsBlockAt
    simp only [lx, ly, lz]
    simp only [cx, cy, cz]
  refine ⟨?_, ?_, hmatch, ?_, fun _ _ _ => rfl⟩
  · rw [hmatch]
    cases hf : chunks.find ⟨Int.floor (wx / 16), Int.floor (wy / 16), Int.floor (wz / 16)⟩ with
    | none => simp
    | some chunk =>
      simp only [Chunk.solidAt, CHUNK_SIZE, rx, ry, rz, and_self, if_true, Option.some.injEq]
      constructor
      · intro hv
        exact ⟨chunk, rfl, ChunkStore.find_some_mem chunks _ chunk hf, by simpa using hv⟩
      · rintro ⟨c2, rfl, -, hv⟩
        simpa using hv
  · intro hno
    have hnone := (ChunkStore.find_none_iff chunks _).2 hno
    rw [hmatch, hnone]
  · intro chunk lx ly lz hout
    unfold Chunk.solidAt CHUNK_SIZE
    rw [if_neg hout]

/-- Witness for C3: in the empty store the query at the origin is false, and the
test of a found chunk is false at the local index `(16, 0, 0)`. -/
theorem IsBlockAt_iff_witness :
    IsBlockAt machine [] 0 0 0 = false ∧ (Chunk.mk fun _ _ _ => 1).solidAt 16 0 0 = false :=
  ⟨(IsBlockAt_iff [] 0 0 0 (by decide!) (by decide!) (by decide!)).2.1
      (fun _ h => by simp at h),
   (IsBlockAt_iff [] 0 0 0 (by decide!) (by decide!) (by decide!)).2.2.2.1
      (Chunk.mk fun _ _ _ => 1) 16 0 0 (by decide)⟩

/-- C3 counterexample: (1) the float `x = -2^-149` and a store whose chunk `(-1, 0, 0)`
has the solid voxel `(15, 0, 0)`: the chunk at `(floor(x/16), 0, 0) = (-1, 0, 0)` is
present and its voxel at the local index `(floor(x) + 16, 0, 0) = (15, 0, 0)` is not
zero, but `IsBlockAt` returns false (the float quotient `x / 16` rounds to zero, so
chunk `0` is looked up); (2) the float `x = 10^10` and a store whose chunk
`(625000000, 0, 0)` has the solid voxel `(0, 0, 0)`: again the chunk at `floor(x/16)`
is present and its voxel at the local index `floor(x) - 625000000 * 16 = 0` is not
zero, but `IsBlockAt` returns false (`(int)floor(x)` and `cx * 16` leave the range of
`int`). -/
theorem IsBlockAt_underflow_overflow :
    (machine.IsFloat (-(pow2 (-149))) ∧
      IsBlockAt machine (singleCellStore ⟨-1, 0, 0⟩ 15 0 0) (-(pow2 (-149))) 0 0 = false ∧
      ((singleCellStore ⟨-1, 0, 0⟩ 15 0 0).find
          ⟨Int.floor (-(pow2 (-149)) / 16), Int.floor ((0 : ℚ) / 16),
           Int.floor ((0 : ℚ) / 16)⟩).map
        (fun chunk => chunk.voxels
          (Int.floor (-(pow2 (-149))) - Int.floor (-(pow2 (-149)) / 16) * 16)
          (Int.floor (0 : ℚ) - Int.floor ((0 : ℚ) / 16) * 16)
          (Int.floor (0 : ℚ) - Int.floor ((0 : ℚ) / 16) * 16)) = some 1) ∧
    (machine.IsFloat 10000000000 ∧
      IsBlockAt machine (singleCellStore ⟨625000000, 0, 0⟩ 0 0 0) 10000000000 0 0 = false ∧
      ((singleCellStore ⟨625000000, 0, 0⟩ 0 0 0).find
          ⟨Int.floor ((10000000000 : ℚ) / 16), Int.floor ((0 : ℚ) / 16),
           Int.floor ((0 : ℚ) / 16)⟩).map
        (fun chunk => chunk.voxels
          (Int.floor (10000000000 : ℚ) - Int.floor ((10000000000 : ℚ) / 16) * 16)
          (Int.floor (0 : ℚ) - Int.floor ((0 : ℚ) / 16) * 16)
          (Int.floor (0 : ℚ) - Int.floor ((0 : ℚ) / 16) * 16)) = some 1) := by
  decide!

theorem intCast_inQueryRange (w : Int) (hf : f32 (w : ℚ) = w)
    (hr : -2147483648 ≤ w ∧ w ≤ 2147483647) : InQueryRange (w : ℚ) := by
  refine ⟨hf, by exact_mod_cast hr.1, ?_, ?_⟩
  · have : w < 2147483648 := by omega
    exact_mod_cast this
  · rintro ⟨h1, h2⟩
    have hw : w ≤ -1 := by
      have : w < 0 := by exact_mod_cast h2
      omega
    have hq : (w : ℚ) ≤ -1 := by exact_mod_cast hw
    have hp : pow2 (-146) < 1 := by decide!
    linarith

/-- Every integer of magnitude at most `2^24` is a float. -/
theorem f32_intCast_le (v : Int) (hv : |v| ≤ 16777216) : f32 (v : ℚ) = v := by
  rcases lt_or_eq_of_le hv with h | h
  · exact f32_intCast v (by simpa using h)
  · rcases abs_eq (by norm_num : (0 : Int) ≤ 16777216) |>.1 h with h | h
    · subst h
      decide!
    · subst h
      decide!

/-- C4 (amended): for every integer world coordinate `w` (negative ones included)
that is a float and lies in the range of `int`, the chunk coordinate
`c = floor(w / 16)` and the local index `l = floor(w) - c*16` computed by `IsBlockAt`
satisfy `0 ≤ l < 16` and `c*16 + l = w`; every integer of magnitude at most `2^24` is
such a float; in particular `w = -1` gives `c = -1` and `l = 15`. -/
theorem chunk_local_roundtrip (w : Int) (hf : machine.IsFloat (w : ℚ))
    (hr : -2147483648 ≤ w ∧ w ≤ 2147483647) :
    chunkCoord machine (w : ℚ) = Int.floor ((w : ℚ) / 16) ∧
    localIndex machine (w : ℚ) (chunkCoord machine w) =
      Int.floor (w : ℚ) - chunkCoord machine w * 16 ∧
    0 ≤ localIndex machine (w : ℚ) (chunkCoord machine w) ∧
    localIndex machine (w : ℚ) (chunkCoord machine w) < 16 ∧
    chunkCoord machine (w : ℚ) * 16 + localIndex machine (w : ℚ) (chunkCoord machine w) = w ∧
    (∀ v : Int, |v| ≤ 16777216 → machine.IsFloat (v : ℚ)) ∧
    chunkCoord machine ((-1 : Int) : ℚ) = -1 ∧
    localIndex machine ((-1 : Int) : ℚ) (chunkCoord machine ((-1 : Int) : ℚ)) = 15 := by
  obtain ⟨hc, hl⟩ := machine_chunk_local (w : ℚ) (intCast_inQueryRange w hf hr)
  have hrange := floor_div_sixteen (w : ℚ)
  rw [Int.floor_intCast] at hrange hl
  refine ⟨hc, ?_, ?_, ?_, ?_, fun v hv => f32_intCast_le v hv, by decide!, by decide!⟩
  · rw [hl, hc, Int.floor_intCast]
  · rw [hl]
    exact hrange.1
  · rw [hl]
    exact hrange.2
  · rw [hl, hc]
    ring

/-- Witness for C4: the world coordinate `-17` lies in chunk `-2` at local index
`15`. -/
theorem chunk_local_roundtrip_witness :
    chunkCoord machine ((-17 : Int) : ℚ) * 16 +
      localIndex machine ((-17 : Int) : ℚ) (chunkCoord machine ((-17 : Int) : ℚ)) = -17 :=
  (chunk_local_roundtrip (-17) (by decide!) (by decide)).2.2.2.2.1

/-- C4 counterexample: (1) the integer `w = 2^24 + 1` is not a float: the conversion
`(float)w` gives `2^24`, and chunk coordinate and local index recompose to `2^24`,
not to `w`; (2) the integer `w = 10^10` is a float, but the local index computed for
it is not in `0..15` (`(int)floor(w)` and `c * 16` leave the range of `int`). -/
theorem chunk_local_roundtrip_fails :
    (machine.rnd ((16777217 : Int) : ℚ) = 16777216 ∧
      chunkCoord machine (machine.rnd ((16777217 : Int) : ℚ)) * 16 +
        localIndex machine (machine.rnd ((16777217 : Int) : ℚ))
          (chunkCoord machine (machine.rnd ((16777217 : Int) : ℚ))) = 16777216) ∧
    (machine.IsFloat ((10000000000 : Int) : ℚ) ∧
      ¬ (0 ≤ localIndex machine ((10000000000 : Int) : ℚ)
            (chunkCoord machine ((10000000000 : Int) : ℚ)) ∧
          localIndex machine ((10000000000 : Int) : ℚ)
            (chunkCoord machine ((10000000000 : Int) : ℚ)) < 16)) := by
  decide!

/-! ### Queries at the centres of integer cells -/

theorem floor_cell_centre (x : Int) : Int.floor ((x : ℚ) + 1 / 2) = x := by
  rw [Int.floor_eq_iff]
  constructor <;> linarith

theorem cellCentre_exact (x : Int) : cellCentre exact x = (x : ℚ) + 1 / 2 := rfl

/-- For a cell coordinate of magnitude below `2^23` the float `(float)x + 0.5f` is
exactly `x + 1/2`. -/
theorem cellCentre_machine (x : Int) (hx : -8388608 ≤ x ∧ x < 8388608) :
    cellCentre machine x = (x : ℚ) + 1 / 2 := by
  unfold cellCentre machine
  simp only
  rw [f32_intCast x (by rw [abs_lt]; constructor <;> omega)]
  have e : (x : ℚ) + 1 / 2 = ((2 * x + 1 : Int) : ℚ) / 2 := by
    push_cast
    ring
  rw [e]
  exact f32_half _ (by rw [abs_lt]; constructor <;> omega)

theorem centre_inQueryRange (x : Int) (hx : -8388608 ≤ x ∧ x < 8388608) :
    InQueryRange ((x : ℚ) + 1 / 2) := by
  have hf : f32 ((x : ℚ) + 1 / 2) = (x : ℚ) + 1 / 2 := by
    have e : (x : ℚ) + 1 / 2 = ((2 * x + 1 : Int) : ℚ) / 2 := by
      push_cast
      ring
    rw [e]
    exact f32_half _ (by rw [abs_lt]; constructor <;> omega)
  have h1 : (-8388608 : ℚ) ≤ x := by exact_mod_cast hx.1
  have h2 : (x : ℚ) < 8388608 := by exact_mod_cast hx.2
  refine ⟨hf, by linarith, by linarith, ?_⟩
  rintro ⟨h3, h4⟩
  have hx0 : x < 0 := by
    by_contra hc
    have : (0 : ℚ) ≤ x := by exact_mod_cast not_lt.mp hc
    linarith
  have : (x : ℚ) ≤ -1 := by exact_mod_cast (show x ≤ -1 by omega)
  have hp : pow2 (-146) < 1 / 2 := by decide!
  linarith

/-- The query of `IsBlockAt` at the centre of the integer cell `(x, y, z)`, in exact
arithmetic. -/
theorem IsBlockAt_cell_exact (chunks : ChunkStore) (x y z : Int) :
    IsBlockAt exact chunks (cellCentre exact x) (cellCentre exact y) (cellCentre exact z) =
      cellSolid chunks x y z := by
  rw [IsBlockAt_of_coords exact chunks _ _ _ (exact_chunk_local _) (exact_chunk_local _)
    (exact_chunk_local _)]
  simp only [cellCentre_exact, floor_cell_centre]

/-- The query of `IsBlockAt` made by the program for the integer cell `(x, y, z)`,
all coordinates of magnitude below `2^23`. -/
theorem IsBlockAt_cell_machine (chunks : ChunkStore) (x y z : Int)
    (hx : -8388608 ≤ x ∧ x < 8388608) (hy : -8388608 ≤ y ∧ y < 8388608)
    (hz : -8388608 ≤ z ∧ z < 8388608) :
    IsBlockAt machine chunks (cellCentre machine x) (cellCentre machine y)
      (cellCentre machine z) = cellSolid chunks x y z := by
  rw [cellCentre_machine x hx, cellCentre_machine y hy, cellCentre_machine z hz]
  rw [IsBlockAt_of_coords machine chunks _ _ _
    (machine_chunk_local _ (centre_inQueryRange x hx))
    (machine_chunk_local _ (centre_inQueryRange y hy))
    (machine_chunk_local _ (centre_inQueryRange z hz))]
  simp only [floor_cell_centre]

theorem find_singleCellStore_self (k : ChunkPos) (a b c : Int) :
    (singleCellStore k a b c).find k =
      some ⟨fun lx ly lz => if lx = a ∧ ly = b ∧ lz = c then 1 else 0⟩ := by
  unfold ChunkStore.find singleCellStore
  rw [List.find?_cons_of_pos]
  · rfl
  · exact (ChunkPos.equiv_iff_eq _ _).2 rfl

theorem find_singleCellStore_ne (k key : ChunkPos) (a b c : Int) (h : key ≠ k) :
    (singleCellStore k a b c).find key = none := by
  rw [ChunkStore.find_none_iff]
  intro chunk hm
  unfold singleCellStore at hm
  simp only [List.mem_singleton, Prod.mk.injEq] at hm
  exact h hm.1

/-- The solid cells of a store with a single solid voxel. -/
theorem cellSolid_singleCellStore (k : ChunkPos) (a b c : Int)
    (ha : 0 ≤ a ∧ a < 16) (hb : 0 ≤ b ∧ b < 16) (hc : 0 ≤ c ∧ c < 16) (x y z : Int) :
    cellSolid (singleCellStore k a b c) x y z = true ↔
      x = k.x * 16 + a ∧ y = k.y * 16 + b ∧ z = k.z * 16 + c := by
  unfold cellSolid
  by_cases hk : (⟨x / 16, y / 16, z / 16⟩ : ChunkPos) = k
  · rw [hk, find_singleCellStore_self]
    subst hk
    simp only [bne_iff_ne, ne_eq, ite_eq_right_iff, one_ne_zero, imp_false, not_not]
    constructor
    · rintro ⟨h1, h2, h3⟩
      refine ⟨?_, ?_, ?_⟩ <;> omega
    · rintro ⟨h1, h2, h3⟩
      refine ⟨?_, ?_, ?_⟩ <;> omega
  · rw [find_singleCellStore_ne k _ a b c hk]
    simp only [Bool.false_eq_true, false_iff]
    rintro ⟨h1, h2, h3⟩
    apply hk
    obtain ⟨kx, ky, kz⟩ := k
    simp only [ChunkPos.mk.injEq]
    simp only at h1 h2 h3
    refine ⟨?_, ?_, ?_⟩ <;> omega

/-- For a cell coordinate of magnitude `2^23` or more, the chunk coordinate computed
by the program for `(float)x + 0.5f` has magnitude at least `2^19`. -/
theorem chunkCoord_far (x : Int) (hx : ¬ (-8388608 ≤ x ∧ x < 8388608)) :
    524288 ≤ chunkCoord machine (cellCentre machine x) ∨
      chunkCoord machine (cellCentre machine x) ≤ -524288 := by
  have hcc : ∀ w : ℚ, chunkCoord machine w = castInt (Int.floor (f32 (w / 16))) := by
    intro w
    unfold chunkCoord CHUNK_SIZE machine
    norm_num
  have hce : cellCentre machine x = f32 (f32 (x : ℚ) + 1 / 2) := rfl
  rw [hcc, hce]
  by_cases hpos : 8388608 ≤ x
  · have h1 : (8388608 : ℚ) ≤ x := by exact_mod_cast hpos
    have h2 : (8388608 : ℚ) ≤ f32 (x : ℚ) := by
      have := f32_mono h1
      have e : f32 8388608 = 8388608 := by decide!
      rwa [e] at this
    have h3 : (8388608 : ℚ) ≤ f32 (f32 (x : ℚ) + 1 / 2) := by
      have := f32_mono (show (8388608 : ℚ) ≤ f32 (x : ℚ) + 1 / 2 by linarith)
      have e : f32 8388608 = 8388608 := by decide!
      rwa [e] at this
    have h4 : (524288 : ℚ) ≤ f32 (f32 (f32 (x : ℚ) + 1 / 2) / 16) := by
      have := f32_mono (show (524288 : ℚ) ≤ f32 (f32 (x : ℚ) + 1 / 2) / 16 by linarith)
      have e : f32 524288 = 524288 := by decide!
      rwa [e] at this
    have h5 : (524288 : Int) ≤ Int.floor (f32 (f32 (f32 (x : ℚ) + 1 / 2) / 16)) :=
      Int.le_floor.mpr (by exact_mod_cast h4)
    rcases castInt_cases (Int.floor (f32 (f32 (f32 (x : ℚ) + 1 / 2) / 16))) with h | h
    · left
      rw [h]
      exact h5
    · right
      rw [h]
      norm_num
  · right
    have hx2 : x ≤ -8388609 := by omega
    have h1 : (x : ℚ) ≤ -8388609 := by exact_mod_cast hx2
    have h2 : f32 (x : ℚ) ≤ -8388609 := by
      have := f32_mono h1
      have e : f32 (-8388609) = -8388609 := by decide!
      rwa [e] at this
    have h3 : f32 (f32 (x : ℚ) + 1 / 2) ≤ -8388608 := by
      have := f32_mono (show f32 (x : ℚ) + 1 / 2 ≤ -8388609 + 1 / 2 by linarith)
      have e : f32 (-8388609 + 1 / 2) = -8388608 := by decide!
      rwa [e] at this
    have h4 : f32 (f32 (f32 (x : ℚ) + 1 / 2) / 16) ≤ -524288 := by
      have := f32_mono (show f32 (f32 (x : ℚ) + 1 / 2) / 16 ≤ -524288 by linarith)
      have e : f32 (-524288) = -524288 := by decide!
      rwa [e] at this
    have h5 : Int.floor (f32 (f32 (f32 (x : ℚ) + 1 / 2) / 16)) ≤ -524288 := by
      have : Int.floor (f32 (f32 (f32 (x : ℚ) + 1 / 2) / 16)) < -524288 + 1 :=
        Int.floor_lt.mpr (by push_cast; linarith)
      omega
    rcases castInt_cases (Int.floor (f32 (f32 (f32 (x : ℚ) + 1 / 2) / 16))) with h | h
    · rw [h]
      exact h5
    · rw [h]
      norm_num

/-- The queries that the program makes for integer cells, over a store with a single
solid voxel in a chunk whose coordinates have magnitude below `2^19`: the query is
true for the cell of that voxel only. -/
theorem IsBlockAt_machine_singleCellStore (k : ChunkPos) (a b c : Int)
    (ha : 0 ≤ a ∧ a < 16) (hb : 0 ≤ b ∧ b < 16) (hc : 0 ≤ c ∧ c < 16)
    (hk : (-524288 < k.x ∧ k.x < 524288) ∧ (-524288 < k.y ∧ k.y < 524288) ∧
      (-524288 < k.z ∧ k.z < 524288)) (x y z : Int) :
    IsBlockAt machine (singleCellStore k a b c) (cellCentre machine x) (cellCentre machine y)
      (cellCentre machine z) = true ↔
    x = k.x * 16 + a ∧ y = k.y * 16 + b ∧ z = k.z * 16 + c := by
  by_cases hin : (-8388608 ≤ x ∧ x < 8388608) ∧ (-8388608 ≤ y ∧ y < 8388608) ∧
      (-8388608 ≤ z ∧ z < 8388608)
  · rw [IsBlockAt_cell_machine _ x y z hin.1 hin.2.1 hin.2.2]
    exact cellSolid_singleCellStore k a b c ha hb hc x y z
  · have hne : (⟨chunkCoord machine (cellCentre machine x),
        chunkCoord machine (cellCentre machine y),
        chunkCoord machine (cellCentre machine z)⟩ : ChunkPos) ≠ k := by
      intro he
      have hx := congrArg ChunkPos.x he
      have hy := congrArg ChunkPos.y he
      have hz := congrArg ChunkPos.z he
      simp only at hx hy hz
      by_cases h1 : -8388608 ≤ x ∧ x < 8388608
      · by_cases h2 : -8388608 ≤ y ∧ y < 8388608
        · have h3 : ¬ (-8388608 ≤ z ∧ z < 8388608) := fun h3 => hin ⟨h1, h2, h3⟩
          have := chunkCoord_far z h3
          omega
        · have := chunkCoord_far y h2
          omega
      · have := chunkCoord_far x h1
        omega
    have hfalse : IsBlockAt machine (singleCellStore k a b c) (cellCentre machine x)
        (cellCentre machine y) (cellCentre machine z) = false := by
      unfold IsBlockAt
      simp only [find_singleCellStore_ne k _ a b c hne]
    rw [hfalse]
    simp only [Bool.false_eq_true, false_iff]
    rintro ⟨h1, h2, h3⟩
    apply hin
    refine ⟨⟨?_, ?_⟩, ⟨?_, ?_⟩, ⟨?_, ?_⟩⟩ <;> omega

/-- The only solid cell seen by the program in `floorStore` is the world cell
`(0, -1, 0)`. -/
theorem floorStore_solid (x y z : Int) :
    IsBlockAt machine floorStore (cellCentre machine x) (cellCentre machine y)
      (cellCentre machine z) = true ↔ (x = 0 ∧ y = -1 ∧ z = 0) := by
  unfold floorStore
  rw [IsBlockAt_machine_singleCellStore _ _ _ _ (by decide) (by decide) (by decide) (by decide)]
  simp

/-- The only solid cell seen by the program in `cornerStore` is the world cell
`(1, 1, 0)`. -/
theorem cornerStore_solid (x y z : Int) :
    IsBlockAt machine cornerStore (cellCentre machine x) (cellCentre machine y)
      (cellCentre machine z) = true ↔ (x = 1 ∧ y = 1 ∧ z = 0) := by
  unfold cornerStore
  rw [IsBlockAt_machine_singleCellStore _ _ _ _ (by decide) (by decide) (by decide) (by decide)]
  simp

/-! ### The per-axis clamp -/

theorem Vector3.get_set_self (v : Vector3) (i : Nat) (q : ℚ) : (v.set i q).get i = q := by
  rcases i with _ | _ | i <;> rfl

theorem Vector3.get_set_ne (v : Vector3) (i j : Nat) (q : ℚ) (hi : i < 3) (hj : j < 3)
    (hne : i ≠ j) : (v.set i q).get j = v.get j := by
  interval_cases i <;> interval_cases j <;> first | rfl | exact absurd rfl hne

theorem Vector3.set_set (v : Vector3) (i : Nat) (q r : ℚ) : (v.set i q).set i r = v.set i r := by
  rcases i with _ | _ | i <;> rfl

theorem Vector3.set_get (v : Vector3) (i : Nat) : v.set i (v.get i) = v := by
  rcases i with _ | _ | i <;> rfl

/-- The loop body changes the movement vector on the component `axis` only, and the
new value depends on the old value of that component only. -/
theorem clampStep_eq_set (A : Arith) (cur : AABB) (axis : Nat) (m : Vector3) (col : AABB) :
    clampStep A cur axis m col = m.set axis (clampScalar A cur axis (m.get axis) col) := by
  unfold clampScalar clampStep
  simp only [Vector3.get_set_self]
  split_ifs <;> simp only [Vector3.get_set_self, Vector3.set_set, Vector3.set_get]

theorem resolveAxis_eq_set (A : Arith) (cur : AABB) (axis : Nat) (l : List AABB) :
    ∀ m : Vector3, resolveAxis A cur l m axis =
      m.set axis (l.foldl (clampScalar A cur axis) (m.get axis)) := by
  unfold resolveAxis
  induction l with
  | nil => intro m; simp [Vector3.set_get]
  | cons col l ih =>
    intro m
    rw [List.foldl_cons, ih, clampStep_eq_set, Vector3.get_set_self, Vector3.set_set,
      List.foldl_cons]

/-- Each component of the resolved movement is the fold of the scalar clamp of its
own axis over the candidates, started from the intended displacement on that axis. -/
theorem resolveMovement_get (A : Arith) (cur : AABB) (l : List AABB) (m : Vector3) (i : Nat)
    (hi : i < 3) :
    (resolveMovement A cur l m).get i = l.foldl (clampScalar A cur i) (m.get i) := by
  unfold resolveMovement
  simp only [List.foldl_cons, List.foldl_nil, resolveAxis_eq_set]
  interval_cases i
  · rw [Vector3.get_set_ne _ 2 0 _ (by decide) (by decide) (by decide), Vector3.get_set_self,
      Vector3.get_set_ne _ 1 0 _ (by decide) (by decide) (by decide)]
  · rw [Vector3.get_set_ne _ 2 1 _ (by decide) (by decide) (by decide),
      Vector3.get_set_ne _ 0 1 _ (by decide) (by decide) (by decide), Vector3.get_set_self]
  · rw [Vector3.get_set_self, Vector3.get_set_ne _ 0 2 _ (by decide) (by decide) (by decide),
      Vector3.get_set_ne _ 1 2 _ (by decide) (by decide) (by decide)]

/-- The scalar clamp written out. -/
theorem clampScalar_eq (A : Arith) (cur : AABB) (axis : Nat) (d : ℚ) (col : AABB) :
    clampScalar A cur axis d col =
      if overlapsOtherAxes cur col axis then
        if d > 0 ∧ col.min.get axis ≥ cur.max.get axis then
          if A.rnd (col.min.get axis - cur.max.get axis) < d then
            A.rnd (col.min.get axis - cur.max.get axis)
          else d
        else if d < 0 ∧ col.max.get axis ≤ cur.min.get axis then
          if A.rnd (col.max.get axis - cur.min.get axis) > d then
            A.rnd (col.max.get axis - cur.min.get axis)
          else d
        else d
      else d := by
  unfold clampScalar clampStep overlapsOtherAxes
  simp only [Vector3.get_set_self]
  split_ifs <;> simp only [Vector3.get_set_self]

theorem mem_aheadGaps (A : Arith) (cur : AABB) (axis : Nat) (l : List AABB) (g : ℚ) :
    g ∈ aheadGaps A cur axis l ↔
      ∃ col ∈ l, (overlapsOtherAxes cur col axis ∧ col.min.get axis ≥ cur.max.get axis) ∧
        A.rnd (col.min.get axis - cur.max.get axis) = g := by
  simp only [aheadGaps, List.mem_map, List.mem_filter, decide_eq_true_eq, and_assoc]

theorem mem_behindGaps (A : Arith) (cur : AABB) (axis : Nat) (l : List AABB) (g : ℚ) :
    g ∈ behindGaps A cur axis l ↔
      ∃ col ∈ l, (overlapsOtherAxes cur col axis ∧ col.max.get axis ≤ cur.min.get axis) ∧
        A.rnd (col.max.get axis - cur.min.get axis) = g := by
  simp only [behindGaps, List.mem_map, List.mem_filter, decide_eq_true_eq, and_assoc]

/-- One candidate, displacement not negative: the clamp stays in `[0, d]`, is at
most the gap of an eligible candidate, and is `d` or that gap. -/
theorem clampScalar_nonneg (A : Arith) (hA : A.KeepsSign) (cur : AABB) (axis : Nat) (d : ℚ)
    (col : AABB) (hd : 0 ≤ d) :
    0 ≤ clampScalar A cur axis d col ∧ clampScalar A cur axis d col ≤ d ∧
    ((overlapsOtherAxes cur col axis ∧ col.min.get axis ≥ cur.max.get axis) →
      clampScalar A cur axis d col ≤ A.rnd (col.min.get axis - cur.max.get axis)) ∧
    (clampScalar A cur axis d col = d ∨
      ((overlapsOtherAxes cur col axis ∧ col.min.get axis ≥ cur.max.get axis) ∧
        clampScalar A cur axis d col = A.rnd (col.min.get axis - cur.max.get axis))) := by
  rw [clampScalar_eq]
  split_ifs with h1 h2 h3 h4 h5
  · exact ⟨hA.1 _ (by linarith [h2.2]), by linarith, fun _ => le_refl _,
      Or.inr ⟨⟨h1, h2.2⟩, rfl⟩⟩
  · exact ⟨hd, le_refl _, fun _ => by linarith, Or.inl rfl⟩
  · exact absurd h4.1 (by linarith)
  · exact absurd h4.1 (by linarith)
  · refine ⟨hd, le_refl _, fun h => ?_, Or.inl rfl⟩
    have hd0 : d = 0 := by
      by_contra hne
      exact h2 ⟨lt_of_le_of_ne hd (Ne.symm hne), h.2⟩
    rw [hd0]
    exact hA.1 _ (by linarith [h.2])
  · exact ⟨hd, le_refl _, fun h => absurd h.1 h1, Or.inl rfl⟩

/-- One candidate, displacement not positive: the mirror image of
`clampScalar_nonneg`. -/
theorem clampScalar_nonpos (A : Arith) (hA : A.KeepsSign) (cur : AABB) (axis : Nat) (d : ℚ)
    (col : AABB) (hd : d ≤ 0) :
    clampScalar A cur axis d col ≤ 0 ∧ d ≤ clampScalar A cur axis d col ∧
    ((overlapsOtherAxes cur col axis ∧ col.max.get axis ≤ cur.min.get axis) →
      A.rnd (col.max.get axis - cur.min.get axis) ≤ clampScalar A cur axis d col) ∧
    (clampScalar A cur axis d col = d ∨
      ((overlapsOtherAxes cur col axis ∧ col.max.get axis ≤ cur.min.get axis) ∧
        clampScalar A cur axis d col = A.rnd (col.max.get axis - cur.min.get axis))) := by
  rw [clampScalar_eq]
  split_ifs with h1 h2 h3 h4 h5
  · exact absurd h2.1 (by linarith)
  · exact absurd h2.1 (by linarith)
  · exact ⟨hA.2 _ (by linarith [h4.2]), by linarith, fun _ => le_refl _,
      Or.inr ⟨⟨h1, h4.2⟩, rfl⟩⟩
  · exact ⟨hd, le_refl _, fun _ => by linarith, Or.inl rfl⟩
  · refine ⟨hd, le_refl _, fun h => ?_, Or.inl rfl⟩
    have hd0 : d = 0 := by
      by_contra hne
      exact h4 ⟨lt_of_le_of_ne hd hne, h.2⟩
    rw [hd0]
    exact hA.2 _ (by linarith [h.2])
  · exact ⟨hd, le_refl _, fun h => absurd h.1 h1, Or.inl rfl⟩

/-- All candidates, displacement not negative: the result is the minimum of `d` and
of the gaps ahead. -/
theorem foldl_clampScalar_nonneg (A : Arith) (hA : A.KeepsSign) (cur : AABB) (axis : Nat)
    (l : List AABB) :
    ∀ d : ℚ, 0 ≤ d →
      0 ≤ l.foldl (clampScalar A cur axis) d ∧ l.foldl (clampScalar A cur axis) d ≤ d ∧
      (∀ g ∈ aheadGaps A cur axis l, l.foldl (clampScalar A cur axis) d ≤ g) ∧
      (l.foldl (clampScalar A cur axis) d = d ∨
        l.foldl (clampScalar A cur axis) d ∈ aheadGaps A cur axis l) := by
  induction l with
  | nil => intro d hd; simp [aheadGaps, hd]
  | cons col l ih =>
    intro d hd
    obtain ⟨s1, s2, s3, s4⟩ := clampScalar_nonneg A hA cur axis d col hd
    obtain ⟨r1, r2, r3, r4⟩ := ih (clampScalar A cur axis d col) s1
    rw [List.foldl_cons]
    refine ⟨r1, le_trans r2 s2, ?_, ?_⟩
    · intro g hg
      rw [mem_aheadGaps] at hg
      obtain ⟨c, hc, he, rfl⟩ := hg
      rcases List.mem_cons.1 hc with rfl | hc
      · exact le_trans r2 (s3 he)
      · exact r3 _ ((mem_aheadGaps A cur axis l _).2 ⟨c, hc, he, rfl⟩)
    · rcases r4 with r4 | r4
      · rcases s4 with s4 | ⟨he, s4⟩
        · exact Or.inl (by rw [r4, s4])
        · exact Or.inr ((mem_aheadGaps A cur axis _ _).2
            ⟨col, List.mem_cons_self _ _, he, by rw [r4, s4]⟩)
      · rw [mem_aheadGaps] at r4
        obtain ⟨c, hc, he, hg⟩ := r4
        exact Or.inr ((mem_aheadGaps A cur axis _ _).2 ⟨c, List.mem_cons_of_mem _ hc, he, hg⟩)

/-- All candidates, displacement not positive: the result is the maximum of `d` and
of the gaps behind. -/
theorem foldl_clampScalar_nonpos (A : Arith) (hA : A.KeepsSign) (cur : AABB) (axis : Nat)
    (l : List AABB) :
    ∀ d : ℚ, d ≤ 0 →
      l.foldl (clampScalar A cur axis) d ≤ 0 ∧ d ≤ l.foldl (clampScalar A cur axis) d ∧
      (∀ g ∈ behindGaps A cur axis l, g ≤ l.foldl (clampScalar A cur axis) d) ∧
      (l.foldl (clampScalar A cur axis) d = d ∨
        l.foldl (clampScalar A cur axis) d ∈ behindGaps A cur axis l) := by
  induction l with
  | nil => intro d hd; simp [behindGaps, hd]
  | cons col l ih =>
    intro d hd
    obtain ⟨s1, s2, s3, s4⟩ := clampScalar_nonpos A hA cur axis d col hd
    obtain ⟨r1, r2, r3, r4⟩ := ih (clampScalar A cur axis d col) s1
    rw [List.foldl_cons]
    refine ⟨r1, le_trans s2 r2, ?_, ?_⟩
    · intro g hg
      rw [mem_behindGaps] at hg
      obtain ⟨c, hc, he, rfl⟩ := hg
      rcases List.mem_cons.1 hc with rfl | hc
      · exact le_trans (s3 he) r2
      · exact r3 _ ((mem_behindGaps A cur axis l _).2 ⟨c, hc, he, rfl⟩)
    · rcases r4 with r4 | r4
      · rcases s4 with s4 | ⟨he, s4⟩
        · exact Or.inl (by rw [r4, s4])
        · exact Or.inr ((mem_behindGaps A cur axis _ _).2
            ⟨col, List.mem_cons_self _ _, he, by rw [r4, s4]⟩)
      · rw [mem_behindGaps] at r4
        obtain ⟨c, hc, he, hg⟩ := r4
        exact Or.inr ((mem_behindGaps A cur axis _ _).2 ⟨c, List.mem_cons_of_mem _ hc, he, hg⟩)

theorem Vector3.ext_get (v w : Vector3) (h0 : v.get 0 = w.get 0) (h1 : v.get 1 = w.get 1)
    (h2 : v.get 2 = w.get 2) : v = w := by
  cases v
  cases w
  simp only [Vector3.get] at h0 h1 h2
  simp [h0, h1, h2]

/-- The scalar fold does not depend on the order of the candidates. -/
theorem foldl_clampScalar_perm (A : Arith) (hA : A.KeepsSign) (cur : AABB) (axis : Nat)
    (l l' : List AABB) (hp : l.Perm l') (d : ℚ) :
    l.foldl (clampScalar A cur axis) d = l'.foldl (clampScalar A cur axis) d := by
  have hmemA : ∀ g, g ∈ aheadGaps A cur axis l ↔ g ∈ aheadGaps A cur axis l' := by
    intro g
    simp only [mem_aheadGaps, hp.mem_iff]
  have hmemB : ∀ g, g ∈ behindGaps A cur axis l ↔ g ∈ behindGaps A cur axis l' := by
    intro g
    simp only [mem_behindGaps, hp.mem_iff]
  rcases le_total 0 d with hd | hd
  · obtain ⟨-, a2, a3, a4⟩ := foldl_clampScalar_nonneg A hA cur axis l d hd
    obtain ⟨-, b2, b3, b4⟩ := foldl_clampScalar_nonneg A hA cur axis l' d hd
    apply le_antisymm
    · rcases b4 with b4 | b4
      · rw [b4]; exact a2
      · exact a3 _ ((hmemA _).2 b4)
    · rcases a4 with a4 | a4
      · rw [a4]; exact b2
      · exact b3 _ ((hmemA _).1 a4)
  · obtain ⟨-, a2, a3, a4⟩ := foldl_clampScalar_nonpos A hA cur axis l d hd
    obtain ⟨-, b2, b3, b4⟩ := foldl_clampScalar_nonpos A hA cur axis l' d hd
    apply le_antisymm
    · rcases a4 with a4 | a4
      · rw [a4]; exact b2
      · exact b3 _ ((hmemB _).1 a4)
    · rcases b4 with b4 | b4
      · rw [b4]; exact a2
      · exact a3 _ ((hmemB _).2 b4)

theorem resolveMovement_perm (A : Arith) (hA : A.KeepsSign) (cur : AABB) (l l' : List AABB)
    (hp : l.Perm l') (m : Vector3) :
    resolveMovement A cur l m = resolveMovement A cur l' m := by
  apply Vector3.ext_get
  · rw [resolveMovement_get _ _ _ _ 0 (by decide), resolveMovement_get _ _ _ _ 0 (by decide),
      foldl_clampScalar_perm A hA cur 0 l l' hp]
  · rw [resolveMovement_get _ _ _ _ 1 (by decide), resolveMovement_get _ _ _ _ 1 (by decide),
      foldl_clampScalar_perm A hA cur 1 l l' hp]
  · rw [resolveMovement_get _ _ _ _ 2 (by decide), resolveMovement_get _ _ _ _ 2 (by decide),
      foldl_clampScalar_perm A hA cur 2 l l' hp]

theorem Vector3Add_get (A : Arith) (v w : Vector3) (i : Nat) :
    (Vector3Add A v w).get i = A.rnd (v.get i + w.get i) := by
  rcases i with _ | _ | i <;> rfl

theorem Vector3Scale_get (A : Arith) (v : Vector3) (s : ℚ) (i : Nat) :
    (Vector3Scale A v s).get i = A.rnd (v.get i * s) := by
  rcases i with _ | _ | i <;> rfl

theorem clampScalar_zero (A : Arith) (cur : AABB) (axis : Nat) (col : AABB) :
    clampScalar A cur axis 0 col = 0 := by
  rw [clampScalar_eq]
  simp

/-- An axis with zero intended displacement keeps a zero displacement. -/
theorem resolveMovement_get_of_zero (A : Arith) (cur : AABB) (l : List AABB) (m : Vector3)
    (i : Nat) (hi : i < 3) (h0 : m.get i = 0) : (resolveMovement A cur l m).get i = 0 := by
  rw [resolveMovement_get A cur l m i hi, h0]
  induction l with
  | nil => rfl
  | cons col l ih => rw [List.foldl_cons, clampScalar_zero, ih]

/-! ### The resolver: displacement, position, velocity and grounded flag -/

/-- The candidates enumerated for a region are the boxes of the cells of the integer
range around it for which the query answers true. -/
theorem mem_collectBlocks (A : Arith) (chunks : ChunkStore) (area col : AABB) :
    col ∈ collectBlocks A chunks area ↔
      ∃ x y z : Int,
        (A.toI (Int.floor (A.rnd (area.min.x - A.rnd (1 / 100)))) ≤ x ∧
          x < A.toI (Int.ceil (A.rnd (area.max.x + A.rnd (1 / 100))))) ∧
        (A.toI (Int.floor (A.rnd (area.min.y - A.rnd (1 / 100)))) ≤ y ∧
          y < A.toI (Int.ceil (A.rnd (area.max.y + A.rnd (1 / 100))))) ∧
        (A.toI (Int.floor (A.rnd (area.min.z - A.rnd (1 / 100)))) ≤ z ∧
          z < A.toI (Int.ceil (A.rnd (area.max.z + A.rnd (1 / 100))))) ∧
        IsBlockAt A chunks (cellCentre A x) (cellCentre A y) (cellCentre A z) = true ∧
        col = blockAABB A x y z := by
  simp only [collectBlocks, List.mem_flatMap, mem_intRange]
  constructor
  · rintro ⟨x, hx, y, hy, z, hz, hm⟩
    split at hm
    · rename_i hb
      exact ⟨x, y, z, hx, hy, hz, hb, by simpa using hm⟩
    · simp at hm
  · rintro ⟨x, y, z, hx, hy, hz, hb, rfl⟩
    exact ⟨x, hx, y, hy, z, hz, by rw [if_pos hb]; exact List.mem_singleton_self _⟩

theorem mem_candidateBlocks_solid (A : Arith) (chunks : ChunkStore) (dt : ℚ)
    (state : KinematicState) (localAABB col : AABB)
    (h : col ∈ candidateBlocks A chunks dt state localAABB) :
    ∃ x y z : Int,
      IsBlockAt A chunks (cellCentre A x) (cellCentre A y) (cellCentre A z) = true ∧
      col = blockAABB A x y z := by
  unfold candidateBlocks at h
  rw [mem_collectBlocks] at h
  obtain ⟨x, y, z, -, -, -, hb, hc⟩ := h
  exact ⟨x, y, z, hb, hc⟩

theorem strictlyOverlaps_get (a b : AABB) (h : strictlyOverlaps a b) (i : Nat) :
    a.min.get i < b.max.get i ∧ b.min.get i < a.max.get i := by
  obtain ⟨hx, hy, hz⟩ := h
  rcases i with _ | _ | i
  · exact hx
  · exact hy
  · exact hz

theorem strictlyOverlaps_of_axes (a b : AABB) (i : Nat) (hi : i < 3)
    (ho : overlapsOtherAxes a b i)
    (h : a.min.get i < b.max.get i ∧ b.min.get i < a.max.get i) : strictlyOverlaps a b := by
  unfold overlapsOtherAxes at ho
  interval_cases i
  · simp only [Vector3.get] at ho h
    exact ⟨h, ⟨ho.1, ho.2.1⟩, ⟨ho.2.2.1, ho.2.2.2⟩⟩
  · simp only [Vector3.get] at ho h
    exact ⟨⟨ho.2.2.1, ho.2.2.2⟩, h, ⟨ho.1, ho.2.1⟩⟩
  · simp only [Vector3.get] at ho h
    exact ⟨⟨ho.1, ho.2.1⟩, ⟨ho.2.2.1, ho.2.2.2⟩, h⟩

/-- The resolved movement on `axis` does not exceed the computed gap to a candidate
ahead of the body that overlaps it on the other two axes. -/
theorem resolved_within_ahead (A : Arith) (hA : A.KeepsSign) (cur : AABB) (l : List AABB)
    (m : Vector3) (i : Nat) (hi : i < 3) (col : AABB) (hcol : col ∈ l)
    (ho : overlapsOtherAxes cur col i) (ha : cur.max.get i ≤ col.min.get i) :
    (resolveMovement A cur l m).get i ≤ A.rnd (col.min.get i - cur.max.get i) := by
  rw [resolveMovement_get A cur l m i hi]
  rcases le_total 0 (m.get i) with hd | hd
  · obtain ⟨-, -, a3, -⟩ := foldl_clampScalar_nonneg A hA cur i l _ hd
    exact a3 _ ((mem_aheadGaps A cur i l _).2 ⟨col, hcol, ⟨ho, ha⟩, rfl⟩)
  · obtain ⟨a1, -, -, -⟩ := foldl_clampScalar_nonpos A hA cur i l _ hd
    exact le_trans a1 (hA.1 _ (by linarith))

/-- The resolved movement on `axis` is not below the computed gap to a candidate
behind the body that overlaps it on the other two axes. -/
theorem resolved_within_behind (A : Arith) (hA : A.KeepsSign) (cur : AABB) (l : List AABB)
    (m : Vector3) (i : Nat) (hi : i < 3) (col : AABB) (hcol : col ∈ l)
    (ho : overlapsOtherAxes cur col i) (ha : col.max.get i ≤ cur.min.get i) :
    A.rnd (col.max.get i - cur.min.get i) ≤ (resolveMovement A cur l m).get i := by
  rw [resolveMovement_get A cur l m i hi]
  rcases le_total 0 (m.get i) with hd | hd
  · obtain ⟨a1, -, -, -⟩ := foldl_clampScalar_nonneg A hA cur i l _ hd
    exact le_trans (hA.2 _ (by linarith)) a1
  · obtain ⟨-, -, a3, -⟩ := foldl_clampScalar_nonpos A hA cur i l _ hd
    exact a3 _ ((mem_behindGaps A cur i l _).2 ⟨col, hcol, ⟨ho, ha⟩, rfl⟩)

/-- C9: after every tick the new position is the old position plus the resolved
(possibly clamped) displacement (a float sum), and on each axis the new velocity
component is `0` when the applied displacement differs from the intended displacement
`velocity*dt` (a float product) and the old velocity component otherwise; this holds
for every arithmetic, that of the program and the exact one. -/
theorem UpdatePositionSystem_position_velocity (A : Arith) (chunks : ChunkStore) (dt : ℚ)
    (state : KinematicState) (localAABB : AABB) (axis : Fin 3) :
    (UpdatePositionSystem A chunks dt state localAABB).position =
      Vector3Add A state.position (resolvedMovement A chunks dt state localAABB) ∧
    (UpdatePositionSystem A chunks dt state localAABB).position.get axis.val =
      A.rnd (state.position.get axis.val +
        (resolvedMovement A chunks dt state localAABB).get axis.val) ∧
    (UpdatePositionSystem A chunks dt state localAABB).velocity.get axis.val =
      (if (resolvedMovement A chunks dt state localAABB).get axis.val ≠
          A.rnd (state.velocity.get axis.val * dt)
        then 0 else state.velocity.get axis.val) := by
  refine ⟨rfl, by simp only [UpdatePositionSystem, Vector3Add_get], ?_⟩
  obtain ⟨i, hi⟩ := axis
  interval_cases i <;> simp only [UpdatePositionSystem, Vector3Scale, Vector3.get]

/-- One tick of a body with zero velocity: position and velocity are kept, grounded
is false. -/
theorem UpdatePositionSystem_zero_velocity (A : Arith) (chunks : ChunkStore) (dt : ℚ)
    (pos : Vector3) (grounded : Bool) (localAABB : AABB) (h0 : A.rnd 0 = 0)
    (hpos : A.IsFloat pos.x ∧ A.IsFloat pos.y ∧ A.IsFloat pos.z) :
    UpdatePositionSystem A chunks dt ⟨pos, ⟨0, 0, 0⟩, grounded⟩ localAABB =
      ⟨pos, ⟨0, 0, 0⟩, false⟩ := by
  have hs : Vector3Scale A ⟨0, 0, 0⟩ dt = ⟨0, 0, 0⟩ := by
    simp only [Vector3Scale, zero_mul, h0]
  have hm : ∀ i, i < 3 →
      (resolvedMovement A chunks dt ⟨pos, ⟨0, 0, 0⟩, grounded⟩ localAABB).get i = 0 := by
    intro i hi
    apply resolveMovement_get_of_zero _ _ _ _ i hi
    simp only [hs]
    rcases i with _ | _ | i <;> rfl
  have hmv : resolvedMovement A chunks dt ⟨pos, ⟨0, 0, 0⟩, grounded⟩ localAABB = ⟨0, 0, 0⟩ :=
    Vector3.ext_get _ _ (hm 0 (by decide)) (hm 1 (by decide)) (hm 2 (by decide))
  have hadd : Vector3Add A pos ⟨0, 0, 0⟩ = pos := by
    obtain ⟨hx, hy, hz⟩ := hpos
    unfold Arith.IsFloat at hx hy hz
    cases pos
    simp only [Vector3Add, add_zero] at hx hy hz ⊢
    rw [hx, hy, hz]
  simp only [UpdatePositionSystem, hmv, hs, hadd]
  simp

/-- C10: a body with zero velocity resolved `n + 1` times in a row keeps exactly its
position and its zero velocity, and grounded is false after each resolution; the
state after one resolution is a fixed point of the resolver. This holds for every
arithmetic in which `0` is a float, the starting position being made of floats (as
every value of the C++ type is): that of the program and the exact one. -/
theorem UpdatePositionSystem_zero_velocity_iterate (A : Arith) (chunks : ChunkStore) (dt : ℚ)
    (pos : Vector3) (grounded : Bool) (localAABB : AABB) (n : Nat) (h0 : A.rnd 0 = 0)
    (hpos : A.IsFloat pos.x ∧ A.IsFloat pos.y ∧ A.IsFloat pos.z) :
    (fun s => UpdatePositionSystem A chunks dt s localAABB)^[n + 1] ⟨pos, ⟨0, 0, 0⟩, grounded⟩ =
      ⟨pos, ⟨0, 0, 0⟩, false⟩ ∧
    UpdatePositionSystem A chunks dt
        (UpdatePositionSystem A chunks dt ⟨pos, ⟨0, 0, 0⟩, grounded⟩ localAABB) localAABB =
      UpdatePositionSystem A chunks dt ⟨pos, ⟨0, 0, 0⟩, grounded⟩ localAABB := by
  constructor
  · induction n with
    | zero => exact UpdatePositionSystem_zero_velocity A chunks dt pos grounded localAABB h0 hpos
    | succ n ih =>
      rw [Function.iterate_succ_apply', ih]
      exact UpdatePositionSystem_zero_velocity A chunks dt pos false localAABB h0 hpos
  · rw [UpdatePositionSystem_zero_velocity A chunks dt pos grounded localAABB h0 hpos,
      UpdatePositionSystem_zero_velocity A chunks dt pos false localAABB h0 hpos]

/-- Witness for C10: the player entity at its starting position `(1, 24, 1)`, at
rest, resolved three times by the program with `dt = 1/60` (rounded to a float). -/
theorem UpdatePositionSystem_zero_velocity_iterate_witness :
    (fun s => UpdatePositionSystem machine floorStore (f32 (1 / 60)) s playerAABB)^[3]
        ⟨⟨1, 24, 1⟩, ⟨0, 0, 0⟩, true⟩ = ⟨⟨1, 24, 1⟩, ⟨0, 0, 0⟩, false⟩ :=
  (UpdatePositionSystem_zero_velocity_iterate machine floorStore (f32 (1 / 60)) ⟨1, 24, 1⟩ true
    playerAABB 2 (by decide!) (by decide!)).1

/-- The axis loop over any duplicate-free list of axes: a component whose axis is in
the list is the scalar fold of its own axis, the others are unchanged. -/
theorem resolveMovementIn_get (A : Arith) (cur : AABB) (l : List AABB) (axes : List Nat)
    (hnd : axes.Nodup) (hlt : ∀ a ∈ axes, a < 3) (i : Nat) (hi : i < 3) :
    ∀ m : Vector3, (resolveMovementIn A axes cur l m).get i =
      if i ∈ axes then l.foldl (clampScalar A cur i) (m.get i) else m.get i := by
  unfold resolveMovementIn
  induction axes with
  | nil => intro m; simp
  | cons a as ih =>
    intro m
    rw [List.nodup_cons] at hnd
    have ha : a < 3 := hlt a (List.mem_cons_self _ _)
    rw [List.foldl_cons, ih hnd.2 (fun b hb => hlt b (List.mem_cons_of_mem _ hb)),
      resolveAxis_eq_set]
    by_cases hia : i = a
    · subst hia
      simp [hnd.1, Vector3.get_set_self]
    · have hget : (m.set a (l.foldl (clampScalar A cur a) (m.get a))).get i = m.get i :=
        Vector3.get_set_ne _ a i _ ha hi (Ne.symm hia)
      rw [hget]
      simp [hia]

theorem resolveMovementIn_perm (A : Arith) (cur : AABB) (l : List AABB) (axes : List Nat)
    (hp : axes.Perm [1, 0, 2]) (m : Vector3) :
    resolveMovementIn A axes cur l m = resolveMovement A cur l m := by
  have hnd : axes.Nodup := hp.nodup_iff.2 (by decide)
  have hlt : ∀ a ∈ axes, a < 3 := by
    intro a ha
    have := hp.mem_iff.1 ha
    simp at this
    omega
  have hmem : ∀ i, i < 3 → i ∈ axes := by
    intro i hi
    apply hp.mem_iff.2
    interval_cases i <;> simp
  apply Vector3.ext_get
  · rw [resolveMovementIn_get A cur l axes hnd hlt 0 (by decide), if_pos (hmem 0 (by decide)),
      resolveMovement_get _ _ _ _ 0 (by decide)]
  · rw [resolveMovementIn_get A cur l axes hnd hlt 1 (by decide), if_pos (hmem 1 (by decide)),
      resolveMovement_get _ _ _ _ 1 (by decide)]
  · rw [resolveMovementIn_get A cur l axes hnd hlt 2 (by decide), if_pos (hmem 2 (by decide)),
      resolveMovement_get _ _ _ _ 2 (by decide)]

/-- C20: the result of `UpdatePositionSystem` (position, velocity and grounded) is
the same for every processing order of the three axes, not only the order `(y, x, z)`
of the code: every axis is clamped against the body's world box from before the tick,
so the displacement applied on an axis depends on the intended displacement on that
axis only, not on the displacement applied on any other axis. This holds for every
arithmetic, that of the program and the exact one. -/
theorem UpdatePositionSystem_axis_order (A : Arith) (chunks : ChunkStore) (dt : ℚ)
    (state : KinematicState) (localAABB : AABB) :
    (∀ axes : List Nat, axes.Perm [1, 0, 2] →
      UpdatePositionSystemIn A axes chunks dt state localAABB =
        UpdatePositionSystem A chunks dt state localAABB) ∧
    UpdatePositionSystemIn A [1, 0, 2] chunks dt state localAABB =
      UpdatePositionSystem A chunks dt state localAABB ∧
    (∀ (axis : Fin 3) (m m' : Vector3), m.get axis.val = m'.get axis.val →
      (resolveMovement A (GetAbsoluteBoundingBox A state.position localAABB)
          (candidateBlocks A chunks dt state localAABB) m).get axis.val =
        (resolveMovement A (GetAbsoluteBoundingBox A state.position localAABB)
          (candidateBlocks A chunks dt state localAABB) m').get axis.val) := by
  refine ⟨?_, rfl, ?_⟩
  · intro axes hp
    unfold UpdatePositionSystemIn UpdatePositionSystem resolvedMovement
    simp only [resolveMovementIn_perm _ _ _ axes hp]
  · intro axis m m' h
    rw [resolveMovement_get _ _ _ _ axis.val axis.isLt,
      resolveMovement_get _ _ _ _ axis.val axis.isLt, h]

/-- Witness for C20: for the body `slidingState` over `floorStore`, processing the
axes in the order `(x, y, z)` gives the result of the code's order `(y, x, z)`. -/
theorem UpdatePositionSystem_axis_order_witness :
    UpdatePositionSystemIn machine [0, 1, 2] floorStore 1 slidingState playerAABB =
      UpdatePositionSystem machine floorStore 1 slidingState playerAABB :=
  (UpdatePositionSystem_axis_order machine floorStore 1 slidingState playerAABB).1 [0, 1, 2]
    (by decide)

/-! ### Landing on a floor cell -/

theorem floor_castInt_le (v : ℚ) (n : Int) (hn : -2147483648 ≤ n) (h : v < (n : ℚ) + 1) :
    castInt (Int.floor v) ≤ n := by
  have h1 : Int.floor v < n + 1 := Int.floor_lt.mpr (by push_cast; exact h)
  rcases castInt_cases (Int.floor v) with hc | hc <;> rw [hc] <;> omega

theorem lt_castInt_ceil (v : ℚ) (n : Int) (hn : -2147483648 ≤ n) (h1 : (n : ℚ) < v)
    (h2 : v ≤ 1073741824) : n < castInt (Int.ceil v) := by
  have h3 : n < Int.ceil v := Int.lt_ceil.mpr h1
  have h4 : Int.ceil v ≤ 1073741824 := Int.ceil_le.mpr (by push_cast; exact h2)
  rw [castInt_of_range _ (by omega)]
  exact h3

theorem f32_eps_pos : 0 < f32 (1 / 100) ∧ f32 (1 / 100) < 1 := by decide!

theorem f32_sub_eps_le (a : ℚ) (ha : f32 a = a) : f32 (a - f32 (1 / 100)) ≤ a := by
  have := f32_mono (show a - f32 (1 / 100) ≤ a by linarith [f32_eps_pos.1])
  rwa [ha] at this

theorem le_f32_add_eps (a : ℚ) (ha : f32 a = a) : a ≤ f32 (a + f32 (1 / 100)) := by
  have := f32_mono (show a ≤ a + f32 (1 / 100) by linarith [f32_eps_pos.1])
  rwa [ha] at this

theorem f32_add_eps_le (a : ℚ) (h : a ≤ 1073741824) :
    f32 (a + f32 (1 / 100)) ≤ 1073741824 := by
  have := f32_mono (show a + f32 (1 / 100) ≤ 1073741825 by linarith [f32_eps_pos.2])
  have e : f32 1073741825 = 1073741824 := by decide!
  rwa [e] at this

/-- C7 (amended): a body at `y = 1/2` whose local box has its bottom at local `y = 0`
(and its top not below its bottom), with velocity `(0, -10, 0)` and `dt = 1`, over a
store in which the queries of the program find a single solid cell, a floor cell
`(fx, -1, fz)` (occupying `y ∈ [-1, 0]`) that overlaps the body's world box in `x`
and `z`; the position is made of floats, `fx` and `fz` have magnitude below `2^23`
and the world box does not extend beyond `2^30`. Then `UpdatePositionSystem` clamps
the intended vertical displacement `-10` to `-1/2`, the new position has `y = 0`,
grounded becomes true and the velocity becomes zero. -/
theorem UpdatePositionSystem_lands_on_floor (chunks : ChunkStore) (px pz : ℚ)
    (localAABB : AABB) (grounded : Bool) (fx fz : Int)
    (hpx : machine.IsFloat px) (hpz : machine.IsFloat pz)
    (hbottom : localAABB.min.y = 0) (hwf : localAABB.min.y ≤ localAABB.max.y)
    (hfloor : ∀ x y z : Int,
      IsBlockAt machine chunks (cellCentre machine x) (cellCentre machine y)
        (cellCentre machine z) = true ↔ (x = fx ∧ y = -1 ∧ z = fz))
    (hfx : -8388608 ≤ fx ∧ fx < 8388608) (hfz : -8388608 ≤ fz ∧ fz < 8388608)
    (hbound : (GetAbsoluteBoundingBox machine ⟨px, 1 / 2, pz⟩ localAABB).max.x ≤ 1073741824 ∧
      (GetAbsoluteBoundingBox machine ⟨px, 1 / 2, pz⟩ localAABB).max.y ≤ 1073741824 ∧
      (GetAbsoluteBoundingBox machine ⟨px, 1 / 2, pz⟩ localAABB).max.z ≤ 1073741824)
    (hx : (GetAbsoluteBoundingBox machine ⟨px, 1 / 2, pz⟩ localAABB).min.x < (fx : ℚ) + 1 ∧
      (fx : ℚ) < (GetAbsoluteBoundingBox machine ⟨px, 1 / 2, pz⟩ localAABB).max.x)
    (hz : (GetAbsoluteBoundingBox machine ⟨px, 1 / 2, pz⟩ localAABB).min.z < (fz : ℚ) + 1 ∧
      (fz : ℚ) < (GetAbsoluteBoundingBox machine ⟨px, 1 / 2, pz⟩ localAABB).max.z) :
    (Vector3Scale machine (⟨0, -10, 0⟩ : Vector3) 1).y = -10 ∧
    (resolvedMovement machine chunks 1 ⟨⟨px, 1 / 2, pz⟩, ⟨0, -10, 0⟩, grounded⟩ localAABB).y =
      -1 / 2 ∧
    (UpdatePositionSystem machine chunks 1 ⟨⟨px, 1 / 2, pz⟩, ⟨0, -10, 0⟩, grounded⟩
      localAABB).position = ⟨px, 0, pz⟩ ∧
    (UpdatePositionSystem machine chunks 1 ⟨⟨px, 1 / 2, pz⟩, ⟨0, -10, 0⟩, grounded⟩
      localAABB).grounded = true ∧
    (UpdatePositionSystem machine chunks 1 ⟨⟨px, 1 / 2, pz⟩, ⟨0, -10, 0⟩, grounded⟩
      localAABB).velocity = ⟨0, 0, 0⟩ := by
  have hpx2 : f32 px = px := hpx
  have hpz2 : f32 pz = pz := hpz
  have hscale : Vector3Scale machine (⟨0, -10, 0⟩ : Vector3) 1 = ⟨0, -10, 0⟩ := by decide!
  have hnext : Vector3Add machine ⟨px, 1 / 2, pz⟩ ⟨0, -10, 0⟩ = ⟨px, -19 / 2, pz⟩ := by
    have e : f32 (1 / 2 + -10) = -19 / 2 := by decide!
    simp only [Vector3Add, machine, add_zero, hpx2, hpz2, e]
  have hblock : blockAABB machine fx (-1) fz =
      ⟨⟨(fx : ℚ), -1, (fz : ℚ)⟩, ⟨(fx : ℚ) + 1, 0, (fz : ℚ) + 1⟩⟩ := by
    have e1 : f32 (fx : ℚ) = fx := f32_intCast fx (by rw [abs_lt]; constructor <;> omega)
    have e2 : f32 (fz : ℚ) = fz := f32_intCast fz (by rw [abs_lt]; constructor <;> omega)
    have e3 : f32 ((fx : ℚ) + 1) = (fx : ℚ) + 1 := by
      have := f32_intCast (fx + 1) (by rw [abs_lt]; constructor <;> omega)
      push_cast at this
      exact this
    have e4 : f32 ((fz : ℚ) + 1) = (fz : ℚ) + 1 := by
      have := f32_intCast (fz + 1) (by rw [abs_lt]; constructor <;> omega)
      push_cast at this
      exact this
    have e5 : f32 (((-1 : Int) : ℚ)) = -1 := by decide!
    have e6 : f32 ((-1 : ℚ) + 1) = 0 := by decide!
    simp only [blockAABB, machine, e1, e2, e3, e4, e5, e6]
  -- the current and the next world box
  have hcurminy : (GetAbsoluteBoundingBox machine ⟨px, 1 / 2, pz⟩ localAABB).min.y = 1 / 2 := by
    have e : f32 (1 / 2 + 0) = 1 / 2 := by decide!
    simp only [GetAbsoluteBoundingBox, Vector3Add, machine, hbottom, e]
  have hcurmaxy : (1 / 2 : ℚ) ≤
      (GetAbsoluteBoundingBox machine ⟨px, 1 / 2, pz⟩ localAABB).max.y := by
    have e : f32 (1 / 2) = 1 / 2 := by decide!
    have := f32_mono (show (1 / 2 : ℚ) ≤ 1 / 2 + localAABB.max.y by linarith)
    rw [e] at this
    exact this
  have hnextx : (GetAbsoluteBoundingBox machine ⟨px, -19 / 2, pz⟩ localAABB).min.x =
        (GetAbsoluteBoundingBox machine ⟨px, 1 / 2, pz⟩ localAABB).min.x ∧
      (GetAbsoluteBoundingBox machine ⟨px, -19 / 2, pz⟩ localAABB).max.x =
        (GetAbsoluteBoundingBox machine ⟨px, 1 / 2, pz⟩ localAABB).max.x ∧
      (GetAbsoluteBoundingBox machine ⟨px, -19 / 2, pz⟩ localAABB).min.z =
        (GetAbsoluteBoundingBox machine ⟨px, 1 / 2, pz⟩ localAABB).min.z ∧
      (GetAbsoluteBoundingBox machine ⟨px, -19 / 2, pz⟩ localAABB).max.z =
        (GetAbsoluteBoundingBox machine ⟨px, 1 / 2, pz⟩ localAABB).max.z :=
    ⟨rfl, rfl, rfl, rfl⟩
  have hnextminy : (GetAbsoluteBoundingBox machine ⟨px, -19 / 2, pz⟩ localAABB).min.y =
      -19 / 2 := by
    have e : f32 (-19 / 2 + 0) = -19 / 2 := by decide!
    simp only [GetAbsoluteBoundingBox, Vector3Add, machine, hbottom, e]
  have hnextmaxy : (GetAbsoluteBoundingBox machine ⟨px, -19 / 2, pz⟩ localAABB).max.y ≤
      (GetAbsoluteBoundingBox machine ⟨px, 1 / 2, pz⟩ localAABB).max.y :=
    f32_mono (by linarith)
  have hfl : ∀ a : ℚ, f32 (f32 a) = f32 a := f32_idem
  have hfloorMem : blockAABB machine fx (-1) fz ∈
      candidateBlocks machine chunks 1 ⟨⟨px, 1 / 2, pz⟩, ⟨0, -10, 0⟩, grounded⟩ localAABB := by
    unfold candidateBlocks
    simp only [hscale, hnext]
    rw [mem_collectBlocks]
    refine ⟨fx, -1, fz, ⟨?_, ?_⟩, ⟨?_, ?_⟩, ⟨?_, ?_⟩, (hfloor fx (-1) fz).2 ⟨rfl, rfl, rfl⟩, rfl⟩
    · simp only [Vector3Min, hnextx.1, min_self]
      apply floor_castInt_le _ _ (by omega)
      exact lt_of_le_of_lt (f32_sub_eps_le _ (hfl _)) hx.1
    · simp only [Vector3Max, hnextx.2.1, max_self]
      apply lt_castInt_ceil _ _ (by omega)
      · exact lt_of_lt_of_le hx.2 (le_f32_add_eps _ (hfl _))
      · exact f32_add_eps_le _ hbound.1
    · simp only [Vector3Min, hcurminy, hnextminy]
      have e : machine.toI
          (Int.floor (machine.rnd (min (1 / 2) (-19 / 2) - machine.rnd (1 / 100)))) = -10 := by
        decide!
      rw [e]
      norm_num
    · simp only [Vector3Max, max_eq_left hnextmaxy]
      apply lt_castInt_ceil _ _ (by norm_num)
      · have := le_f32_add_eps
          (GetAbsoluteBoundingBox machine ⟨px, 1 / 2, pz⟩ localAABB).max.y (hfl _)
        exact lt_of_lt_of_le (by push_cast; linarith) this
      · exact f32_add_eps_le _ hbound.2.1
    · simp only [Vector3Min, hnextx.2.2.1, min_self]
      apply floor_castInt_le _ _ (by omega)
      exact lt_of_le_of_lt (f32_sub_eps_le _ (hfl _)) hz.1
    · simp only [Vector3Max, hnextx.2.2.2, max_self]
      apply lt_castInt_ceil _ _ (by omega)
      · exact lt_of_lt_of_le hz.2 (le_f32_add_eps _ (hfl _))
      · exact f32_add_eps_le _ hbound.2.2
  have hm0 : (resolvedMovement machine chunks 1 ⟨⟨px, 1 / 2, pz⟩, ⟨0, -10, 0⟩, grounded⟩
      localAABB).get 0 = 0 :=
    resolveMovement_get_of_zero _ _ _ _ 0 (by decide) (by simp only [hscale]; rfl)
  have hm2 : (resolvedMovement machine chunks 1 ⟨⟨px, 1 / 2, pz⟩, ⟨0, -10, 0⟩, grounded⟩
      localAABB).get 2 = 0 :=
    resolveMovement_get_of_zero _ _ _ _ 2 (by decide) (by simp only [hscale]; rfl)
  have hm1 : (resolvedMovement machine chunks 1 ⟨⟨px, 1 / 2, pz⟩, ⟨0, -10, 0⟩, grounded⟩
      localAABB).get 1 = -1 / 2 := by
    unfold resolvedMovement
    rw [resolveMovement_get _ _ _ _ 1 (by decide)]
    have hd : (Vector3Scale machine (⟨0, -10, 0⟩ : Vector3) 1).get 1 = -10 := by
      rw [hscale]
      rfl
    simp only [hd]
    obtain ⟨-, a2, a3, a4⟩ := foldl_clampScalar_nonpos machine machine_keepsSign
      (GetAbsoluteBoundingBox machine ⟨px, 1 / 2, pz⟩ localAABB) 1
      (candidateBlocks machine chunks 1 ⟨⟨px, 1 / 2, pz⟩, ⟨0, -10, 0⟩, grounded⟩ localAABB) (-10)
      (by norm_num)
    have hgapval : machine.rnd ((0 : ℚ) - 1 / 2) = -1 / 2 := by decide!
    have hgap : ∀ g ∈ behindGaps machine (GetAbsoluteBoundingBox machine ⟨px, 1 / 2, pz⟩ localAABB)
        1 (candidateBlocks machine chunks 1 ⟨⟨px, 1 / 2, pz⟩, ⟨0, -10, 0⟩, grounded⟩ localAABB),
        g = -1 / 2 := by
      intro g hg
      rw [mem_behindGaps] at hg
      obtain ⟨col, hcol, -, rfl⟩ := hg
      obtain ⟨x, y, z, hb, rfl⟩ := mem_candidateBlocks_solid _ _ _ _ _ _ hcol
      obtain ⟨rfl, rfl, rfl⟩ := (hfloor x y z).1 hb
      rw [hblock]
      simp only [Vector3.get, hcurminy]
      exact hgapval
    have hin : (-1 / 2 : ℚ) ∈ behindGaps machine
        (GetAbsoluteBoundingBox machine ⟨px, 1 / 2, pz⟩ localAABB) 1
        (candidateBlocks machine chunks 1 ⟨⟨px, 1 / 2, pz⟩, ⟨0, -10, 0⟩, grounded⟩ localAABB) := by
      rw [mem_behindGaps]
      refine ⟨blockAABB machine fx (-1) fz, hfloorMem, ⟨?_, ?_⟩, ?_⟩
      · rw [hblock]
        simp only [overlapsOtherAxes, Vector3.get]
        exact ⟨hz.1, hz.2, hx.1, hx.2⟩
      · rw [hblock]
        simp only [Vector3.get, hcurminy]
        norm_num
      · rw [hblock]
        simp only [Vector3.get, hcurminy]
        exact hgapval
    have hle := a3 _ hin
    rcases a4 with a4 | a4
    · rw [a4] at hle
      norm_num at hle
    · exact hgap _ a4
  have hmv : resolvedMovement machine chunks 1 ⟨⟨px, 1 / 2, pz⟩, ⟨0, -10, 0⟩, grounded⟩ localAABB =
      ⟨0, -1 / 2, 0⟩ := Vector3.ext_get _ _ hm0 hm1 hm2
  refine ⟨by rw [hscale], by rw [hmv], ?_, ?_, ?_⟩
  · have e : f32 (1 / 2 + -1 / 2) = 0 := by decide!
    simp only [UpdatePositionSystem, hmv]
    simp only [Vector3Add, machine_rnd, add_zero, hpx2, hpz2, e]
  · simp only [UpdatePositionSystem, hmv, hscale]
    norm_num
  · simp only [UpdatePositionSystem, hmv, hscale]
    norm_num

/-- Witness for C7 (amended): the body `fallingState` (at `(1/4, 1/2, 1/4)`, box of
the player entity) over `floorStore`, whose single solid cell is the floor cell
`(0, -1, 0)`. -/
theorem UpdatePositionSystem_lands_on_floor_witness :
    (UpdatePositionSystem machine floorStore 1 fallingState playerAABB).position =
      ⟨1 / 4, 0, 1 / 4⟩ ∧
    (UpdatePositionSystem machine floorStore 1 fallingState playerAABB).grounded = true ∧
    (UpdatePositionSystem machine floorStore 1 fallingState playerAABB).velocity = ⟨0, 0, 0⟩ :=
  (UpdatePositionSystem_lands_on_floor floorStore (1 / 4) (1 / 4) playerAABB false 0 0
    (by decide!) (by decide!) rfl (by decide!) floorStore_solid (by decide) (by decide)
    (by decide!) (by decide!) (by decide!)).2.2

/-- C7 counterexample: a body at `(2^24, 1/2, 1/4)` whose local box
`[0, 2] × [0, 1] × [0, 1/2]` has its bottom at local `y = 0`, with velocity
`(0, -10, 0)` and `dt = 1`, over `farFloorStore`, whose single solid cell is the floor
cell `(2^24 + 1, -1, 0)`; the cell occupies `y ∈ [-1, 0]` and overlaps the body's world
box `[2^24, 2^24 + 2] × [1/2, 3/2] × [1/4, 3/4]` in `x` and `z`. The float
`(float)x + 0.5f` computed for `x = 2^24 + 1` is `2^24`, so the cell is never queried:
there is no candidate, the displacement stays `-10`, the new position has `y = -19/2`,
grounded is false and the velocity is unchanged. -/
theorem UpdatePositionSystem_far_floor_missed :
    (∀ x y z : Int, cellSolid farFloorStore x y z = true ↔
      (x = 16777217 ∧ y = -1 ∧ z = 0)) ∧
    farFallingState.position.y = 1 / 2 ∧ farFallingState.velocity = ⟨0, -10, 0⟩ ∧
    wideAABB.min.y = 0 ∧
    GetAbsoluteBoundingBox machine farFallingState.position wideAABB =
      ⟨⟨16777216, 1 / 2, 1 / 4⟩, ⟨16777218, 3 / 2, 3 / 4⟩⟩ ∧
    ((16777216 : ℚ) < 16777217 + 1 ∧ (16777217 : ℚ) < 16777218) ∧
    (((1 / 4 : ℚ) < 0 + 1) ∧ ((0 : ℚ) < 3 / 4)) ∧
    cellCentre machine 16777217 = 16777216 ∧
    candidateBlocks machine farFloorStore 1 farFallingState wideAABB = [] ∧
    UpdatePositionSystem machine farFloorStore 1 farFallingState wideAABB =
      ⟨⟨16777216, -19 / 2, 1 / 4⟩, ⟨0, -10, 0⟩, false⟩ := by
  refine ⟨?_, rfl, rfl, rfl, by decide!, by norm_num, by norm_num, by decide!, by decide!,
    by decide!⟩
  intro x y z
  unfold farFloorStore
  rw [cellSolid_singleCellStore _ _ _ _ (by decide) (by decide) (by decide)]
  simp

/-- A loop whose body extends an invariant indexed by a trace extends it by the
whole trace of the loop. -/
theorem foldl_trace {σ α β : Type} (Inv : List β → σ → Prop) (step : σ → α → σ)
    (g : α → List β) (hstep : ∀ L s a, Inv L s → Inv (L ++ g a) (step s a)) (l : List α) :
    ∀ L s, Inv L s → Inv (L ++ l.flatMap g) (l.foldl step s) := by
  induction l with
  | nil => intro L s h; simpa using h
  | cons a l ih =>
    intro L s h
    have := ih (L ++ g a) (step s a) (hstep L s a h)
    simpa [List.flatMap_cons, List.append_assoc] using this


theorem mem_paddedRange (a : Int) : a ∈ paddedRange ↔ -1 ≤ a ∧ a ≤ 16 := by
  rw [paddedRange, mem_intRange, CHUNK_SIZE]
  omega


/-! ### The padded buffer of `BuildChunkMesh` -/

theorem filled_init (A : Arith) (chunks : ChunkStore) (cx cy cz : Int) :
    Filled A chunks cx cy cz [] (fun _ _ _ => 0) := by
  intro i j k
  simp

theorem neighborStep_filled (A : Arith) (chunks : ChunkStore) (cx cy cz x y z : Int)
    (L : List (Int × Int × Int)) (buf : PaddedBuffer) (h : Filled A chunks cx cy cz L buf) :
    Filled A chunks cx cy cz (L ++ [(x, y, z)]) (neighborStep A chunks cx cy cz x y buf z) := by
  intro i j k
  obtain ⟨h1, h0⟩ := h i j k
  unfold neighborStep
  by_cases hs : neighborSample A chunks cx cy cz (x, y, z) = true
  · have hs2 := hs
    unfold neighborSample at hs2
    simp only at hs2
    rw [if_pos hs2]
    by_cases hijk : i = x + 1 ∧ j = y + 1 ∧ k = z + 1
    · rw [if_pos hijk]
      refine ⟨fun _ => rfl, fun hn => ?_⟩
      exact absurd ⟨(x, y, z), by simp, hs, hijk⟩ hn
    · rw [if_neg hijk]
      constructor
      · rintro ⟨t, ht, hst, hi⟩
        rcases List.mem_append.1 ht with ht | ht
        · exact h1 ⟨t, ht, hst, hi⟩
        · rw [List.mem_singleton] at ht
          subst ht
          exact absurd hi hijk
      · intro hn
        exact h0 (fun ⟨t, ht, hst, hi⟩ => hn ⟨t, List.mem_append_left _ ht, hst, hi⟩)
  · have hs2 := hs
    unfold neighborSample at hs2
    simp only at hs2
    rw [if_neg hs2]
    constructor
    · rintro ⟨t, ht, hst, hi⟩
      rcases List.mem_append.1 ht with ht | ht
      · exact h1 ⟨t, ht, hst, hi⟩
      · rw [List.mem_singleton] at ht
        subst ht
        exact absurd hst hs
    · intro hn
      exact h0 (fun ⟨t, ht, hst, hi⟩ => hn ⟨t, List.mem_append_left _ ht, hst, hi⟩)

theorem neighborData_filled (A : Arith) (chunks : ChunkStore) (cx cy cz : Int) :
    Filled A chunks cx cy cz
      (paddedRange.flatMap fun x => paddedRange.flatMap fun y =>
        paddedRange.flatMap fun z => [(x, y, z)])
      (neighborData A chunks cx cy cz) := by
  have h := foldl_trace (Filled A chunks cx cy cz)
    (fun buf x => paddedRange.foldl (fun buf y =>
      paddedRange.foldl (neighborStep A chunks cx cy cz x y) buf) buf)
    (fun x => paddedRange.flatMap fun y => paddedRange.flatMap fun z => [(x, y, z)])
    (fun L s x hs => foldl_trace (Filled A chunks cx cy cz)
      (fun buf y => paddedRange.foldl (neighborStep A chunks cx cy cz x y) buf)
      (fun y => paddedRange.flatMap fun z => [(x, y, z)])
      (fun L s y hs => foldl_trace (Filled A chunks cx cy cz)
        (neighborStep A chunks cx cy cz x y) (fun z => [(x, y, z)])
        (fun L s z hs => neighborStep_filled A chunks cx cy cz x y z L s hs) paddedRange L s hs)
      paddedRange L s hs)
    paddedRange [] (fun _ _ _ => 0) (filled_init A chunks cx cy cz)
  rw [List.nil_append] at h
  exact h

/-- The value of every cell of the padded buffer built by `BuildChunkMesh`: `1` when
the query made for that cell answered true, `0` otherwise. -/
theorem neighborData_eq (A : Arith) (chunks : ChunkStore) (cx cy cz i j k : Int)
    (hi : 0 ≤ i ∧ i ≤ 17) (hj : 0 ≤ j ∧ j ≤ 17) (hk : 0 ≤ k ∧ k ≤ 17) :
    neighborData A chunks cx cy cz i j k =
      if neighborSample A chunks cx cy cz (i - 1, j - 1, k - 1) = true then 1 else 0 := by
  obtain ⟨h1, h0⟩ := neighborData_filled A chunks cx cy cz i j k
  by_cases hs : neighborSample A chunks cx cy cz (i - 1, j - 1, k - 1) = true
  · rw [if_pos hs]
    apply h1
    refine ⟨(i - 1, j - 1, k - 1), ?_, hs, by simp⟩
    simp only [List.mem_flatMap, List.mem_singleton, mem_paddedRange]
    exact ⟨i - 1, by omega, j - 1, by omega, k - 1, by omega, rfl⟩
  · rw [if_neg hs]
    apply h0
    rintro ⟨t, -, hst, ht1, ht2, ht3⟩
    apply hs
    have : t = (i - 1, j - 1, k - 1) := by
      obtain ⟨a, b, c⟩ := t
      simp only at ht1 ht2 ht3
      simp only [Prod.mk.injEq]
      omega
    rw [← this]
    exact hst

/-- The float `(float)x + 0.5f` lies in the cell `x` for `-2^23 ≤ x ≤ 2^23`, and is in
the range where `IsBlockAt` finds the cell of its argument. -/
theorem cellCentre_in_cell (x : Int) (hx : -8388608 ≤ x ∧ x ≤ 8388608) :
    InQueryRange (cellCentre machine x) ∧ Int.floor (cellCentre machine x) = x := by
  by_cases h : x < 8388608
  · rw [cellCentre_machine x ⟨hx.1, h⟩]
    exact ⟨centre_inQueryRange x ⟨hx.1, h⟩, floor_cell_centre x⟩
  · have e : x = 8388608 := by omega
    subst e
    constructor
    · decide!
    · decide!

/-- At floats in its working range, `IsBlockAt` answers whether the world cell that
holds the point is solid. -/
theorem IsBlockAt_machine_cell (chunks : ChunkStore) (wx wy wz : ℚ)
    (hx : InQueryRange wx) (hy : InQueryRange wy) (hz : InQueryRange wz) :
    IsBlockAt machine chunks wx wy wz =
      cellSolid chunks (Int.floor wx) (Int.floor wy) (Int.floor wz) :=
  IsBlockAt_of_coords machine chunks wx wy wz (machine_chunk_local wx hx)
    (machine_chunk_local wy hy) (machine_chunk_local wz hz)

/-- The float at which `BuildChunkMesh` samples, for a chunk coordinate of magnitude
below `2^19`: it is in the working range of `IsBlockAt` and lies in the world cell
`c * 16 + x`. -/
theorem sampleCoord_in_cell (c x : Int) (hc : -524287 ≤ c ∧ c ≤ 524287)
    (hx : -1 ≤ x ∧ x ≤ 16) :
    InQueryRange (sampleCoord machine c x) ∧ Int.floor (sampleCoord machine c x) = c * 16 + x := by
  have e : sampleCoord machine c x = cellCentre machine (c * 16 + x) := by
    unfold sampleCoord CHUNK_SIZE
    rw [machine_wrap, machine_wrap, wrapInt_of_range (c * 16) (by omega),
      wrapInt_of_range (c * 16 + x) (by omega)]
  rw [e]
  exact cellCentre_in_cell (c * 16 + x) (by omega)

/-- The sample of `BuildChunkMesh` for a buffer cell, for chunk coordinates of
magnitude below `2^19`: whether the world cell is solid. -/
theorem neighborSample_machine (chunks : ChunkStore) (cx cy cz i j k : Int)
    (hcx : -524287 ≤ cx ∧ cx ≤ 524287) (hcy : -524287 ≤ cy ∧ cy ≤ 524287)
    (hcz : -524287 ≤ cz ∧ cz ≤ 524287)
    (hi : 0 ≤ i ∧ i ≤ 17) (hj : 0 ≤ j ∧ j ≤ 17) (hk : 0 ≤ k ∧ k ≤ 17) :
    neighborSample machine chunks cx cy cz (i - 1, j - 1, k - 1) =
      cellSolid chunks (cx * 16 + i - 1) (cy * 16 + j - 1) (cz * 16 + k - 1) := by
  obtain ⟨qx, fx⟩ := sampleCoord_in_cell cx (i - 1) hcx (by omega)
  obtain ⟨qy, fy⟩ := sampleCoord_in_cell cy (j - 1) hcy (by omega)
  obtain ⟨qz, fz⟩ := sampleCoord_in_cell cz (k - 1) hcz (by omega)
  unfold neighborSample
  simp only
  rw [IsBlockAt_machine_cell chunks _ _ _ qx qy qz, fx, fy, fz]
  have e1 : cx * 16 + (i - 1) = cx * 16 + i - 1 := by ring
  have e2 : cy * 16 + (j - 1) = cy * 16 + j - 1 := by ring
  have e3 : cz * 16 + (k - 1) = cz * 16 + k - 1 := by ring
  rw [e1, e2, e3]

/-- The solid cells of the store in terms of a chunk coordinate and an offset from
it. -/
theorem cellSolid_offset (chunks : ChunkStore) (cx cy cz a b c : Int) :
    cellSolid chunks (cx * 16 + a - 1) (cy * 16 + b - 1) (cz * 16 + c - 1) =
      match chunks.find ⟨cx + (a - 1) / 16, cy + (b - 1) / 16, cz + (c - 1) / 16⟩ with
      | some chunk => chunk.voxels ((a - 1) % 16) ((b - 1) % 16) ((c - 1) % 16) != 0
      | none => false := by
  unfold cellSolid
  have e1 : (cx * 16 + a - 1) / 16 = cx + (a - 1) / 16 := by omega
  have e2 : (cy * 16 + b - 1) / 16 = cy + (b - 1) / 16 := by omega
  have e3 : (cz * 16 + c - 1) / 16 = cz + (c - 1) / 16 := by omega
  have f1 : (cx * 16 + a - 1) % 16 = (a - 1) % 16 := by omega
  have f2 : (cy * 16 + b - 1) % 16 = (b - 1) % 16 := by omega
  have f3 : (cz * 16 + c - 1) % 16 = (c - 1) % 16 := by omega
  rw [e1, e2, e3, f1, f2, f3]

/-- C11 (amended): for chunk coordinates `cx, cy, cz` of magnitude at most
`524287 = 2^19 - 1`, when the store holds a chunk at `(cx, cy, cz)`, `BuildChunkMesh`
passes the buffer `neighborData` to `GenerateMesh`, and for all `i, j, k` in `0..17`
the cell `[i][j][k]` of that buffer is `1` if and only if `IsBlockAt` reports the world
cell `(cx*16 + i - 1, cy*16 + j - 1, cz*16 + k - 1)` occupied (at every float point of
that cell in the working range of `IsBlockAt`), and `0` otherwise. Hence the cell is `1`
exactly when the chunk holding that world cell (the chunk itself for the interior cells
`1..16`, a neighbouring chunk for the border layers `0` and `17`) is in the store and
its voxel there is non-zero; the interior reproduces the chunk's own voxels, and a
cell whose chunk is absent from the store is `0`. -/
theorem BuildChunkMesh_padded_buffer (chunks : ChunkStore) (cx cy cz : Int)
    (hcx : -524287 ≤ cx ∧ cx ≤ 524287) (hcy : -524287 ≤ cy ∧ cy ≤ 524287)
    (hcz : -524287 ≤ cz ∧ cz ≤ 524287) :
    (∀ chunk : Chunk, chunks.find ⟨cx, cy, cz⟩ = some chunk →
      BuildChunkMesh machine chunks cx cy cz =
        some (GenerateMesh (neighborData machine chunks cx cy cz))) ∧
    (∀ i j k : Int, (0 ≤ i ∧ i ≤ 17) → (0 ≤ j ∧ j ≤ 17) → (0 ≤ k ∧ k ≤ 17) →
      (∀ wx wy wz : ℚ, InQueryRange wx → InQueryRange wy → InQueryRange wz →
        Int.floor wx = cx * 16 + i - 1 → Int.floor wy = cy * 16 + j - 1 →
        Int.floor wz = cz * 16 + k - 1 →
        (neighborData machine chunks cx cy cz i j k = 1 ↔
          IsBlockAt machine chunks wx wy wz = true) ∧
        (neighborData machine chunks cx cy cz i j k = 0 ↔
          IsBlockAt machine chunks wx wy wz = false)) ∧
      (neighborData machine chunks cx cy cz i j k = 1 ↔
        ∃ chunk : Chunk,
          chunks.find ⟨cx + (i - 1) / 16, cy + (j - 1) / 16, cz + (k - 1) / 16⟩ = some chunk ∧
          chunk.voxels ((i - 1) % 16) ((j - 1) % 16) ((k - 1) % 16) ≠ 0) ∧
      (chunks.find ⟨cx + (i - 1) / 16, cy + (j - 1) / 16, cz + (k - 1) / 16⟩ = none →
        neighborData machine chunks cx cy cz i j k = 0)) ∧
    (∀ chunk : Chunk, chunks.find ⟨cx, cy, cz⟩ = some chunk →
      ∀ i j k : Int, (1 ≤ i ∧ i ≤ 16) → (1 ≤ j ∧ j ≤ 16) → (1 ≤ k ∧ k ≤ 16) →
        (neighborData machine chunks cx cy cz i j k = 1 ↔
          chunk.voxels (i - 1) (j - 1) (k - 1) ≠ 0) ∧
        (neighborData machine chunks cx cy cz i j k = 0 ↔
          chunk.voxels (i - 1) (j - 1) (k - 1) = 0)) := by
  refine ⟨?_, ?_, ?_⟩
  · intro chunk hf
    unfold BuildChunkMesh
    rw [hf]
  · intro i j k hi hj hk
    rw [neighborData_eq machine chunks cx cy cz i j k hi hj hk,
      neighborSample_machine chunks cx cy cz i j k hcx hcy hcz hi hj hk]
    refine ⟨?_, ?_, ?_⟩
    · intro wx wy wz qx qy qz fx fy fz
      rw [IsBlockAt_machine_cell chunks wx wy wz qx qy qz, fx, fy, fz]
      cases cellSolid chunks (cx * 16 + i - 1) (cy * 16 + j - 1) (cz * 16 + k - 1) <;> simp
    · rw [cellSolid_offset]
      cases chunks.find ⟨cx + (i - 1) / 16, cy + (j - 1) / 16, cz + (k - 1) / 16⟩ with
      | none => simp
      | some chunk => simp
    · intro hnone
      rw [cellSolid_offset, hnone]
      simp
  · intro chunk hf i j k hi hj hk
    rw [neighborData_eq machine chunks cx cy cz i j k (by omega) (by omega) (by omega),
      neighborSample_machine chunks cx cy cz i j k hcx hcy hcz (by omega) (by omega) (by omega),
      cellSolid_offset]
    have e1 : (i - 1) / 16 = 0 := by omega
    have e2 : (j - 1) / 16 = 0 := by omega
    have e3 : (k - 1) / 16 = 0 := by omega
    have f1 : (i - 1) % 16 = i - 1 := by omega
    have f2 : (j - 1) % 16 = j - 1 := by omega
    have f3 : (k - 1) % 16 = k - 1 := by omega
    rw [e1, e2, e3, f1, f2, f3, add_zero, add_zero, add_zero, hf]
    by_cases hv : chunk.voxels (i - 1) (j - 1) (k - 1) = 0
    · simp [hv]
    · simp [hv]

/-- Witness for C11: in `cornerStore`, whose chunk `(0, 0, 0)` has the single solid
voxel `(1, 1, 0)`, the padded buffer of that chunk holds `1` at `[2][2][1]`, the cell
of the world cell `(1, 1, 0)` that `IsBlockAt` reports occupied at its centre, and
`0` at `[1][1][1]`. -/
theorem BuildChunkMesh_padded_buffer_witness :
    BuildChunkMesh machine cornerStore 0 0 0 =
      some (GenerateMesh (neighborData machine cornerStore 0 0 0)) ∧
    neighborData machine cornerStore 0 0 0 2 2 1 = 1 ∧
    neighborData machine cornerStore 0 0 0 1 1 1 = 0 :=
  ⟨(BuildChunkMesh_padded_buffer cornerStore 0 0 0 (by decide) (by decide) (by decide)).1
      ⟨fun lx ly lz => if lx = 1 ∧ ly = 1 ∧ lz = 0 then 1 else 0⟩ rfl,
   (((BuildChunkMesh_padded_buffer cornerStore 0 0 0 (by decide) (by decide) (by decide)).2.1
      2 2 1 (by decide) (by decide) (by decide)).1 (3 / 2) (3 / 2) (1 / 2)
      (by decide!) (by decide!) (by decide!) (by decide!) (by decide!) (by decide!)).1.2
      (by decide!),
   ((BuildChunkMesh_padded_buffer cornerStore 0 0 0 (by decide) (by decide) (by decide)).2.2
      ⟨fun lx ly lz => if lx = 1 ∧ ly = 1 ∧ lz = 0 then 1 else 0⟩ rfl
      1 1 1 (by decide) (by decide) (by decide)).2.2 (by decide)⟩

/-- Counterexample for C11: the store `farChunkStore` holds the chunk
`(524288, 0, 0)`, whose voxel `(1, 0, 0)` is solid, so that `IsBlockAt` reports the
world cell `(524288*16 + 1, 0, 0) = (8388609, 0, 0)` occupied at the only float of
that cell. The loop value `x = 1` of `BuildChunkMesh` queries
`(float)8388609 + 0.5f = 8388610`, a point of the next cell, which is empty, and the
buffer cell `[2][1][1]` is `0`: the interior of the buffer does not reproduce the
chunk's voxels. -/
theorem BuildChunkMesh_far_chunk_sample :
    farChunkStore.find ⟨524288, 0, 0⟩ =
      some ⟨fun lx ly lz => if lx = 1 ∧ ly = 0 ∧ lz = 0 then 1 else 0⟩ ∧
    BuildChunkMesh machine farChunkStore 524288 0 0 =
      some (GenerateMesh (neighborData machine farChunkStore 524288 0 0)) ∧
    (InQueryRange 8388609 ∧ Int.floor (8388609 : ℚ) = 524288 * 16 + 2 - 1 ∧
      IsBlockAt machine farChunkStore 8388609 (1 / 2) (1 / 2) = true) ∧
    sampleCoord machine 524288 1 = 8388610 ∧
    neighborData machine farChunkStore 524288 0 0 2 1 1 = 0 := by
  refine ⟨find_singleCellStore_self _ _ _ _, ?_, ⟨by decide!, by decide!, by decide!⟩,
    by decide!, ?_⟩
  · unfold BuildChunkMesh farChunkStore
    rw [find_singleCellStore_self]
  · rw [neighborData_eq machine farChunkStore 524288 0 0 2 1 1 (by decide) (by decide)
      (by decide)]
    have h : neighborSample machine farChunkStore 524288 0 0 (2 - 1, 1 - 1, 1 - 1) = false := by
      decide!
    rw [h]
    rfl

/-- The occlusion computed by `GenerateMesh` is the expression of line 104 applied to
the three sampled neighbours. -/
theorem vertexAO_eq (voxels : PaddedBuffer) (f : Nat) (nx ny nz : Int) (v : Nat) :
    vertexAO voxels f nx ny nz v =
      occlusionLevel (aoSide1 voxels f nx ny nz v) (aoSide2 voxels f nx ny nz v)
        (aoCorner voxels f nx ny nz v) := rfl

/-- The occlusion computed for a quad vertex lies in `0..3`. -/
theorem vertexAO_range (voxels : PaddedBuffer) (f : Nat) (nx ny nz : Int) (v : Nat) :
    0 ≤ vertexAO voxels f nx ny nz v ∧ vertexAO voxels f nx ny nz v ≤ 3 := by
  rw [vertexAO_eq]
  cases aoSide1 voxels f nx ny nz v <;> cases aoSide2 voxels f nx ny nz v <;>
    cases aoCorner voxels f nx ny nz v <;> simp [occlusionLevel]

/-- C12: the occlusion level that `GenerateMesh` computes for a quad vertex from the
occupancy of its two side neighbours and its corner neighbour is `3` when both side
neighbours are solid, whatever the corner neighbour; otherwise it is the number of
solid cells among the three; it always lies in `0..3`. -/
theorem vertexAO_occlusion_rule (voxels : PaddedBuffer) (f : Nat) (nx ny nz : Int) (v : Nat) :
    (aoSide1 voxels f nx ny nz v = true → aoSide2 voxels f nx ny nz v = true →
      vertexAO voxels f nx ny nz v = 3) ∧
    (¬ (aoSide1 voxels f nx ny nz v = true ∧ aoSide2 voxels f nx ny nz v = true) →
      vertexAO voxels f nx ny nz v =
        ([aoSide1 voxels f nx ny nz v, aoSide2 voxels f nx ny nz v,
          aoCorner voxels f nx ny nz v].count true : Nat)) ∧
    (0 ≤ vertexAO voxels f nx ny nz v ∧ vertexAO voxels f nx ny nz v ≤ 3) := by
  rw [vertexAO_eq]
  cases aoSide1 voxels f nx ny nz v <;> cases aoSide2 voxels f nx ny nz v <;>
    cases aoCorner voxels f nx ny nz v <;> simp [occlusionLevel]

/-- Witness for C12: on the top face (`f = 0`) of the cell `(1, 1, 1)` of
`shadedVoxelBuffer` the corner `1` has exactly one solid neighbour (a side), so its
occlusion is the count `1`; the buffer that is solid everywhere has both sides solid. -/
theorem vertexAO_occlusion_rule_witness :
    vertexAO (fun _ _ _ => 1) 0 1 2 1 1 = 3 ∧
    vertexAO shadedVoxelBuffer 0 1 2 1 1 =
      ([aoSide1 shadedVoxelBuffer 0 1 2 1 1, aoSide2 shadedVoxelBuffer 0 1 2 1 1,
        aoCorner shadedVoxelBuffer 0 1 2 1 1].count true : Nat) :=
  ⟨(vertexAO_occlusion_rule (fun _ _ _ => 1) 0 1 2 1 1).1 (by decide!) (by decide!),
   (vertexAO_occlusion_rule shadedVoxelBuffer 0 1 2 1 1).2.1 (by decide!)⟩

theorem occlusionLevel_mono (s1 s2 c t1 t2 d : Bool) (h1 : s1 = true → t1 = true)
    (h2 : s2 = true → t2 = true) (h3 : c = true → d = true) :
    occlusionLevel s1 s2 c ≤ occlusionLevel t1 t2 d := by
  cases s1 <;> cases s2 <;> cases c <;> cases t1 <;> cases t2 <;> cases d <;>
    simp [occlusionLevel] at h1 h2 h3 ⊢

theorem brightnessOf_eq (ao : Int) (h : 0 ≤ ao ∧ ao ≤ 3) :
    (brightnessOf ao : Int) = 255 - ao * 50 := by
  unfold brightnessOf toUChar
  obtain ⟨h0, h3⟩ := h
  interval_cases ao <;> rfl

/-- C13: for a fixed quad vertex and two occupancy assignments of which the second
turns empty cells among its side and corner neighbours solid (every neighbour solid
in the first is solid in the second), the occlusion of the second is at least that of
the first, and the brightness, which is the 8-bit value `255 - occlusion*50` without
wrap-around and is written to R, G and B followed by alpha `255`, is at most that of
the first. -/
theorem vertexAO_monotone (voxels voxels' : PaddedBuffer) (f : Nat) (nx ny nz : Int) (v : Nat)
    (h1 : aoSide1 voxels f nx ny nz v = true → aoSide1 voxels' f nx ny nz v = true)
    (h2 : aoSide2 voxels f nx ny nz v = true → aoSide2 voxels' f nx ny nz v = true)
    (h3 : aoCorner voxels f nx ny nz v = true → aoCorner voxels' f nx ny nz v = true) :
    vertexAO voxels f nx ny nz v ≤ vertexAO voxels' f nx ny nz v ∧
    brightnessOf (vertexAO voxels' f nx ny nz v) ≤ brightnessOf (vertexAO voxels f nx ny nz v) ∧
    (brightnessOf (vertexAO voxels f nx ny nz v) : Int) = 255 - vertexAO voxels f nx ny nz v * 50 ∧
    (brightnessOf (vertexAO voxels' f nx ny nz v) : Int) =
      255 - vertexAO voxels' f nx ny nz v * 50 ∧
    (∀ (x y z : Int) (b : MeshBuffers),
      (pushVertex voxels x y z f nx ny nz b v).colors =
        b.colors ++ [brightnessOf (vertexAO voxels f nx ny nz v),
          brightnessOf (vertexAO voxels f nx ny nz v),
          brightnessOf (vertexAO voxels f nx ny nz v), 255]) := by
  have hle : vertexAO voxels f nx ny nz v ≤ vertexAO voxels' f nx ny nz v := by
    rw [vertexAO_eq, vertexAO_eq]
    exact occlusionLevel_mono _ _ _ _ _ _ h1 h2 h3
  have e1 := brightnessOf_eq _ (vertexAO_range voxels f nx ny nz v)
  have e2 := brightnessOf_eq _ (vertexAO_range voxels' f nx ny nz v)
  refine ⟨hle, ?_, e1, e2, fun x y z b => rfl⟩
  have : (brightnessOf (vertexAO voxels' f nx ny nz v) : Int) ≤
      (brightnessOf (vertexAO voxels f nx ny nz v) : Int) := by
    rw [e1, e2]
    linarith
  exact_mod_cast this

/-- Witness for C13: `shadedVoxelBuffer` adds the solid cell `(1, 2, 2)` to
`singleVoxelBuffer`; at corner `1` of the top face of the cell `(1, 1, 1)` the
occlusion does not decrease and the brightness does not increase. -/
theorem vertexAO_monotone_witness :
    vertexAO singleVoxelBuffer 0 1 2 1 1 ≤ vertexAO shadedVoxelBuffer 0 1 2 1 1 ∧
    brightnessOf (vertexAO shadedVoxelBuffer 0 1 2 1 1) ≤
      brightnessOf (vertexAO singleVoxelBuffer 0 1 2 1 1) :=
  ⟨(vertexAO_monotone singleVoxelBuffer shadedVoxelBuffer 0 1 2 1 1 (by decide!) (by decide!)
      (by decide!)).1,
   (vertexAO_monotone singleVoxelBuffer shadedVoxelBuffer 0 1 2 1 1 (by decide!) (by decide!)
      (by decide!)).2.1⟩

/-- The comparison `operator<` is the lexicographic order on `(x, y, z)`. -/
theorem ChunkPos.lt_iff (a b : ChunkPos) :
    a.lt b = true ↔ a.x < b.x ∨ (a.x = b.x ∧ (a.y < b.y ∨ (a.y = b.y ∧ a.z < b.z))) := by
  unfold ChunkPos.lt
  by_cases hx : a.x = b.x
  · by_cases hy : a.y = b.y
    · simp [hx, hy]
    · simp [hx, hy]
  · simp [hx]

/-- C16: `ChunkPos::operator<` is the lexicographic order on `(x, y, z)` and a strict
total order: irreflexive, transitive, and for any two coordinates exactly one of
`a < b`, `b < a`, `a = b` (componentwise) holds; two coordinates are the same map key
(neither is less than the other) only when all three components are equal. -/
theorem ChunkPos_lt_strict_total_order :
    (∀ a b : ChunkPos,
      a.lt b = true ↔ a.x < b.x ∨ (a.x = b.x ∧ (a.y < b.y ∨ (a.y = b.y ∧ a.z < b.z)))) ∧
    (∀ a : ChunkPos, a.lt a = false) ∧
    (∀ a b c : ChunkPos, a.lt b = true → b.lt c = true → a.lt c = true) ∧
    (∀ a b : ChunkPos,
      (a.lt b = true ∧ b.lt a = false ∧ ¬ (a.x = b.x ∧ a.y = b.y ∧ a.z = b.z)) ∨
      (a.lt b = false ∧ b.lt a = true ∧ ¬ (a.x = b.x ∧ a.y = b.y ∧ a.z = b.z)) ∨
      (a.lt b = false ∧ b.lt a = false ∧ (a.x = b.x ∧ a.y = b.y ∧ a.z = b.z))) ∧
    (∀ a b : ChunkPos,
      (a.lt b = false ∧ b.lt a = false) ↔ (a.x = b.x ∧ a.y = b.y ∧ a.z = b.z)) := by
  have hf : ∀ a b : ChunkPos, a.lt b = false ↔
      ¬ (a.x < b.x ∨ (a.x = b.x ∧ (a.y < b.y ∨ (a.y = b.y ∧ a.z < b.z)))) := by
    intro a b
    rw [← ChunkPos.lt_iff]
    simp
  refine ⟨ChunkPos.lt_iff, ?_, ?_, ?_, ?_⟩
  · intro a
    rw [hf]
    omega
  · intro a b c
    rw [ChunkPos.lt_iff, ChunkPos.lt_iff, ChunkPos.lt_iff]
    omega
  · intro a b
    rw [hf, hf, ChunkPos.lt_iff, ChunkPos.lt_iff]
    omega
  · intro a b
    rw [hf, hf]
    omega

/-- Witness for C16: `(0, 0, 0) < (0, 0, 1) < (0, 1, 0)` gives `(0, 0, 0) < (0, 1, 0)`. -/
theorem ChunkPos_lt_strict_total_order_witness :
    ChunkPos.lt ⟨0, 0, 0⟩ ⟨0, 1, 0⟩ = true :=
  ChunkPos_lt_strict_total_order.2.2.1 ⟨0, 0, 0⟩ ⟨0, 0, 1⟩ ⟨0, 1, 0⟩ (by decide) (by decide)

theorem indexRun_append (voxels : PaddedBuffer) (fs gs : List Face) :
    ∀ base : Int, indexRun voxels base (fs ++ gs) =
      indexRun voxels base fs ++ indexRun voxels (base + 4 * (fs.length : Int)) gs := by
  induction fs with
  | nil => intro base; simp [indexRun]
  | cons p ps ih =>
    intro base
    have e : base + 4 + 4 * (ps.length : Int) = base + 4 * (((p :: ps).length : Nat) : Int) := by
      rw [List.length_cons]
      push_cast
      ring
    show quadIndices voxels base p ++ indexRun voxels (base + 4) (ps ++ gs) =
      (quadIndices voxels base p ++ indexRun voxels (base + 4) ps) ++
        indexRun voxels (base + 4 * (((p :: ps).length : Nat) : Int)) gs
    rw [ih, e, List.append_assoc]

theorem emittedAttr_empty (voxels : PaddedBuffer) : EmittedAttr voxels [] MeshBuffers.empty := by
  simp [EmittedAttr, MeshBuffers.empty, indexRun]

theorem faceStep_emittedAttr (voxels : PaddedBuffer) (x y z : Int) (f : Nat) (fs : List Face)
    (b : MeshBuffers) (h : EmittedAttr voxels fs b) :
    EmittedAttr voxels
      (fs ++ (if getV voxels (x + toInt (faceCheck f).x) (y + toInt (faceCheck f).y)
        (z + toInt (faceCheck f).z) then [] else [(x, y, z, f)])) (faceStep voxels x y z b f) := by
  obtain ⟨h1, h2, h3, h4⟩ := h
  unfold faceStep
  by_cases hg : getV voxels (x + toInt (faceCheck f).x) (y + toInt (faceCheck f).y)
      (z + toInt (faceCheck f).z) = true
  · simp [hg, EmittedAttr, h1, h2, h3, h4]
  · simp only [hg, if_false, Bool.false_eq_true]
    refine ⟨?_, ?_, ?_, ?_⟩
    · rw [indexRun_append]
      simp only [pushIndices, pushVertex, range_four, List.foldl_cons, List.foldl_nil, h1, h4,
        indexRun, quadIndices, quadTriangles, faceDir, List.append_nil, zero_add]
      split <;> simp
    · simp [pushIndices, pushVertex, range_four, h2, quadColors, faceDir, brightnessOf]
    · simp [pushIndices, pushVertex, range_four, h3, quadTexcoords]
    · simp [pushIndices, pushVertex, range_four, h4]
      ring

theorem cellStep_emittedAttr (voxels : PaddedBuffer) (x y z : Int) (fs : List Face)
    (b : MeshBuffers) (h : EmittedAttr voxels fs b) :
    EmittedAttr voxels (fs ++ cellFaces voxels x y z) (cellStep voxels x y b z) := by
  unfold cellStep cellFaces
  by_cases hv : voxels x y z = 0
  · simpa [hv] using h
  · simp only [hv, if_false]
    exact foldl_trace (EmittedAttr voxels) (faceStep voxels x y z) _
      (fun fs b f hb => faceStep_emittedAttr voxels x y z f fs b hb) _ fs b h

theorem meshLoops_emittedAttr (voxels : PaddedBuffer) :
    EmittedAttr voxels (visibleFaces voxels) (meshLoops voxels) := by
  have h := foldl_trace (EmittedAttr voxels)
    (fun b x => interiorRange.foldl (fun b y =>
      interiorRange.foldl (cellStep voxels x y) b) b)
    (fun x => interiorRange.flatMap fun y =>
      interiorRange.flatMap fun z => cellFaces voxels x y z)
    (fun fs b x hb => foldl_trace (EmittedAttr voxels)
      (fun b y => interiorRange.foldl (cellStep voxels x y) b)
      (fun y => interiorRange.flatMap fun z => cellFaces voxels x y z)
      (fun fs b y hb => foldl_trace (EmittedAttr voxels) (cellStep voxels x y)
        (fun z => cellFaces voxels x y z)
        (fun fs b z hb => cellStep_emittedAttr voxels x y z fs b hb) interiorRange fs b hb)
      interiorRange fs b hb)
    interiorRange [] MeshBuffers.empty (emittedAttr_empty voxels)
  rw [List.nil_append] at h
  exact h

/-- The index, colour and texture-coordinate buffers of the returned mesh in terms
of the emitted faces. -/
theorem GenerateMesh_attr (voxels : PaddedBuffer) :
    (GenerateMesh voxels).indices = indexRun voxels 0 (visibleFaces voxels) ∧
    (GenerateMesh voxels).colors = (visibleFaces voxels).flatMap (quadColors voxels) ∧
    (GenerateMesh voxels).texcoords = (visibleFaces voxels).flatMap (fun _ => quadTexcoords) := by
  obtain ⟨h1, h2, h3, h4⟩ := meshLoops_emittedAttr voxels
  unfold GenerateMesh
  by_cases hc : (meshLoops voxels).vertexCount > 0
  · simp only [hc, if_true]
    exact ⟨h1, h2, h3⟩
  · simp only [hc, if_false]
    have hl : (visibleFaces voxels).length = 0 := by omega
    have hnil : visibleFaces voxels = [] := List.length_eq_zero.mp hl
    simp [hnil, indexRun]

theorem faceSlot_injOn (voxels : PaddedBuffer) :
    Set.InjOn faceSlot (exposedFaces voxels : Set Face) := by
  rintro ⟨x, y, z, f⟩ hp ⟨x', y', z', f'⟩ hq heq
  rw [Finset.mem_coe, mem_exposedFaces] at hp hq
  obtain ⟨⟨-, -, -, hf⟩, hs, hn⟩ := hp
  obtain ⟨⟨-, -, -, hf'⟩, hs', hn'⟩ := hq
  have ht := faceDir_table f hf
  have ht' := faceDir_table f' hf'
  simp only [faceSlot, Prod.mk.injEq] at heq
  obtain ⟨hax, hc⟩ := heq
  interval_cases f <;> interval_cases f' <;> simp at hax <;>
    simp [ht, ht'] at hc hn hn' <;>
    first
      | (obtain ⟨rfl, rfl, rfl⟩ := hc; rfl)
      | (obtain ⟨rfl, rfl, rfl⟩ := hc; exact absurd hn hs')
      | (obtain ⟨rfl, rfl, rfl⟩ := hc; exact absurd hn' hs)

/-- At most `3 * 17^3 = 14739` faces are exposed: an exposed face is determined by
the slot between two neighbouring cells it lies in, since of the two cells one is
solid and the other empty. -/
theorem exposedFaces_card_le (voxels : PaddedBuffer) : (exposedFaces voxels).card ≤ 14739 := by
  have hmaps : ∀ p ∈ exposedFaces voxels, faceSlot p ∈
      Finset.range 3 ×ˢ Finset.Icc (0 : Int) 16 ×ˢ Finset.Icc (0 : Int) 16 ×ˢ
        Finset.Icc (0 : Int) 16 := by
    rintro ⟨x, y, z, f⟩ hp
    rw [mem_exposedFaces] at hp
    obtain ⟨⟨hx, hy, hz, hf⟩, -, -⟩ := hp
    have ht := faceDir_table f hf
    simp only [faceSlot, Finset.mem_product, Finset.mem_range, Finset.mem_Icc]
    interval_cases f <;> simp [ht] <;> omega
  have h := Finset.card_le_card_of_injOn faceSlot hmaps (faceSlot_injOn voxels)
  have hc : (Finset.range 3 ×ˢ Finset.Icc (0 : Int) 16 ×ˢ Finset.Icc (0 : Int) 16 ×ˢ
      Finset.Icc (0 : Int) 16).card = 14739 := by
    simp [Finset.card_product]
  omega

theorem visibleFaces_length_le (voxels : PaddedBuffer) :
    (visibleFaces voxels).length ≤ 14739 := by
  rw [visibleFaces_length]
  exact exposedFaces_card_le voxels

theorem quadTriangles_le (voxels : PaddedBuffer) (p : Face) :
    ∀ k ∈ quadTriangles voxels p, k ≤ 3 := by
  intro k hk
  unfold quadTriangles at hk
  simp only at hk
  split at hk <;> simp at hk <;> omega

theorem quadTriangles_length (voxels : PaddedBuffer) (p : Face) :
    (quadTriangles voxels p).length = 6 := by
  unfold quadTriangles
  simp only
  split <;> rfl

theorem toUShort_of_lt (n : Nat) (h : n < 65536) : toUShort (n : Int) = n := by
  unfold toUShort
  omega

/-- While `vertexCount` stays below `2^16` the stored index values are the exact
values `4j + k`. -/
theorem indexRun_eq_enumFrom (voxels : PaddedBuffer) (fs : List Face) :
    ∀ s : Nat, 4 * (s + fs.length) ≤ 65536 →
      indexRun voxels (4 * (s : Int)) fs =
        (fs.enumFrom s).flatMap fun jp => (quadTriangles voxels jp.2).map fun k => 4 * jp.1 + k := by
  induction fs with
  | nil => intro s _; rfl
  | cons p ps ih =>
    intro s hs
    rw [List.length_cons] at hs
    have e : (4 * (s : Int) + 4) = 4 * ((s + 1 : Nat) : Int) := by
      push_cast
      ring
    rw [indexRun, e, ih (s + 1) (by omega), List.enumFrom_cons, List.flatMap_cons]
    congr 1
    unfold quadIndices
    apply List.map_congr_left
    intro k hk
    have hk3 := quadTriangles_le voxels p k hk
    have : (4 * (s : Int) + (k : Int)) = ((4 * s + k : Nat) : Int) := by
      push_cast
      ring
    rw [this, toUShort_of_lt _ (by omega)]

/-- The index buffer of the returned mesh holds the exact values `4j + k`. -/
theorem GenerateMesh_indices_exact (voxels : PaddedBuffer) :
    (GenerateMesh voxels).indices = exactIndices voxels (visibleFaces voxels) := by
  rw [(GenerateMesh_attr voxels).1]
  have h := indexRun_eq_enumFrom voxels (visibleFaces voxels) 0
    (by have := visibleFaces_length_le voxels; omega)
  simpa [exactIndices, List.enum] using h

theorem length_flatMap_const {α β : Type} (g : α → List β) (n : Nat)
    (hg : ∀ a, (g a).length = n) (l : List α) : (l.flatMap g).length = n * l.length := by
  induction l with
  | nil => simp
  | cons a l ih =>
    rw [List.flatMap_cons, List.length_append, ih, hg, List.length_cons]
    ring

theorem exactIndices_length (voxels : PaddedBuffer) (fs : List Face) :
    (exactIndices voxels fs).length = 6 * fs.length := by
  unfold exactIndices
  rw [length_flatMap_const _ 6 (fun jp => by
    rw [List.length_map, quadTriangles_length]), List.enum_length]

/-- The six indices appended for one emitted face, `vertexCount` being that of the
buffers before the face. -/
theorem faceStep_indices (voxels : PaddedBuffer) (x y z : Int) (f : Nat) (b : MeshBuffers)
    (hg : getV voxels (x + (faceDir f).1) (y + (faceDir f).2.1) (z + (faceDir f).2.2) = false) :
    (faceStep voxels x y z b f).indices =
      b.indices ++
        (if vertexAO voxels f (x + (faceDir f).1) (y + (faceDir f).2.1) (z + (faceDir f).2.2) 0 +
            vertexAO voxels f (x + (faceDir f).1) (y + (faceDir f).2.1) (z + (faceDir f).2.2) 3 >
            vertexAO voxels f (x + (faceDir f).1) (y + (faceDir f).2.1) (z + (faceDir f).2.2) 1 +
            vertexAO voxels f (x + (faceDir f).1) (y + (faceDir f).2.1) (z + (faceDir f).2.2) 2
          then
            [toUShort (b.vertexCount + 0), toUShort (b.vertexCount + 1),
             toUShort (b.vertexCount + 2), toUShort (b.vertexCount + 2),
             toUShort (b.vertexCount + 1), toUShort (b.vertexCount + 3)]
          else
            [toUShort (b.vertexCount + 0), toUShort (b.vertexCount + 1),
             toUShort (b.vertexCount + 3), toUShort (b.vertexCount + 0),
             toUShort (b.vertexCount + 3), toUShort (b.vertexCount + 2)]) ∧
    (faceStep voxels x y z b f).vertexCount = b.vertexCount + 4 := by
  unfold faceDir at hg
  simp only at hg
  unfold faceStep
  simp only [hg, Bool.false_eq_true, if_false, pushIndices, pushVertex, range_four,
    List.foldl_cons, List.foldl_nil, faceDir, and_self]

/-- C14: for every emitted quad, `vertexCount` being `b` before it and its corner
occlusions `ao0..ao3`, the six indices appended by `GenerateMesh` are
`(b+0, b+1, b+2, b+2, b+1, b+3)` when `ao0 + ao3 > ao1 + ao2` and
`(b+0, b+1, b+3, b+0, b+3, b+2)` otherwise (ties included); in the returned mesh the
`j`-th quad holds these patterns with `b = 4j`. The choice depends on that comparison
alone: the two triangles share the corners 1 and 2 in the first case and the corners
0 and 3 in the second, each a pair of opposite corners of the face, and the shared
pair is the one whose summed occlusion is not the greater one. -/
theorem GenerateMesh_triangulation (voxels : PaddedBuffer) :
    (∀ (x y z : Int) (f : Nat) (b : MeshBuffers),
      getV voxels (x + (faceDir f).1) (y + (faceDir f).2.1) (z + (faceDir f).2.2) = false →
      (faceStep voxels x y z b f).indices =
        b.indices ++
          (if vertexAO voxels f (x + (faceDir f).1) (y + (faceDir f).2.1) (z + (faceDir f).2.2) 0 +
              vertexAO voxels f (x + (faceDir f).1) (y + (faceDir f).2.1) (z + (faceDir f).2.2) 3 >
              vertexAO voxels f (x + (faceDir f).1) (y + (faceDir f).2.1) (z + (faceDir f).2.2) 1 +
              vertexAO voxels f (x + (faceDir f).1) (y + (faceDir f).2.1) (z + (faceDir f).2.2) 2
            then
              [toUShort (b.vertexCount + 0), toUShort (b.vertexCount + 1),
               toUShort (b.vertexCount + 2), toUShort (b.vertexCount + 2),
               toUShort (b.vertexCount + 1), toUShort (b.vertexCount + 3)]
            else
              [toUShort (b.vertexCount + 0), toUShort (b.vertexCount + 1),
               toUShort (b.vertexCount + 3), toUShort (b.vertexCount + 0),
               toUShort (b.vertexCount + 3), toUShort (b.vertexCount + 2)])) ∧
    (GenerateMesh voxels).vertices = (visibleFaces voxels).flatMap quadVertices ∧
    (GenerateMesh voxels).indices =
      (visibleFaces voxels).enum.flatMap (fun jp =>
        (quadTriangles voxels jp.2).map fun (k : Nat) => 4 * jp.1 + k) ∧
    (∀ p : Face,
      (quadTriangles voxels p = [0, 1, 2, 2, 1, 3] ∧
        vertexAO voxels p.2.2.2 (p.1 + (faceDir p.2.2.2).1) (p.2.1 + (faceDir p.2.2.2).2.1)
            (p.2.2.1 + (faceDir p.2.2.2).2.2) 1 +
          vertexAO voxels p.2.2.2 (p.1 + (faceDir p.2.2.2).1) (p.2.1 + (faceDir p.2.2.2).2.1)
            (p.2.2.1 + (faceDir p.2.2.2).2.2) 2 <
        vertexAO voxels p.2.2.2 (p.1 + (faceDir p.2.2.2).1) (p.2.1 + (faceDir p.2.2.2).2.1)
            (p.2.2.1 + (faceDir p.2.2.2).2.2) 0 +
          vertexAO voxels p.2.2.2 (p.1 + (faceDir p.2.2.2).1) (p.2.1 + (faceDir p.2.2.2).2.1)
            (p.2.2.1 + (faceDir p.2.2.2).2.2) 3) ∨
      (quadTriangles voxels p = [0, 1, 3, 0, 3, 2] ∧
        vertexAO voxels p.2.2.2 (p.1 + (faceDir p.2.2.2).1) (p.2.1 + (faceDir p.2.2.2).2.1)
            (p.2.2.1 + (faceDir p.2.2.2).2.2) 0 +
          vertexAO voxels p.2.2.2 (p.1 + (faceDir p.2.2.2).1) (p.2.1 + (faceDir p.2.2.2).2.1)
            (p.2.2.1 + (faceDir p.2.2.2).2.2) 3 ≤
        vertexAO voxels p.2.2.2 (p.1 + (faceDir p.2.2.2).1) (p.2.1 + (faceDir p.2.2.2).2.1)
            (p.2.2.1 + (faceDir p.2.2.2).2.2) 1 +
          vertexAO voxels p.2.2.2 (p.1 + (faceDir p.2.2.2).1) (p.2.1 + (faceDir p.2.2.2).2.1)
            (p.2.2.1 + (faceDir p.2.2.2).2.2) 2)) ∧
    (∀ f, f < 6 → differingAxes (faceVertex f 0) (faceVertex f 3) = 2 ∧
      differingAxes (faceVertex f 1) (faceVertex f 2) = 2) := by
  refine ⟨fun x y z f b hg => (faceStep_indices voxels x y z f b hg).1,
    (GenerateMesh_of_visibleFaces voxels).1, GenerateMesh_indices_exact voxels, ?_, by decide!⟩
  intro p
  unfold quadTriangles
  simp only
  split
  · rename_i h
    exact Or.inl ⟨rfl, h⟩
  · rename_i h
    exact Or.inr ⟨rfl, not_lt.mp h⟩

/-- Witness for C14: the top face of the cell `(1, 1, 1)` of `singleVoxelBuffer` is
emitted (its adjacent cell `(1, 2, 1)` is empty); all four occlusions are `0`, a tie,
so the indices appended to the empty buffers are `(0, 1, 3, 0, 3, 2)`. -/
theorem GenerateMesh_triangulation_witness :
    (faceStep singleVoxelBuffer 1 1 1 MeshBuffers.empty 0).indices = [0, 1, 3, 0, 3, 2] := by
  have h := (GenerateMesh_triangulation singleVoxelBuffer).1 1 1 1 0 MeshBuffers.empty
    (by decide!)
  rw [h]
  decide!

theorem quadVertices_length (p : Face) : (quadVertices p).length = 12 := by
  simp [quadVertices, range_four]

theorem quadNormals_length (p : Face) : (quadNormals p).length = 12 := by
  simp [quadNormals, range_four]

theorem quadColors_length (voxels : PaddedBuffer) (p : Face) :
    (quadColors voxels p).length = 16 := by
  simp [quadColors, range_four]

theorem quadTexcoords_length : quadTexcoords.length = 8 := by
  simp [quadTexcoords, range_four]

/-- A buffer without solid interior cell has no emitted face. -/
theorem visibleFaces_of_empty (voxels : PaddedBuffer)
    (h : ∀ x y z : Int, (1 ≤ x ∧ x ≤ 16) → (1 ≤ y ∧ y ≤ 16) → (1 ≤ z ∧ z ≤ 16) →
      voxels x y z = 0) : visibleFaces voxels = [] := by
  rw [List.eq_nil_iff_forall_not_mem]
  rintro ⟨x, y, z, f⟩ hm
  rw [mem_visibleFaces] at hm
  exact hm.2.1 (h x y z hm.1.1 hm.1.2.1 hm.1.2.2.1)

/-- C15: if `GenerateMesh` emits `q` quads, its output buffers are parallel: `12q`
position floats, `12q` normal floats, `8q` texture-coordinate floats, `16q` colour
bytes and `6q` indices, with `vertexCount = 4q` and `triangleCount = 2q`; the `k`-th
emitted quad (from 0) contributes the six indices `4k + c` with corner numbers
`c ≤ 3`, so it uses only the vertex indices `4k..4k+3`; when `q = 0`, in particular
when no interior cell is solid, the mesh has `vertexCount` 0, `triangleCount` 0 and
no vertex or index data. -/
theorem GenerateMesh_parallel_buffers (voxels : PaddedBuffer) :
    ∃ faces : List Face,
      (GenerateMesh voxels).vertices = faces.flatMap quadVertices ∧
      (GenerateMesh voxels).vertices.length = 12 * faces.length ∧
      (GenerateMesh voxels).normals.length = 12 * faces.length ∧
      (GenerateMesh voxels).texcoords.length = 8 * faces.length ∧
      (GenerateMesh voxels).colors.length = 16 * faces.length ∧
      (GenerateMesh voxels).indices.length = 6 * faces.length ∧
      (GenerateMesh voxels).vertexCount = 4 * (faces.length : Int) ∧
      (GenerateMesh voxels).triangleCount = 2 * (faces.length : Int) ∧
      (GenerateMesh voxels).indices =
        faces.enum.flatMap (fun jp =>
          (quadTriangles voxels jp.2).map fun (k : Nat) => 4 * jp.1 + k) ∧
      (∀ p : Face, ∀ c ∈ quadTriangles voxels p, c ≤ 3) ∧
      (faces.length = 0 →
        (GenerateMesh voxels).vertexCount = 0 ∧ (GenerateMesh voxels).triangleCount = 0 ∧
        (GenerateMesh voxels).vertices = [] ∧ (GenerateMesh voxels).normals = [] ∧
        (GenerateMesh voxels).texcoords = [] ∧ (GenerateMesh voxels).colors = [] ∧
        (GenerateMesh voxels).indices = []) ∧
      ((∀ x y z : Int, (1 ≤ x ∧ x ≤ 16) → (1 ≤ y ∧ y ≤ 16) → (1 ≤ z ∧ z ≤ 16) →
          voxels x y z = 0) → faces.length = 0) := by
  obtain ⟨h1, h2, h3, h4⟩ := GenerateMesh_of_visibleFaces voxels
  obtain ⟨-, h6, h7⟩ := GenerateMesh_attr voxels
  have h5 := GenerateMesh_indices_exact voxels
  have l1 : (GenerateMesh voxels).vertices.length = 12 * (visibleFaces voxels).length := by
    rw [h1, length_flatMap_const _ 12 quadVertices_length]
  have l2 : (GenerateMesh voxels).normals.length = 12 * (visibleFaces voxels).length := by
    rw [h2, length_flatMap_const _ 12 quadNormals_length]
  have l3 : (GenerateMesh voxels).texcoords.length = 8 * (visibleFaces voxels).length := by
    rw [h7, length_flatMap_const _ 8 (fun _ => quadTexcoords_length)]
  have l4 : (GenerateMesh voxels).colors.length = 16 * (visibleFaces voxels).length := by
    rw [h6, length_flatMap_const _ 16 (quadColors_length voxels)]
  have l5 : (GenerateMesh voxels).indices.length = 6 * (visibleFaces voxels).length := by
    rw [h5, exactIndices_length]
  refine ⟨visibleFaces voxels, h1, l1, l2, l3, l4, l5, h3, h4, h5, quadTriangles_le voxels,
    ?_, ?_⟩
  · intro h0
    rw [h0] at l1 l2 l3 l4 l5 h3 h4
    exact ⟨by simpa using h3, by simpa using h4, List.length_eq_zero.mp l1,
      List.length_eq_zero.mp l2, List.length_eq_zero.mp l3, List.length_eq_zero.mp l4,
      List.length_eq_zero.mp l5⟩
  · intro hempty
    rw [visibleFaces_of_empty voxels hempty]
    rfl

/-- Witness for C15: the buffer without any solid cell yields the mesh with
`vertexCount` 0, `triangleCount` 0 and empty buffers. -/
theorem GenerateMesh_parallel_buffers_witness :
    (GenerateMesh (fun _ _ _ => 0)).vertexCount = 0 ∧
    (GenerateMesh (fun _ _ _ => 0)).triangleCount = 0 ∧
    (GenerateMesh (fun _ _ _ => 0)).vertices = [] ∧
    (GenerateMesh (fun _ _ _ => 0)).indices = [] := by
  obtain ⟨faces, -, -, -, -, -, -, h6, h7, -, -, h9, h10⟩ :=
    GenerateMesh_parallel_buffers (fun _ _ _ => 0)
  have h0 := h10 (fun _ _ _ _ _ _ => rfl)
  obtain ⟨a, b, c, -, -, -, d⟩ := h9 h0
  exact ⟨a, b, c, d⟩

/-- C18: for every padded buffer the number of vertices `GenerateMesh` emits is
below `65536` (at most `4 * 14739`), so for the `j`-th emitted quad every value
`vertexCount + k = 4j + k` (`k` in `0..3`) pushed into the index buffer is below
`2^16`, its conversion to `unsigned short` does not wrap, and the index buffer holds
exactly the values `4j + k`. -/
theorem GenerateMesh_indices_no_wrap (voxels : PaddedBuffer) :
    (GenerateMesh voxels).vertexCount < 65536 ∧
    (GenerateMesh voxels).vertexCount = 4 * ((visibleFaces voxels).length : Int) ∧
    (visibleFaces voxels).length ≤ 14739 ∧
    (∀ j k : Nat, j < (visibleFaces voxels).length → k ≤ 3 →
      4 * j + k < 65536 ∧ toUShort (4 * (j : Int) + (k : Int)) = 4 * j + k) ∧
    (GenerateMesh voxels).indices = indexRun voxels 0 (visibleFaces voxels) ∧
    (GenerateMesh voxels).indices =
      (visibleFaces voxels).enum.flatMap (fun jp =>
        (quadTriangles voxels jp.2).map fun (k : Nat) => 4 * jp.1 + k) := by
  have hle := visibleFaces_length_le voxels
  have hvc := (GenerateMesh_of_visibleFaces voxels).2.2.1
  refine ⟨by rw [hvc]; omega, hvc, hle, ?_, (GenerateMesh_attr voxels).1,
    GenerateMesh_indices_exact voxels⟩
  intro j k hj hk
  refine ⟨by omega, ?_⟩
  have : (4 * (j : Int) + (k : Int)) = ((4 * j + k : Nat) : Int) := by
    push_cast
    ring
  rw [this, toUShort_of_lt _ (by omega)]

/-- Witness for C18: for the first quad (`j = 0`) of `singleVoxelBuffer`, which emits
six quads, the value pushed for corner `3` is stored as `3`. -/
theorem GenerateMesh_indices_no_wrap_witness :
    toUShort (4 * ((0 : Nat) : Int) + ((3 : Nat) : Int)) = 4 * 0 + 3 :=
  ((GenerateMesh_indices_no_wrap singleVoxelBuffer).2.2.2.1 0 3 (by decide) (by decide)).2


/-! ### Completeness of the candidate enumeration, arithmetic taken exactly -/

theorem exact_rnd (q : ℚ) : exact.rnd q = q := rfl

theorem exact_toI (n : Int) : exact.toI n = n := rfl

theorem GetAbsoluteBoundingBox_add_get (pos mv : Vector3) (aabb : AABB) (i : Nat) :
    (GetAbsoluteBoundingBox exact (Vector3Add exact pos mv) aabb).min.get i =
      (GetAbsoluteBoundingBox exact pos aabb).min.get i + mv.get i ∧
    (GetAbsoluteBoundingBox exact (Vector3Add exact pos mv) aabb).max.get i =
      (GetAbsoluteBoundingBox exact pos aabb).max.get i + mv.get i := by
  simp only [GetAbsoluteBoundingBox, Vector3Add_get, exact_rnd]
  constructor <;> ring

/-- A solid cell whose unit box comes within `1/100` of the region swept by the body
(the union of its current and intended-next world box) on every axis is among the
candidates of the tick. -/
theorem mem_candidateBlocks_of_near (chunks : ChunkStore) (dt : ℚ) (state : KinematicState)
    (localAABB : AABB) (x y z : Int)
    (hb : IsBlockAt exact chunks (cellCentre exact x) (cellCentre exact y)
          (cellCentre exact z) = true)
    (hx : min (GetAbsoluteBoundingBox exact state.position localAABB).min.x
        (GetAbsoluteBoundingBox exact (Vector3Add exact state.position (Vector3Scale exact state.velocity dt))
          localAABB).min.x - 1 / 100 < (x : ℚ) + 1 ∧
      (x : ℚ) < max (GetAbsoluteBoundingBox exact state.position localAABB).max.x
        (GetAbsoluteBoundingBox exact (Vector3Add exact state.position (Vector3Scale exact state.velocity dt))
          localAABB).max.x + 1 / 100)
    (hy : min (GetAbsoluteBoundingBox exact state.position localAABB).min.y
        (GetAbsoluteBoundingBox exact (Vector3Add exact state.position (Vector3Scale exact state.velocity dt))
          localAABB).min.y - 1 / 100 < (y : ℚ) + 1 ∧
      (y : ℚ) < max (GetAbsoluteBoundingBox exact state.position localAABB).max.y
        (GetAbsoluteBoundingBox exact (Vector3Add exact state.position (Vector3Scale exact state.velocity dt))
          localAABB).max.y + 1 / 100)
    (hz : min (GetAbsoluteBoundingBox exact state.position localAABB).min.z
        (GetAbsoluteBoundingBox exact (Vector3Add exact state.position (Vector3Scale exact state.velocity dt))
          localAABB).min.z - 1 / 100 < (z : ℚ) + 1 ∧
      (z : ℚ) < max (GetAbsoluteBoundingBox exact state.position localAABB).max.z
        (GetAbsoluteBoundingBox exact (Vector3Add exact state.position (Vector3Scale exact state.velocity dt))
          localAABB).max.z + 1 / 100) :
    blockAABB exact x y z ∈ candidateBlocks exact chunks dt state localAABB := by
  unfold candidateBlocks
  rw [mem_collectBlocks]
  simp only [exact_rnd, exact_toI]
  have hfl : ∀ (a : ℚ) (n : Int), a < (n : ℚ) + 1 → Int.floor a ≤ n := by
    intro a n h
    have : Int.floor a < n + 1 := Int.floor_lt.mpr (by push_cast; exact h)
    omega
  exact ⟨x, y, z, ⟨hfl _ _ hx.1, Int.lt_ceil.mpr hx.2⟩, ⟨hfl _ _ hy.1, Int.lt_ceil.mpr hy.2⟩,
    ⟨hfl _ _ hz.1, Int.lt_ceil.mpr hz.2⟩, hb, rfl⟩

theorem mem_localRange (a : Int) : a ∈ localRange ↔ 0 ≤ a ∧ a < 16 := by
  rw [localRange, mem_intRange, CHUNK_SIZE]

/-- The boxes of `allSolidBlocks` are exactly the unit boxes of the cells at whose
centre `IsBlockAt` answers true. -/
theorem mem_allSolidBlocks (chunks : ChunkStore) (col : AABB) :
    col ∈ allSolidBlocks exact chunks ↔
      ∃ x y z : Int,
        IsBlockAt exact chunks (cellCentre exact x) (cellCentre exact y)
          (cellCentre exact z) = true ∧
        col = blockAABB exact x y z := by
  simp only [allSolidBlocks, chunkSolidBlocks, List.mem_flatMap, mem_localRange, CHUNK_SIZE]
  constructor
  · rintro ⟨e, -, lx, -, ly, -, lz, -, hm⟩
    split at hm
    · rename_i hb
      rw [List.mem_singleton] at hm
      exact ⟨_, _, _, hb, hm⟩
    · simp at hm
  · rintro ⟨x, y, z, hb, rfl⟩
    have hb2 := hb
    rw [IsBlockAt_cell_exact] at hb2
    unfold cellSolid at hb2
    cases hf : chunks.find ⟨x / 16, y / 16, z / 16⟩ with
    | none => rw [hf] at hb2; simp at hb2
    | some chunk =>
      have hmem := ChunkStore.find_some_mem chunks _ chunk hf
      have ex : x / 16 * 16 + x % 16 = x := by omega
      have ey : y / 16 * 16 + y % 16 = y := by omega
      have ez : z / 16 * 16 + z % 16 = z := by omega
      refine ⟨(⟨x / 16, y / 16, z / 16⟩, chunk), hmem, x % 16, by omega, y % 16, by omega,
        z % 16, by omega, ?_⟩
      simp only [ex, ey, ez]
      rw [if_pos hb]
      exact List.mem_singleton_self _

theorem candidateBlocks_subset_all (chunks : ChunkStore) (dt : ℚ) (state : KinematicState)
    (localAABB col : AABB) (h : col ∈ candidateBlocks exact chunks dt state localAABB) :
    col ∈ allSolidBlocks exact chunks :=
  (mem_allSolidBlocks chunks col).2 (mem_candidateBlocks_solid exact chunks dt state localAABB col h)

theorem blockAABB_max_get (x y z : Int) (a : Nat) :
    (blockAABB exact x y z).max.get a = (blockAABB exact x y z).min.get a + 1 := by
  rcases a with _ | _ | a <;> rfl

/-- The candidate test of `mem_candidateBlocks_of_near` stated per axis. -/
theorem mem_candidateBlocks_of_near_get (chunks : ChunkStore) (dt : ℚ) (state : KinematicState)
    (localAABB : AABB) (x y z : Int)
    (hb : IsBlockAt exact chunks (cellCentre exact x) (cellCentre exact y)
          (cellCentre exact z) = true)
    (h : ∀ a, a < 3 →
      ((GetAbsoluteBoundingBox exact state.position localAABB).min.get a - 1 / 100 <
          (blockAABB exact x y z).min.get a + 1 ∨
        (GetAbsoluteBoundingBox exact state.position localAABB).min.get a +
          (Vector3Scale exact state.velocity dt).get a - 1 / 100 < (blockAABB exact x y z).min.get a + 1) ∧
      ((blockAABB exact x y z).min.get a <
          (GetAbsoluteBoundingBox exact state.position localAABB).max.get a + 1 / 100 ∨
        (blockAABB exact x y z).min.get a <
          (GetAbsoluteBoundingBox exact state.position localAABB).max.get a +
            (Vector3Scale exact state.velocity dt).get a + 1 / 100)) :
    blockAABB exact x y z ∈ candidateBlocks exact chunks dt state localAABB := by
  have hadd := GetAbsoluteBoundingBox_add_get state.position (Vector3Scale exact state.velocity dt)
    localAABB
  have key : ∀ a, a < 3 →
      (min ((GetAbsoluteBoundingBox exact state.position localAABB).min.get a)
          ((GetAbsoluteBoundingBox exact (Vector3Add exact state.position (Vector3Scale exact state.velocity dt))
            localAABB).min.get a) - 1 / 100 < (blockAABB exact x y z).min.get a + 1) ∧
      ((blockAABB exact x y z).min.get a <
        max ((GetAbsoluteBoundingBox exact state.position localAABB).max.get a)
          ((GetAbsoluteBoundingBox exact (Vector3Add exact state.position (Vector3Scale exact state.velocity dt))
            localAABB).max.get a) + 1 / 100) := by
    intro a ha
    obtain ⟨h1, h2⟩ := h a ha
    rw [(hadd a).1, (hadd a).2]
    constructor
    · rcases h1 with h1 | h1
      · exact lt_of_le_of_lt (sub_le_sub_right (min_le_left _ _) _) h1
      · exact lt_of_le_of_lt (sub_le_sub_right (min_le_right _ _) _) h1
    · rcases h2 with h2 | h2
      · exact lt_of_lt_of_le h2 (add_le_add_right (le_max_left _ _) _)
      · exact lt_of_lt_of_le h2 (add_le_add_right (le_max_right _ _) _)
  exact mem_candidateBlocks_of_near chunks dt state localAABB x y z hb
    (key 0 (by decide)) (key 1 (by decide)) (key 2 (by decide))

theorem GetAbsoluteBoundingBox_wf_get (pos : Vector3) (aabb : AABB) (i : Nat)
    (h : aabb.min.get i ≤ aabb.max.get i) :
    (GetAbsoluteBoundingBox exact pos aabb).min.get i ≤ (GetAbsoluteBoundingBox exact pos aabb).max.get i := by
  simp only [GetAbsoluteBoundingBox, Vector3Add_get, exact_rnd]
  linarith

/-- A solid cell ahead of the body on axis `i` that overlaps it on the other two axes
and is closer than the intended displacement is among the candidates of the tick. -/
theorem solid_ahead_is_candidate (chunks : ChunkStore) (dt : ℚ) (state : KinematicState)
    (localAABB : AABB) (i : Nat) (hi : i < 3) (hwf : localAABB.min.get i ≤ localAABB.max.get i)
    (x y z : Int)
    (hb : IsBlockAt exact chunks (cellCentre exact x) (cellCentre exact y)
          (cellCentre exact z) = true)
    (ho : overlapsOtherAxes (GetAbsoluteBoundingBox exact state.position localAABB) (blockAABB exact x y z) i)
    (ha : (GetAbsoluteBoundingBox exact state.position localAABB).max.get i ≤
      (blockAABB exact x y z).min.get i)
    (hlt : (blockAABB exact x y z).min.get i -
      (GetAbsoluteBoundingBox exact state.position localAABB).max.get i <
        (Vector3Scale exact state.velocity dt).get i) :
    blockAABB exact x y z ∈ candidateBlocks exact chunks dt state localAABB := by
  apply mem_candidateBlocks_of_near_get chunks dt state localAABB x y z hb
  intro a ha3
  have hw := GetAbsoluteBoundingBox_wf_get state.position localAABB i hwf
  by_cases hai : a = i
  · subst hai
    exact ⟨Or.inl (by linarith), Or.inr (by linarith)⟩
  · unfold overlapsOtherAxes at ho
    have hcase : a = (i + 1) % 3 ∨ a = (i + 2) % 3 := by omega
    have hm := blockAABB_max_get x y z a
    rcases hcase with h | h
    · rw [← h] at ho
      exact ⟨Or.inl (by linarith [ho.1]), Or.inl (by linarith [ho.2.1])⟩
    · rw [← h] at ho
      exact ⟨Or.inl (by linarith [ho.2.2.1]), Or.inl (by linarith [ho.2.2.2])⟩

/-- A solid cell behind the body on axis `i` that overlaps it on the other two axes
and is closer than the intended displacement is among the candidates of the tick. -/
theorem solid_behind_is_candidate (chunks : ChunkStore) (dt : ℚ) (state : KinematicState)
    (localAABB : AABB) (i : Nat) (hi : i < 3) (hwf : localAABB.min.get i ≤ localAABB.max.get i)
    (x y z : Int)
    (hb : IsBlockAt exact chunks (cellCentre exact x) (cellCentre exact y)
          (cellCentre exact z) = true)
    (ho : overlapsOtherAxes (GetAbsoluteBoundingBox exact state.position localAABB) (blockAABB exact x y z) i)
    (ha : (blockAABB exact x y z).max.get i ≤
      (GetAbsoluteBoundingBox exact state.position localAABB).min.get i)
    (hgt : (Vector3Scale exact state.velocity dt).get i <
      (blockAABB exact x y z).max.get i -
        (GetAbsoluteBoundingBox exact state.position localAABB).min.get i) :
    blockAABB exact x y z ∈ candidateBlocks exact chunks dt state localAABB := by
  apply mem_candidateBlocks_of_near_get chunks dt state localAABB x y z hb
  intro a ha3
  have hw := GetAbsoluteBoundingBox_wf_get state.position localAABB i hwf
  have hm := blockAABB_max_get x y z a
  by_cases hai : a = i
  · subst hai
    exact ⟨Or.inr (by linarith), Or.inl (by linarith)⟩
  · unfold overlapsOtherAxes at ho
    have hcase : a = (i + 1) % 3 ∨ a = (i + 2) % 3 := by omega
    rcases hcase with h | h
    · rw [← h] at ho
      exact ⟨Or.inl (by linarith [ho.1]), Or.inl (by linarith [ho.2.1])⟩
    · rw [← h] at ho
      exact ⟨Or.inl (by linarith [ho.2.2.1]), Or.inl (by linarith [ho.2.2.2])⟩

/-- On every axis the scalar clamp over the candidates of the tick equals the scalar
clamp over all solid cells of the store. -/
theorem foldl_clampScalar_candidates_eq_all (chunks : ChunkStore) (dt : ℚ)
    (state : KinematicState) (localAABB : AABB) (i : Nat) (hi : i < 3)
    (hwf : localAABB.min.get i ≤ localAABB.max.get i) :
    (candidateBlocks exact chunks dt state localAABB).foldl
        (clampScalar exact (GetAbsoluteBoundingBox exact state.position localAABB) i)
        ((Vector3Scale exact state.velocity dt).get i) =
      (allSolidBlocks exact chunks).foldl
        (clampScalar exact (GetAbsoluteBoundingBox exact state.position localAABB) i)
        ((Vector3Scale exact state.velocity dt).get i) := by
  rcases le_total 0 ((Vector3Scale exact state.velocity dt).get i) with hd | hd
  · obtain ⟨-, c2, c3, c4⟩ := foldl_clampScalar_nonneg exact exact_keepsSign
      (GetAbsoluteBoundingBox exact state.position localAABB) i
      (candidateBlocks exact chunks dt state localAABB) _ hd
    obtain ⟨-, a2, a3, a4⟩ := foldl_clampScalar_nonneg exact exact_keepsSign
      (GetAbsoluteBoundingBox exact state.position localAABB) i (allSolidBlocks exact chunks) _ hd
    apply le_antisymm
    · rcases a4 with a4 | a4
      · rw [a4]; exact c2
      · have a5 := a4
        rw [mem_aheadGaps] at a5
        obtain ⟨col, hcol, ⟨ho, ha⟩, hgap⟩ := a5
        obtain ⟨x, y, z, hb, rfl⟩ := (mem_allSolidBlocks chunks col).1 hcol
        by_cases hlt : (blockAABB exact x y z).min.get i -
            (GetAbsoluteBoundingBox exact state.position localAABB).max.get i <
              (Vector3Scale exact state.velocity dt).get i
        · have hc := solid_ahead_is_candidate chunks dt state localAABB i hi hwf x y z hb ho ha hlt
          have := c3 _ ((mem_aheadGaps exact _ i _ _).2 ⟨_, hc, ⟨ho, ha⟩, rfl⟩)
          rw [hgap] at this
          exact this
        · rw [exact_rnd] at hgap
          rw [hgap] at hlt
          have : (allSolidBlocks exact chunks).foldl
              (clampScalar exact (GetAbsoluteBoundingBox exact state.position localAABB) i)
              ((Vector3Scale exact state.velocity dt).get i) = (Vector3Scale exact state.velocity dt).get i :=
            le_antisymm a2 (not_lt.mp hlt)
          rw [this]
          exact c2
    · rcases c4 with c4 | c4
      · rw [c4]; exact a2
      · rw [mem_aheadGaps] at c4
        obtain ⟨col, hcol, he, hgap⟩ := c4
        have := a3 _ ((mem_aheadGaps exact _ i _ _).2
          ⟨col, candidateBlocks_subset_all chunks dt state localAABB col hcol, he, rfl⟩)
        rw [hgap] at this
        exact this
  · obtain ⟨-, c2, c3, c4⟩ := foldl_clampScalar_nonpos exact exact_keepsSign
      (GetAbsoluteBoundingBox exact state.position localAABB) i
      (candidateBlocks exact chunks dt state localAABB) _ hd
    obtain ⟨-, a2, a3, a4⟩ := foldl_clampScalar_nonpos exact exact_keepsSign
      (GetAbsoluteBoundingBox exact state.position localAABB) i (allSolidBlocks exact chunks) _ hd
    apply le_antisymm
    · rcases c4 with c4 | c4
      · rw [c4]; exact a2
      · rw [mem_behindGaps] at c4
        obtain ⟨col, hcol, he, hgap⟩ := c4
        have := a3 _ ((mem_behindGaps exact _ i _ _).2
          ⟨col, candidateBlocks_subset_all chunks dt state localAABB col hcol, he, rfl⟩)
        rw [hgap] at this
        exact this
    · rcases a4 with a4 | a4
      · rw [a4]; exact c2
      · have a5 := a4
        rw [mem_behindGaps] at a5
        obtain ⟨col, hcol, ⟨ho, ha⟩, hgap⟩ := a5
        obtain ⟨x, y, z, hb, rfl⟩ := (mem_allSolidBlocks chunks col).1 hcol
        by_cases hgt : (Vector3Scale exact state.velocity dt).get i <
            (blockAABB exact x y z).max.get i -
              (GetAbsoluteBoundingBox exact state.position localAABB).min.get i
        · have hc := solid_behind_is_candidate chunks dt state localAABB i hi hwf x y z hb ho ha
            hgt
          have := c3 _ ((mem_behindGaps exact _ i _ _).2 ⟨_, hc, ⟨ho, ha⟩, rfl⟩)
          rw [hgap] at this
          exact this
        · rw [exact_rnd] at hgap
          rw [hgap] at hgt
          have : (allSolidBlocks exact chunks).foldl
              (clampScalar exact (GetAbsoluteBoundingBox exact state.position localAABB) i)
              ((Vector3Scale exact state.velocity dt).get i) = (Vector3Scale exact state.velocity dt).get i :=
            le_antisymm (not_lt.mp hgt) a2
          rw [this]
          exact c2

/-- C19 (amended): for every chunk store, body, time step and local box with
`min ≤ max` on every axis (arithmetic taken exactly), restricting the collision
candidates to the solid cells enumerated in the integer range from
`floor(area.min - 0.01)` to `ceil(area.max + 0.01)` of the union of the current and
intended-next box loses nothing: on every axis the displacement resolved by `UpdatePositionSystem` equals the
displacement obtained by running the same per-axis clamp over all solid cells of the
store (the unit boxes of all cells at whose centre `IsBlockAt` answers true). -/
theorem UpdatePositionSystem_candidates_complete (chunks : ChunkStore) (dt : ℚ)
    (state : KinematicState) (localAABB : AABB)
    (hwf : localAABB.min.x ≤ localAABB.max.x ∧ localAABB.min.y ≤ localAABB.max.y ∧
      localAABB.min.z ≤ localAABB.max.z) :
    (∀ col : AABB, col ∈ allSolidBlocks exact chunks ↔
      ∃ x y z : Int,
        IsBlockAt exact chunks (cellCentre exact x) (cellCentre exact y)
          (cellCentre exact z) = true ∧
        col = blockAABB exact x y z) ∧
    (∀ col ∈ candidateBlocks exact chunks dt state localAABB, col ∈ allSolidBlocks exact chunks) ∧
    (∀ axis : Fin 3,
      (resolvedMovement exact chunks dt state localAABB).get axis.val =
        (resolveMovement exact (GetAbsoluteBoundingBox exact state.position localAABB)
          (allSolidBlocks exact chunks) (Vector3Scale exact state.velocity dt)).get axis.val) ∧
    resolvedMovement exact chunks dt state localAABB =
      resolveMovement exact (GetAbsoluteBoundingBox exact state.position localAABB)
        (allSolidBlocks exact chunks) (Vector3Scale exact state.velocity dt) := by
  have hget : ∀ i, i < 3 → localAABB.min.get i ≤ localAABB.max.get i := by
    intro i hi
    interval_cases i
    · exact hwf.1
    · exact hwf.2.1
    · exact hwf.2.2
  have haxis : ∀ i, i < 3 →
      (resolvedMovement exact chunks dt state localAABB).get i =
        (resolveMovement exact (GetAbsoluteBoundingBox exact state.position localAABB)
          (allSolidBlocks exact chunks) (Vector3Scale exact state.velocity dt)).get i := by
    intro i hi
    unfold resolvedMovement
    rw [resolveMovement_get exact _ _ _ i hi, resolveMovement_get exact _ _ _ i hi]
    exact foldl_clampScalar_candidates_eq_all chunks dt state localAABB i hi (hget i hi)
  exact ⟨mem_allSolidBlocks chunks,
    fun col h => candidateBlocks_subset_all chunks dt state localAABB col h,
    fun axis => haxis axis.val axis.isLt,
    Vector3.ext_get _ _ (haxis 0 (by decide)) (haxis 1 (by decide)) (haxis 2 (by decide))⟩

/-- Witness for C19: the sliding body with the box of the player entity over
`floorStore`. -/
theorem UpdatePositionSystem_candidates_complete_witness :
    resolvedMovement exact floorStore 1 slidingState playerAABB =
      resolveMovement exact (GetAbsoluteBoundingBox exact slidingState.position playerAABB)
        (allSolidBlocks exact floorStore) (Vector3Scale exact slidingState.velocity 1) :=
  (UpdatePositionSystem_candidates_complete floorStore 1 slidingState playerAABB
    (by decide!)).2.2.2

/-- Counterexample for C19 (arithmetic taken exactly): the local box `invertedAABB`
has `min.y = 5 > max.y = 0`. For the body `risingState` at `(1/4, 0, 1/4)` moving up
by `1` over `originStore`, whose only solid cell is `(0, 0, 0)`, the swept region has
`min.y = 5` and `max.y = 1`, so the range of `y` runs from `floor(4.99) = 4` to
`ceil(1.01) = 2` and is empty: no candidate is enumerated and the resolved
displacement on `y` is `1`. The cell `(0, 0, 0)` overlaps the body on `x` and `z` and
has `cell.min.y = 0 ≥ body.max.y = 0`, so the same clamp run over all solid cells of
the store gives the displacement `0` on `y`. -/
theorem UpdatePositionSystem_candidates_inverted_box :
    ¬ (invertedAABB.min.y ≤ invertedAABB.max.y) ∧
    candidateBlocks exact originStore 1 risingState invertedAABB = [] ∧
    (resolvedMovement exact originStore 1 risingState invertedAABB).get 1 = 1 ∧
    blockAABB exact 0 0 0 ∈ allSolidBlocks exact originStore ∧
    (resolveMovement exact (GetAbsoluteBoundingBox exact risingState.position invertedAABB)
      (allSolidBlocks exact originStore) (Vector3Scale exact risingState.velocity 1)).get 1 = 0 ∧
    (resolvedMovement exact originStore 1 risingState invertedAABB).get 1 ≠
      (resolveMovement exact (GetAbsoluteBoundingBox exact risingState.position invertedAABB)
        (allSolidBlocks exact originStore) (Vector3Scale exact risingState.velocity 1)).get 1 := by
  have h1 : candidateBlocks exact originStore 1 risingState invertedAABB = [] := by decide!
  have h2 : (resolvedMovement exact originStore 1 risingState invertedAABB).get 1 = 1 := by
    unfold resolvedMovement
    rw [h1]
    decide!
  have h3 : blockAABB exact 0 0 0 ∈ allSolidBlocks exact originStore :=
    (mem_allSolidBlocks originStore _).2 ⟨0, 0, 0, by decide!, rfl⟩
  have h4 : (resolveMovement exact
      (GetAbsoluteBoundingBox exact risingState.position invertedAABB)
      (allSolidBlocks exact originStore) (Vector3Scale exact risingState.velocity 1)).get 1 = 0 := by
    rw [resolveMovement_get exact _ _ _ 1 (by decide)]
    obtain ⟨a1, -, a3, -⟩ := foldl_clampScalar_nonneg exact exact_keepsSign
      (GetAbsoluteBoundingBox exact risingState.position invertedAABB) 1
      (allSolidBlocks exact originStore) ((Vector3Scale exact risingState.velocity 1).get 1)
      (by decide!)
    have hg := a3 0 ((mem_aheadGaps exact _ 1 _ _).2 ⟨_, h3, by decide!, by decide!⟩)
    exact le_antisymm hg a1
  refine ⟨by decide!, h1, h2, h3, h4, ?_⟩
  rw [h2, h4]
  decide


theorem aoTableOK_all : ∀ f, f < 6 → ∀ v, v < 4 → aoTableOK f v := by
  decide!

theorem aoCellsAgree_box : ∀ f, f < 6 → ∀ v, v < 4 → ∀ a ∈ intRange (-2) 3,
    ∀ b ∈ intRange (-2) 3, ∀ c ∈ intRange (-2) 3, aoCellsAgree f v (a, b, c) := by
  decide!

theorem faceVertex_unit : ∀ f, f < 6 → ∀ v, v < 4 →
    ((faceVertex f v).x = 0 ∨ (faceVertex f v).x = 1) ∧
    ((faceVertex f v).y = 0 ∨ (faceVertex f v).y = 1) ∧
    ((faceVertex f v).z = 0 ∨ (faceVertex f v).z = 1) := by
  decide!

theorem aoOffset_bounds : ∀ f, f < 6 → ∀ v, v < 4 → ∀ k, k < 3 →
    (-1 ≤ (aoOffset f v k).1 ∧ (aoOffset f v k).1 ≤ 1) ∧
    (-1 ≤ (aoOffset f v k).2.1 ∧ (aoOffset f v k).2.1 ≤ 1) ∧
    (-1 ≤ (aoOffset f v k).2.2 ∧ (aoOffset f v k).2.2 ≤ 1) := by
  decide!

theorem corner_coordinate_bound (q : ℚ) (a : Int) (hq : q = 0 ∨ q = 1)
    (h : q = (a : ℚ) ∨ q = (a : ℚ) + 1) : -1 ≤ a ∧ a ≤ 1 := by
  rcases hq with rfl | rfl <;> rcases h with h | h
  · have : a = 0 := by exact_mod_cast h.symm
    omega
  · have : a + 1 = 0 := by exact_mod_cast h.symm
    omega
  · have : a = 1 := by exact_mod_cast h.symm
    omega
  · have : a + 1 = 1 := by exact_mod_cast h.symm
    omega

/-- The three sampled cells are exactly the cells, other than the adjacent cell, of
the adjacent cell's layer that have the quad vertex as a corner. -/
theorem aoCellsAgree_all (f : Nat) (hf : f < 6) (v : Nat) (hv : v < 4) (o : Int × Int × Int) :
    aoCellsAgree f v o := by
  obtain ⟨a, b, c⟩ := o
  by_cases hbox : (-2 ≤ a ∧ a < 3) ∧ (-2 ≤ b ∧ b < 3) ∧ (-2 ≤ c ∧ c < 3)
  · exact aoCellsAgree_box f hf v hv a ((mem_intRange _ _ _).2 hbox.1) b
      ((mem_intRange _ _ _).2 hbox.2.1) c ((mem_intRange _ _ _).2 hbox.2.2)
  · have hd := faceDir_bounds f hf
    have hu := faceVertex_unit f hf v hv
    unfold aoCellsAgree
    constructor
    · rintro ⟨⟨h1, h2, h3⟩, -, -⟩
      have b1 := corner_coordinate_bound _ a hu.1 h1
      have b2 := corner_coordinate_bound _ b hu.2.1 h2
      have b3 := corner_coordinate_bound _ c hu.2.2 h3
      exact absurd ⟨by omega, by omega, by omega⟩ hbox
    · intro h
      exfalso
      apply hbox
      rcases h with h | h | h
      · have hb := aoOffset_bounds f hf v hv 0 (by decide)
        simp only [Prod.mk_add_mk, Prod.mk.injEq, Prod.ext_iff, Prod.fst_add, Prod.snd_add] at h
        refine ⟨?_, ?_, ?_⟩ <;> omega
      · have hb := aoOffset_bounds f hf v hv 1 (by decide)
        simp only [Prod.mk_add_mk, Prod.mk.injEq, Prod.ext_iff, Prod.fst_add, Prod.snd_add] at h
        refine ⟨?_, ?_, ?_⟩ <;> omega
      · have hb := aoOffset_bounds f hf v hv 2 (by decide)
        simp only [Prod.mk_add_mk, Prod.mk.injEq, Prod.ext_iff, Prod.fst_add, Prod.snd_add] at h
        refine ⟨?_, ?_, ?_⟩ <;> omega

/-- C17: for every face `f` (0..5) and corner `v` (0..3), the table filled by
`PrecomputeAO` holds two side offsets `s1`, `s2` that are each non-zero along exactly
one axis, along two distinct axes, both orthogonal to the face normal (which is the
face direction of `FaceChecks`), with the value `+1` or `-1` given by the vertex's
direction `2 * (p - 1/2)` from the cube centre on that axis, and a corner offset equal
to `s1 + s2`; the integer casts used by `GenerateMesh` are exact. Consequently the
three cells sampled for ambient occlusion (adjacent cell `+ s1`, `+ s2`, `+ s1 + s2`)
are exactly the cells, other than the adjacent cell itself, that lie in the adjacent
cell's layer and have the quad vertex as one of their corners. -/
theorem PrecomputeAO_table (f : Nat) (hf : f < 6) (v : Nat) (hv : v < 4) :
    (faceCheck f = faceNormal f ∧
      CachedAOOffsets f v 2 =
        ⟨(CachedAOOffsets f v 0).x + (CachedAOOffsets f v 1).x,
         (CachedAOOffsets f v 0).y + (CachedAOOffsets f v 1).y,
         (CachedAOOffsets f v 0).z + (CachedAOOffsets f v 1).z⟩ ∧
      (differingAxes (CachedAOOffsets f v 0) ⟨0, 0, 0⟩ = 1 ∧
        differingAxes (CachedAOOffsets f v 1) ⟨0, 0, 0⟩ = 1 ∧
        differingAxes (CachedAOOffsets f v 0) (CachedAOOffsets f v 1) = 2) ∧
      ((faceNormal f).x * (CachedAOOffsets f v 0).x +
          (faceNormal f).y * (CachedAOOffsets f v 0).y +
          (faceNormal f).z * (CachedAOOffsets f v 0).z = 0 ∧
        (faceNormal f).x * (CachedAOOffsets f v 1).x +
          (faceNormal f).y * (CachedAOOffsets f v 1).y +
          (faceNormal f).z * (CachedAOOffsets f v 1).z = 0) ∧
      (∀ a, a < 3 →
        (2 * ((faceVertex f v).get a - 1 / 2) = 1 ∨ 2 * ((faceVertex f v).get a - 1 / 2) = -1) ∧
        ((CachedAOOffsets f v 0).get a = 0 ∨
          (CachedAOOffsets f v 0).get a = 2 * ((faceVertex f v).get a - 1 / 2)) ∧
        ((CachedAOOffsets f v 1).get a = 0 ∨
          (CachedAOOffsets f v 1).get a = 2 * ((faceVertex f v).get a - 1 / 2))) ∧
      (∀ k, k < 3 →
        (((aoOffset f v k).1 : Int) : ℚ) = (CachedAOOffsets f v k).x ∧
        (((aoOffset f v k).2.1 : Int) : ℚ) = (CachedAOOffsets f v k).y ∧
        (((aoOffset f v k).2.2 : Int) : ℚ) = (CachedAOOffsets f v k).z)) ∧
    (∀ o : Int × Int × Int,
      (cellHasCorner o (faceVertex f v) ∧
          (faceDir f).1 * (o.1 - (faceDir f).1) + (faceDir f).2.1 * (o.2.1 - (faceDir f).2.1) +
            (faceDir f).2.2 * (o.2.2 - (faceDir f).2.2) = 0 ∧ o ≠ faceDir f) ↔
        (o = faceDir f + aoOffset f v 0 ∨ o = faceDir f + aoOffset f v 1 ∨
          o = faceDir f + aoOffset f v 2)) ∧
    (∀ (voxels : PaddedBuffer) (nx ny nz : Int),
      aoSide1 voxels f nx ny nz v =
        getV voxels (nx + (aoOffset f v 0).1) (ny + (aoOffset f v 0).2.1)
          (nz + (aoOffset f v 0).2.2) ∧
      aoSide2 voxels f nx ny nz v =
        getV voxels (nx + (aoOffset f v 1).1) (ny + (aoOffset f v 1).2.1)
          (nz + (aoOffset f v 1).2.2) ∧
      aoCorner voxels f nx ny nz v =
        getV voxels (nx + (aoOffset f v 2).1) (ny + (aoOffset f v 2).2.1)
          (nz + (aoOffset f v 2).2.2)) :=
  ⟨aoTableOK_all f hf v hv, fun o => aoCellsAgree_all f hf v hv o,
    fun _ _ _ _ => ⟨rfl, rfl, rfl⟩⟩

/-- Witness for C17: corner `1` of the top face (`f = 0`): the corner offset is the
sum of the two side offsets. -/
theorem PrecomputeAO_table_witness :
    CachedAOOffsets 0 1 2 =
      ⟨(CachedAOOffsets 0 1 0).x + (CachedAOOffsets 0 1 1).x,
       (CachedAOOffsets 0 1 0).y + (CachedAOOffsets 0 1 1).y,
       (CachedAOOffsets 0 1 0).z + (CachedAOOffsets 0 1 1).z⟩ :=
  (PrecomputeAO_table 0 (by decide) 1 (by decide)).1.2.1

/-- The sum of the face direction and of an ambient-occlusion offset stays within one
cell of the origin on every axis: the offsets are orthogonal to the face direction. -/
theorem faceDir_add_aoOffset_bounds : ∀ f, f < 6 → ∀ v, v < 4 → ∀ k, k < 3 →
    (-1 ≤ (faceDir f).1 + (aoOffset f v k).1 ∧ (faceDir f).1 + (aoOffset f v k).1 ≤ 1) ∧
    (-1 ≤ (faceDir f).2.1 + (aoOffset f v k).2.1 ∧
      (faceDir f).2.1 + (aoOffset f v k).2.1 ≤ 1) ∧
    (-1 ≤ (faceDir f).2.2 + (aoOffset f v k).2.2 ∧
      (faceDir f).2.2 + (aoOffset f v k).2.2 ≤ 1) := by
  decide!

/-- C21: for every interior cell `(x, y, z)` (indices 1..16), every face `f` and
every corner `v`, the adjacent cell and the three ambient-occlusion sample cells that
`GenerateMesh` reads have all their coordinates in `0..17`; so at each of these reads
the out-of-range branch of `getV` is not taken and the value is the buffer cell
`voxels[..][..][..] != 0` itself, as is the read of the cell `(x, y, z)`. -/
theorem GenerateMesh_reads_in_bounds (x y z : Int) (f v : Nat)
    (hx : 1 ≤ x ∧ x ≤ 16) (hy : 1 ≤ y ∧ y ≤ 16) (hz : 1 ≤ z ∧ z ≤ 16)
    (hf : f < 6) (hv : v < 4) :
    ((0 ≤ x ∧ x ≤ 17) ∧ (0 ≤ y ∧ y ≤ 17) ∧ (0 ≤ z ∧ z ≤ 17)) ∧
    ((0 ≤ x + (faceDir f).1 ∧ x + (faceDir f).1 ≤ 17) ∧
      (0 ≤ y + (faceDir f).2.1 ∧ y + (faceDir f).2.1 ≤ 17) ∧
      (0 ≤ z + (faceDir f).2.2 ∧ z + (faceDir f).2.2 ≤ 17)) ∧
    (∀ k, k < 3 →
      (0 ≤ x + (faceDir f).1 + (aoOffset f v k).1 ∧
        x + (faceDir f).1 + (aoOffset f v k).1 ≤ 17) ∧
      (0 ≤ y + (faceDir f).2.1 + (aoOffset f v k).2.1 ∧
        y + (faceDir f).2.1 + (aoOffset f v k).2.1 ≤ 17) ∧
      (0 ≤ z + (faceDir f).2.2 + (aoOffset f v k).2.2 ∧
        z + (faceDir f).2.2 + (aoOffset f v k).2.2 ≤ 17)) ∧
    (∀ voxels : PaddedBuffer,
      getV voxels (x + toInt (faceCheck f).x) (y + toInt (faceCheck f).y)
          (z + toInt (faceCheck f).z) =
        (voxels (x + (faceDir f).1) (y + (faceDir f).2.1) (z + (faceDir f).2.2) != 0) ∧
      aoSide1 voxels f (x + (faceDir f).1) (y + (faceDir f).2.1) (z + (faceDir f).2.2) v =
        (voxels (x + (faceDir f).1 + (aoOffset f v 0).1)
          (y + (faceDir f).2.1 + (aoOffset f v 0).2.1)
          (z + (faceDir f).2.2 + (aoOffset f v 0).2.2) != 0) ∧
      aoSide2 voxels f (x + (faceDir f).1) (y + (faceDir f).2.1) (z + (faceDir f).2.2) v =
        (voxels (x + (faceDir f).1 + (aoOffset f v 1).1)
          (y + (faceDir f).2.1 + (aoOffset f v 1).2.1)
          (z + (faceDir f).2.2 + (aoOffset f v 1).2.2) != 0) ∧
      aoCorner voxels f (x + (faceDir f).1) (y + (faceDir f).2.1) (z + (faceDir f).2.2) v =
        (voxels (x + (faceDir f).1 + (aoOffset f v 2).1)
          (y + (faceDir f).2.1 + (aoOffset f v 2).2.1)
          (z + (faceDir f).2.2 + (aoOffset f v 2).2.2) != 0)) := by
  have hd := faceDir_bounds f hf
  have hk : ∀ k, k < 3 →
      (0 ≤ x + (faceDir f).1 + (aoOffset f v k).1 ∧
        x + (faceDir f).1 + (aoOffset f v k).1 ≤ 17) ∧
      (0 ≤ y + (faceDir f).2.1 + (aoOffset f v k).2.1 ∧
        y + (faceDir f).2.1 + (aoOffset f v k).2.1 ≤ 17) ∧
      (0 ≤ z + (faceDir f).2.2 + (aoOffset f v k).2.2 ∧
        z + (faceDir f).2.2 + (aoOffset f v k).2.2 ≤ 17) := by
    intro k hk
    have hb := faceDir_add_aoOffset_bounds f hf v hv k hk
    refine ⟨⟨?_, ?_⟩, ⟨?_, ?_⟩, ⟨?_, ?_⟩⟩ <;> omega
  refine ⟨⟨by omega, by omega, by omega⟩, ⟨by omega, by omega, by omega⟩, hk, ?_⟩
  intro voxels
  have h0 := hk 0 (by decide)
  have h1 := hk 1 (by decide)
  have h2 := hk 2 (by decide)
  refine ⟨?_, ?_, ?_, ?_⟩
  · exact getV_inside voxels (x + (faceDir f).1) (y + (faceDir f).2.1) (z + (faceDir f).2.2)
      (by omega) (by omega) (by omega)
  · exact getV_inside voxels _ _ _ h0.1 h0.2.1 h0.2.2
  · exact getV_inside voxels _ _ _ h1.1 h1.2.1 h1.2.2
  · exact getV_inside voxels _ _ _ h2.1 h2.2.1 h2.2.2

/-- Witness for C21: the cell `(1, 1, 1)`, its bottom face (`f = 1`) and corner `0`:
the adjacent cell `(1, 0, 1)` lies in the border layer, inside the buffer. -/
theorem GenerateMesh_reads_in_bounds_witness :
    (0 ≤ (1 : Int) + (faceDir 1).1 ∧ (1 : Int) + (faceDir 1).1 ≤ 17) ∧
    (0 ≤ (1 : Int) + (faceDir 1).2.1 ∧ (1 : Int) + (faceDir 1).2.1 ≤ 17) ∧
    (0 ≤ (1 : Int) + (faceDir 1).2.2 ∧ (1 : Int) + (faceDir 1).2.2 ≤ 17) :=
  (GenerateMesh_reads_in_bounds 1 1 1 1 0 (by decide) (by decide) (by decide) (by decide)
    (by decide)).2.1

/-- The table facts hold for all six faces (by evaluation). -/
theorem faceTableOK_all : ∀ f, f < 6 → faceTableOK f := by
  decide!

/-- A unit square with the corners `p0`, `p1`, `p2` and `p3 = p1 + p2 - p0` is covered
by the triangles `(p0, p1, p2)`, `(p2, p1, p3)` and also by the triangles
`(p0, p1, p3)`, `(p0, p3, p2)`. -/
theorem cover_of_frame (p0 p1 p2 p3 q : Vector3) (s t : ℚ) (hs0 : 0 ≤ s) (hs1 : s ≤ 1)
    (ht0 : 0 ≤ t) (ht1 : t ≤ 1)
    (h3 : p3.x = p1.x + p2.x - p0.x ∧ p3.y = p1.y + p2.y - p0.y ∧ p3.z = p1.z + p2.z - p0.z)
    (hq : q.x = p0.x + s * (p1.x - p0.x) + t * (p2.x - p0.x) ∧
      q.y = p0.y + s * (p1.y - p0.y) + t * (p2.y - p0.y) ∧
      q.z = p0.z + s * (p1.z - p0.z) + t * (p2.z - p0.z)) :
    (inTriangle p0 p1 p2 q ∨ inTriangle p2 p1 p3 q) ∧
    (inTriangle p0 p1 p3 q ∨ inTriangle p0 p3 p2 q) := by
  obtain ⟨hx, hy, hz⟩ := hq
  obtain ⟨h3x, h3y, h3z⟩ := h3
  constructor
  · by_cases h : s + t ≤ 1
    · left
      refine ⟨1 - s - t, s, t, by linarith, hs0, ht0, by ring, ?_, ?_, ?_⟩
      · rw [hx]; ring
      · rw [hy]; ring
      · rw [hz]; ring
    · right
      refine ⟨1 - s, 1 - t, s + t - 1, by linarith, by linarith, by linarith, by ring, ?_, ?_, ?_⟩
      · rw [hx, h3x]; ring
      · rw [hy, h3y]; ring
      · rw [hz, h3z]; ring
  · by_cases h : t ≤ s
    · left
      refine ⟨1 - s, s - t, t, by linarith, by linarith, ht0, by ring, ?_, ?_, ?_⟩
      · rw [hx, h3x]; ring
      · rw [hy, h3y]; ring
      · rw [hz, h3z]; ring
    · right
      refine ⟨1 - t, s, t - s, by linarith, hs0, by linarith, by ring, ?_, ?_, ?_⟩
      · rw [hx, h3x]; ring
      · rw [hy, h3y]; ring
      · rw [hz, h3z]; ring

/-- A convex combination of three points of a side of the unit cube lies on that side. -/
theorem onCubeSide_of_inTriangle (n a b c q : Vector3) (ha : onCubeSide n a)
    (hb : onCubeSide n b) (hc : onCubeSide n c) (h : inTriangle a b c q) : onCubeSide n q := by
  obtain ⟨u, v, w, hu, hv, hw, hsum, hx, hy, hz⟩ := h
  obtain ⟨⟨ax0, ax1⟩, ⟨ay0, ay1⟩, ⟨az0, az1⟩, had⟩ := ha
  obtain ⟨⟨bx0, bx1⟩, ⟨by0, by1⟩, ⟨bz0, bz1⟩, hbd⟩ := hb
  obtain ⟨⟨cx0, cx1⟩, ⟨cy0, cy1⟩, ⟨cz0, cz1⟩, hcd⟩ := hc
  unfold Vector3DotProduct at had hbd hcd
  simp only at had hbd hcd
  refine ⟨⟨?_, ?_⟩, ⟨?_, ?_⟩, ⟨?_, ?_⟩, ?_⟩
  · rw [hx]
    exact add_nonneg (add_nonneg (mul_nonneg hu ax0) (mul_nonneg hv bx0)) (mul_nonneg hw cx0)
  · rw [hx]
    have h1 := mul_le_of_le_one_right hu ax1
    have h2 := mul_le_of_le_one_right hv bx1
    have h3 := mul_le_of_le_one_right hw cx1
    linarith
  · rw [hy]
    exact add_nonneg (add_nonneg (mul_nonneg hu ay0) (mul_nonneg hv by0)) (mul_nonneg hw cy0)
  · rw [hy]
    have h1 := mul_le_of_le_one_right hu ay1
    have h2 := mul_le_of_le_one_right hv by1
    have h3 := mul_le_of_le_one_right hw cy1
    linarith
  · rw [hz]
    exact add_nonneg (add_nonneg (mul_nonneg hu az0) (mul_nonneg hv bz0)) (mul_nonneg hw cz0)
  · rw [hz]
    have h1 := mul_le_of_le_one_right hu az1
    have h2 := mul_le_of_le_one_right hv bz1
    have h3 := mul_le_of_le_one_right hw cz1
    linarith
  · unfold Vector3DotProduct
    simp only
    linear_combination n.x * hx + n.y * hy + n.z * hz + u * had + v * hbd + w * hcd +
      (1 / 2 + (n.x + n.y + n.z) / 2) * hsum

/-- Every point of the side of the unit cube facing `FaceNormals[f]` is reached by
both triangulations of the quad of face `f`. -/
theorem face_cover (f : Nat) (hf : f < 6) (q : Vector3) (hq : onCubeSide (faceNormal f) q) :
    (inTriangle (faceVertex f 0) (faceVertex f 1) (faceVertex f 2) q ∨
      inTriangle (faceVertex f 2) (faceVertex f 1) (faceVertex f 3) q) ∧
    (inTriangle (faceVertex f 0) (faceVertex f 1) (faceVertex f 3) q ∨
      inTriangle (faceVertex f 0) (faceVertex f 3) (faceVertex f 2) q) := by
  obtain ⟨qx, qy, qz⟩ := q
  obtain ⟨⟨x0, x1⟩, ⟨y0, y1⟩, ⟨z0, z1⟩, hd⟩ := hq
  simp only at x0 x1 y0 y1 z0 z1
  apply cover_of_frame _ _ _ _ _
    (Vector3DotProduct (Vector3Subtract ⟨qx, qy, qz⟩ (faceVertex f 0))
      (Vector3Subtract (faceVertex f 1) (faceVertex f 0)))
    (Vector3DotProduct (Vector3Subtract ⟨qx, qy, qz⟩ (faceVertex f 0))
      (Vector3Subtract (faceVertex f 2) (faceVertex f 0)))
  · interval_cases f <;>
      simp only [Vector3DotProduct, Vector3Subtract, faceVertex, FaceVertexIndices,
        CubeVertices, faceNormal, FaceNormals, List.getD_cons_zero, List.getD_cons_succ]
        at hd ⊢ <;>
      norm_num at hd ⊢ <;> linarith
  · interval_cases f <;>
      simp only [Vector3DotProduct, Vector3Subtract, faceVertex, FaceVertexIndices,
        CubeVertices, faceNormal, FaceNormals, List.getD_cons_zero, List.getD_cons_succ]
        at hd ⊢ <;>
      norm_num at hd ⊢ <;> linarith
  · interval_cases f <;>
      simp only [Vector3DotProduct, Vector3Subtract, faceVertex, FaceVertexIndices,
        CubeVertices, faceNormal, FaceNormals, List.getD_cons_zero, List.getD_cons_succ]
        at hd ⊢ <;>
      norm_num at hd ⊢ <;> linarith
  · interval_cases f <;>
      simp only [Vector3DotProduct, Vector3Subtract, faceVertex, FaceVertexIndices,
        CubeVertices, faceNormal, FaceNormals, List.getD_cons_zero, List.getD_cons_succ]
        at hd ⊢ <;>
      norm_num at hd ⊢ <;> linarith
  · exact (faceTableOK_all f hf).2.2.2.2
  · refine ⟨?_, ?_, ?_⟩ <;> interval_cases f <;>
      simp only [Vector3DotProduct, Vector3Subtract, faceVertex, FaceVertexIndices,
        CubeVertices, faceNormal, FaceNormals, List.getD_cons_zero, List.getD_cons_succ]
        at hd ⊢ <;>
      norm_num at hd ⊢ <;> linarith

/-- The cross product of a triangle of an emitted face does not depend on the cell:
the cell position is added to all corners alike. -/
theorem triangleCross_quadCorner (x y z : Int) (f : Nat) (t : Nat × Nat × Nat) :
    triangleCross (quadCorner (x, y, z, f)) t = triangleCross (faceVertex f) t := by
  have h : ∀ a b, Vector3Subtract (quadCorner (x, y, z, f) a) (quadCorner (x, y, z, f) b) =
      Vector3Subtract (faceVertex f a) (faceVertex f b) := by
    intro a b
    simp only [Vector3Subtract, quadCorner, Vector3.mk.injEq]
    refine ⟨?_, ?_, ?_⟩ <;> ring
  unfold triangleCross
  rw [h, h]

/-- The index pattern of an emitted face is one of the two triangulations. -/
theorem quadTriangles_cases (voxels : PaddedBuffer) (p : Face) :
    quadTriangles voxels p = [0, 1, 2, 2, 1, 3] ∨ quadTriangles voxels p = [0, 1, 3, 0, 3, 2] := by
  unfold quadTriangles
  simp only
  split
  · exact Or.inl rfl
  · exact Or.inr rfl

/-- C22: for each of the six faces `f`, the check direction `FaceChecks[f]` equals the
normal `FaceNormals[f]`, which is not zero; the four corners selected by
`FaceVertexIndices[f]` lie on the side of the unit cube facing it; the twelve position
floats of an emitted face are these corners moved to the cell; the six indices of an
emitted face are one of the triangulations `(0,1,2)+(2,1,3)` and `(0,1,3)+(0,3,2)`;
every triangle `(a, b, c)` of both triangulations has the cross product
`(p_b - p_a) × (p_c - p_a)` equal to `1` times the normal (a positive multiple, so the
triangle is not degenerate and all triangles wind the same way), for the corners of
the table and for the positions of any emitted face; and for each triangulation the
points of its two triangles are exactly the points of that side of the cube. -/
theorem face_winding_and_cover (f : Nat) (hf : f < 6) :
    faceCheck f = faceNormal f ∧ faceNormal f ≠ ⟨0, 0, 0⟩ ∧
    (∀ v, v < 4 → onCubeSide (faceCheck f) (faceVertex f v)) ∧
    (∀ x y z : Int, quadVertices (x, y, z, f) =
      (List.range 4).flatMap fun k =>
        [(quadCorner (x, y, z, f) k).x, (quadCorner (x, y, z, f) k).y,
         (quadCorner (x, y, z, f) k).z]) ∧
    (∀ (voxels : PaddedBuffer) (x y z : Int),
      trianglesOf (quadTriangles voxels (x, y, z, f)) = [(0, 1, 2), (2, 1, 3)] ∨
      trianglesOf (quadTriangles voxels (x, y, z, f)) = [(0, 1, 3), (0, 3, 2)]) ∧
    (∀ t ∈ [((0 : Nat), (1 : Nat), (2 : Nat)), (2, 1, 3), (0, 1, 3), (0, 3, 2)],
      (0 : ℚ) < 1 ∧ triangleCross (faceVertex f) t = Vector3Scale machine (faceNormal f) 1 ∧
      triangleCross (faceVertex f) t ≠ ⟨0, 0, 0⟩) ∧
    (∀ (voxels : PaddedBuffer) (x y z : Int),
      ∀ t ∈ trianglesOf (quadTriangles voxels (x, y, z, f)),
        triangleCross (quadCorner (x, y, z, f)) t = Vector3Scale machine (faceNormal f) 1) ∧
    (∀ q : Vector3, onCubeSide (faceCheck f) q ↔
      (inTriangle (faceVertex f 0) (faceVertex f 1) (faceVertex f 2) q ∨
        inTriangle (faceVertex f 2) (faceVertex f 1) (faceVertex f 3) q)) ∧
    (∀ q : Vector3, onCubeSide (faceCheck f) q ↔
      (inTriangle (faceVertex f 0) (faceVertex f 1) (faceVertex f 3) q ∨
        inTriangle (faceVertex f 0) (faceVertex f 3) (faceVertex f 2) q)) := by
  obtain ⟨hcn, hn0, hside, hcross, -⟩ := faceTableOK_all f hf
  have hone : Vector3Scale machine (faceNormal f) 1 = faceNormal f := by
    interval_cases f <;> decide!
  have hcross1 : ∀ t ∈ [((0 : Nat), (1 : Nat), (2 : Nat)), (2, 1, 3), (0, 1, 3), (0, 3, 2)],
      triangleCross (faceVertex f) t = Vector3Scale machine (faceNormal f) 1 := by
    intro t ht
    rw [hone]
    exact hcross t ht
  have htri : ∀ (voxels : PaddedBuffer) (x y z : Int),
      trianglesOf (quadTriangles voxels (x, y, z, f)) = [(0, 1, 2), (2, 1, 3)] ∨
      trianglesOf (quadTriangles voxels (x, y, z, f)) = [(0, 1, 3), (0, 3, 2)] := by
    intro voxels x y z
    rcases quadTriangles_cases voxels (x, y, z, f) with h | h
    · left
      rw [h]
      rfl
    · right
      rw [h]
      rfl
  refine ⟨hcn, hn0, hside, fun _ _ _ => rfl, htri, ?_, ?_, ?_, ?_⟩
  · intro t ht
    refine ⟨one_pos, hcross1 t ht, ?_⟩
    rw [hcross t ht]
    exact hn0
  · intro voxels x y z t ht
    rw [triangleCross_quadCorner]
    apply hcross1
    rcases htri voxels x y z with h | h <;> rw [h] at ht <;>
      simp only [List.mem_cons, List.mem_singleton, List.not_mem_nil, or_false] at ht ⊢ <;>
      tauto
  · intro q
    rw [hcn]
    constructor
    · intro hq
      exact (face_cover f hf q hq).1
    · rw [← hcn]
      rintro (h | h)
      · exact onCubeSide_of_inTriangle _ _ _ _ _ (hside 0 (by decide)) (hside 1 (by decide))
          (hside 2 (by decide)) h
      · exact onCubeSide_of_inTriangle _ _ _ _ _ (hside 2 (by decide)) (hside 1 (by decide))
          (hside 3 (by decide)) h
  · intro q
    rw [hcn]
    constructor
    · intro hq
      exact (face_cover f hf q hq).2
    · rw [← hcn]
      rintro (h | h)
      · exact onCubeSide_of_inTriangle _ _ _ _ _ (hside 0 (by decide)) (hside 1 (by decide))
          (hside 3 (by decide)) h
      · exact onCubeSide_of_inTriangle _ _ _ _ _ (hside 0 (by decide)) (hside 3 (by decide))
          (hside 2 (by decide)) h

/-- Witness for C22: the top face (`f = 0`): the first triangle `(0, 1, 2)` has the
cross product `1` times the normal `(0, 1, 0)`. -/
theorem face_winding_and_cover_witness :
    (0 : ℚ) < 1 ∧ triangleCross (faceVertex 0) (0, 1, 2) = Vector3Scale machine (faceNormal 0) 1 ∧
      triangleCross (faceVertex 0) (0, 1, 2) ≠ ⟨0, 0, 0⟩ :=
  (face_winding_and_cover 0 (by decide)).2.2.2.2.2.1 (0, 1, 2) (List.mem_cons_self _ _)


end Voxel
